import Mathlib

/-!
VUPlayer: the VU meter and the command surface of the main window

A shallow embedding of the member functions of `VUMeter` (src/VUMeter.cpp: level
smoothing, render thread, bitmaps) and of parts of `VUPlayer` (src/VUPlayer.cpp: the
transport, volume, pitch, skip and bling cases of `OnCommand`, `OnTimer`, the Add to
Playlist menu, `OnMusicBrainzQuery`, `SetTitlebarText`, `OnDeviceChange`, `OnConvert` and
`OnCommandLineFiles`).

Conventions of the embedding:

* C++ `float` code is embedded twice.  The definitions under `Binary32` follow IEEE 754
  binary32: values are NaN, an infinity or a finite rational (`F32`), every arithmetic
  operation rounds its exact result to the nearest binary32 value, ties to even, and a
  comparison with a NaN is false.  The definitions of the same names outside `Binary32`
  (`VUMeter.GetLevels`, `OnCommand`, `AllowSkip`, `VUMeter.Full.GetPinPosition`) are the
  exact-arithmetic reading of the same lines over the rationals (`ℚ`), with the literals
  `0.2f`, `0.01f`, `0.1f` read as `1/5`, `1/100`, `1/10`; they have neither rounding nor
  NaN and are used where a statement is about the arithmetic the source text spells out.
* Calls that a handler makes on collaborators (`m_Output`, `m_Settings`,
  `m_VolumeControl`) are recorded, in program order, as a list of `Call`s.
* Values a handler reads from collaborators are fields of an environment structure
  (`Env`, `SkipEnv`, `TimerEnv`, `MenuEnv`, `PaintEnv`, `ConvertEnv`, `CommandLineEnv`).
* Constants and functions of headers that are not among the sources (`VU_PINCOUNT`,
  `TIMER_SYSTRAY`, `IsURL`, `GetFileExtension`) are parameters of the functions that use
  them.
-/

namespace VUPlayer

/-! ## Definitions -/

/-- The value of `std::clamp( v, lo, hi )` on rationals:
`( v < lo ) ? lo : ( hi < v ) ? hi : v`. -/
def clamp (v lo hi : ℚ) : ℚ :=
  if v < lo then lo else if hi < v then hi else v

/-- Rise factor (`s_RiseFactor = 0.2f`, src/VUMeter.cpp line 9), read exactly as `0.2`;
the binary32 value is `Binary32.s_RiseFactor`. -/
def s_RiseFactor : ℚ := 1 / 5

/-- The data members of `VUMeter` that `GetLevels` reads or writes, in the
exact-arithmetic reading (levels are rationals). -/
structure VUMeter where
  /-- Current output level, `{ left, right }`. -/
  m_OutputLevel : ℚ × ℚ
  /-- Left display level. -/
  m_LeftDisplayLevel : ℚ
  /-- Right display level. -/
  m_RightDisplayLevel : ℚ
  /-- Decay amount per tick (`GetSettings().GetVUMeterDecay()`). -/
  m_Decay : ℚ
  /-- Whether the meter is stereo. -/
  m_IsStereo : Bool
deriving DecidableEq, Repr

namespace VUMeter

/-- State set up by the constructor `VUMeter::VUMeter` (src/VUMeter.cpp lines 23-40):
output level `{}`, both display levels `0`. -/
def new (decay : ℚ) (stereo : Bool) : VUMeter where
  m_OutputLevel := (0, 0)
  m_LeftDisplayLevel := 0
  m_RightDisplayLevel := 0
  m_Decay := decay
  m_IsStereo := stereo

/-- The function `VUMeter::GetLevels` (src/VUMeter.cpp lines 99-141) in the
exact-arithmetic reading: the same statements with rational levels and unrounded
operations (no NaN, no rounding); `Binary32.VUMeter.GetLevels` is the binary32 reading.
`raw` is the pair that `GetOutput().GetLevels( leftOutput, rightOutput )` leaves in
`m_OutputLevel`.  Returns `levelsChanged` and the meter afterwards. -/
def GetLevels (m : VUMeter) (raw : ℚ × ℚ) : Bool × VUMeter :=
  -- GetOutput().GetLevels( leftOutput, rightOutput );
  let leftOutput := raw.1
  let rightOutput := raw.2
  -- if ( !m_IsStereo ) { if ( leftOutput > rightOutput ) rightOutput = leftOutput; else leftOutput = rightOutput; }
  let collapsed : ℚ × ℚ :=
    if !m.m_IsStereo then
      if leftOutput > rightOutput then (leftOutput, leftOutput) else (rightOutput, rightOutput)
    else (leftOutput, rightOutput)
  -- leftOutput = std::clamp( leftOutput, 0.0f, 1.0f ); rightOutput = std::clamp( rightOutput, 0.0f, 1.0f );
  let leftOutput := clamp collapsed.1 0 1
  let rightOutput := clamp collapsed.2 0 1
  -- left channel
  let leftDisplay :=
    if m.m_LeftDisplayLevel < leftOutput then
      m.m_LeftDisplayLevel + (leftOutput - m.m_LeftDisplayLevel) * s_RiseFactor
    else
      let decayed := m.m_LeftDisplayLevel - m.m_Decay
      if decayed < leftOutput then leftOutput else decayed
  -- right channel
  let rightDisplay :=
    if m.m_RightDisplayLevel < rightOutput then
      m.m_RightDisplayLevel + (rightOutput - m.m_RightDisplayLevel) * s_RiseFactor
    else
      let decayed := m.m_RightDisplayLevel - m.m_Decay
      if decayed < rightOutput then rightOutput else decayed
  let levelsChanged : Bool :=
    decide (leftDisplay ≠ m.m_LeftDisplayLevel) || decide (rightDisplay ≠ m.m_RightDisplayLevel)
  if levelsChanged then
    (true, { m with m_OutputLevel := (leftOutput, rightOutput),
                    m_LeftDisplayLevel := leftDisplay,
                    m_RightDisplayLevel := rightDisplay })
  else
    (false, { m with m_OutputLevel := (leftOutput, rightOutput) })

/-- The meter after one `GetLevels` call. -/
def tick (m : VUMeter) (raw : ℚ × ℚ) : VUMeter := (m.GetLevels raw).2

/-- The meter after a run of `GetLevels` calls, one per element of `raws`
(the iterations of `RenderThreadHandler`, src/VUMeter.cpp lines 88-97). -/
def ticks (m : VUMeter) (raws : List (ℚ × ℚ)) : VUMeter := raws.foldl tick m

/-- The two meter channels. -/
inductive Channel where
  | left
  | right
deriving DecidableEq, Repr

/-- Component of a `{ left, right }` pair for a channel. -/
def Channel.of (p : ℚ × ℚ) : Channel → ℚ
  | .left => p.1
  | .right => p.2

/-- Display level of a channel (`m_LeftDisplayLevel` / `m_RightDisplayLevel`). -/
def display (m : VUMeter) : Channel → ℚ
  | .left => m.m_LeftDisplayLevel
  | .right => m.m_RightDisplayLevel

/-- Stored output level of a channel (component of `m_OutputLevel`). -/
def output (m : VUMeter) (ch : Channel) : ℚ := ch.of m.m_OutputLevel

/-- Value of a channel of `m_OutputLevel` at src/VUMeter.cpp line 110, after the mono
collapse of lines 103-109 and before `std::clamp`. -/
def preClamp (stereo : Bool) (raw : ℚ × ℚ) (ch : Channel) : ℚ :=
  if stereo then ch.of raw else max raw.1 raw.2

/-- Closed form of the stored output pair, used to state lemmas about `GetLevels`. -/
def outputOf (stereo : Bool) (raw : ℚ × ℚ) : ℚ × ℚ :=
  (clamp (preClamp stereo raw .left) 0 1, clamp (preClamp stereo raw .right) 0 1)

/-- Closed form of the per-channel smoothing of src/VUMeter.cpp lines 116-132, used to
state lemmas about `GetLevels`. -/
def smooth (display output decay : ℚ) : ℚ :=
  if display < output then display + (output - display) * s_RiseFactor
  else if display - decay < output then output else display - decay

end VUMeter

/-! ### Binary32 arithmetic

The type `float` of the sources is IEEE 754 binary32.  The definitions of this part give
its arithmetic on exact rationals: every operation computes the exact result and rounds it
to the nearest binary32 value, ties to even (the default rounding mode; each operation of
an expression is rounded on its own, as with SSE code generation).  The sign of zero is not
represented: no embedded expression divides by a zero that could be negative. -/

namespace F32

/-- The integer nearest to `q`, the even one of the two when `q` lies halfway. -/
def roundEven (q : ℚ) : ℤ :=
  let f := ⌊q⌋
  if q - f < 1 / 2 then f
  else if 1 / 2 < q - f then f + 1
  else if f % 2 = 0 then f else f + 1

/-- Helper of `log2`: halve `n` until it is below `2`, at most `fuel` times. -/
def log2Fuel : ℕ → ℕ → ℕ
  | 0, _ => 0
  | fuel + 1, n => if n < 2 then 0 else log2Fuel fuel (n / 2) + 1

/-- Base 2 logarithm of a positive natural number, rounded down. -/
def log2 (n : ℕ) : ℕ := log2Fuel n n

/-- The binary32 exponent of `x`: the `e` with `2 ^ e ≤ |x| < 2 ^ (e + 1)`, but `-126`
for every `x` below the smallest normal number `2 ^ (-126)` (subnormal numbers). -/
def exponent (x : ℚ) : ℤ :=
  let k : ℤ := (log2 x.num.natAbs : ℤ) - (log2 x.den : ℤ)
  let e : ℤ := if (2 : ℚ) ^ k ≤ |x| then k else k - 1
  max e (-126)

/-- Distance between neighbouring binary32 values around `x` (24 significant bits). -/
def ulp (x : ℚ) : ℚ := (2 : ℚ) ^ (exponent x - 23)

/-- The rational `x` rounded to the nearest binary32 value, ties to even, with an
unbounded exponent range upwards. -/
def round (x : ℚ) : ℚ := roundEven (x / ulp x) * ulp x

/-- The largest finite binary32 value, `(2 ^ 24 - 1) * 2 ^ 104` (`FLT_MAX`). -/
def maxFinite : ℚ := (2 ^ 24 - 1) * 2 ^ 104

end F32

/-- A value of the C++ type `float`: a NaN, an infinity with its sign, or a finite value.
The values that arithmetic produces are binary32 values (`F32.round` leaves them
unchanged). -/
inductive F32 where
  /-- A NaN. -/
  | nan
  /-- The infinity of the given sign. -/
  | inf (negative : Bool)
  /-- A finite value. -/
  | fin (value : ℚ)
deriving DecidableEq, Repr

namespace F32

/-- Conversion of an exact result to `float`: round to nearest; a result whose
rounding exceeds `FLT_MAX` in magnitude overflows to the infinity of its sign. -/
def ofRat (x : ℚ) : F32 :=
  let r := round x
  if maxFinite < r then inf false else if r < -maxFinite then inf true else fin r

/-- Conversion of an integer to `float` (`static_cast<float>`, or the usual arithmetic
conversion of an integer operand). -/
def ofInt (n : ℤ) : F32 := ofRat n

/-- Unary minus. -/
def neg : F32 → F32
  | nan => nan
  | inf s => inf (!s)
  | fin x => fin (-x)

/-- The operator `+` on `float`. -/
def add : F32 → F32 → F32
  | fin x, fin y => ofRat (x + y)
  | inf s, inf t => if s = t then inf s else nan
  | inf s, fin _ => inf s
  | fin _, inf t => inf t
  | _, _ => nan

/-- The operator `-` on `float`. -/
def sub (a b : F32) : F32 := add a (neg b)

/-- The operator `*` on `float`. -/
def mul : F32 → F32 → F32
  | fin x, fin y => ofRat (x * y)
  | inf s, inf t => inf (xor s t)
  | inf s, fin y => if y = 0 then nan else inf (xor s (decide (y < 0)))
  | fin x, inf t => if x = 0 then nan else inf (xor (decide (x < 0)) t)
  | _, _ => nan

/-- The operator `/` on `float`; a zero divisor is taken as `+0`. -/
def div : F32 → F32 → F32
  | fin x, fin y =>
    if y = 0 then (if x = 0 then nan else inf (decide (x < 0))) else ofRat (x / y)
  | fin _, inf _ => fin 0
  | inf s, fin y => inf (xor s (decide (y < 0)))
  | _, _ => nan

/-- The operator `<` on `float`: false whenever an operand is a NaN. -/
def lt : F32 → F32 → Bool
  | fin x, fin y => decide (x < y)
  | fin _, inf t => !t
  | inf s, fin _ => s
  | inf s, inf t => s && !t
  | _, _ => false

/-- The operator `!=` on `float`: true whenever an operand is a NaN. -/
def ne : F32 → F32 → Bool
  | fin x, fin y => decide (x ≠ y)
  | inf s, inf t => s != t
  | _, _ => true

/-- Whether a `float` is a finite value in `[0, 1]`. -/
def inUnit : F32 → Bool
  | fin x => decide (0 ≤ x ∧ x ≤ 1)
  | _ => false

end F32

namespace Binary32

/-- The value of `std::clamp( v, lo, hi )` on `float`:
`( v < lo ) ? lo : ( hi < v ) ? hi : v`. -/
def clamp (v lo hi : F32) : F32 :=
  if v.lt lo then lo else if hi.lt v then hi else v

/-- Rise factor (`s_RiseFactor = 0.2f`, src/VUMeter.cpp line 9): the binary32 value nearest
to `0.2`, which is `13421773 / 67108864`. -/
def s_RiseFactor : F32 := F32.ofRat (1 / 5)

/-- The data members of `VUMeter` that `GetLevels` reads or writes, as `float`s. -/
structure VUMeter where
  /-- Current output level, `{ left, right }`. -/
  m_OutputLevel : F32 × F32
  /-- Left display level. -/
  m_LeftDisplayLevel : F32
  /-- Right display level. -/
  m_RightDisplayLevel : F32
  /-- Decay amount per tick (`GetSettings().GetVUMeterDecay()`). -/
  m_Decay : F32
  /-- Whether the meter is stereo. -/
  m_IsStereo : Bool
deriving DecidableEq, Repr

namespace VUMeter

/-- State set up by the constructor `VUMeter::VUMeter` (src/VUMeter.cpp lines 23-40):
output level `{}`, both display levels `0`. -/
def new (decay : F32) (stereo : Bool) : VUMeter where
  m_OutputLevel := (.fin 0, .fin 0)
  m_LeftDisplayLevel := .fin 0
  m_RightDisplayLevel := .fin 0
  m_Decay := decay
  m_IsStereo := stereo

/-- The function `VUMeter::GetLevels` (src/VUMeter.cpp lines 99-141) in binary32
arithmetic.  `raw` is the pair that `GetOutput().GetLevels( leftOutput, rightOutput )`
leaves in `m_OutputLevel`.  Returns `levelsChanged` and the meter afterwards. -/
def GetLevels (m : VUMeter) (raw : F32 × F32) : Bool × VUMeter :=
  -- GetOutput().GetLevels( leftOutput, rightOutput );
  let leftOutput := raw.1
  let rightOutput := raw.2
  -- if ( !m_IsStereo ) { if ( leftOutput > rightOutput ) rightOutput = leftOutput; else leftOutput = rightOutput; }
  let collapsed : F32 × F32 :=
    if !m.m_IsStereo then
      if rightOutput.lt leftOutput then (leftOutput, leftOutput) else (rightOutput, rightOutput)
    else (leftOutput, rightOutput)
  -- leftOutput = std::clamp( leftOutput, 0.0f, 1.0f ); rightOutput = std::clamp( rightOutput, 0.0f, 1.0f );
  let leftOutput := clamp collapsed.1 (.fin 0) (.fin 1)
  let rightOutput := clamp collapsed.2 (.fin 0) (.fin 1)
  -- left channel
  let leftDisplay :=
    if m.m_LeftDisplayLevel.lt leftOutput then
      m.m_LeftDisplayLevel.add ((leftOutput.sub m.m_LeftDisplayLevel).mul s_RiseFactor)
    else
      let decayed := m.m_LeftDisplayLevel.sub m.m_Decay
      if decayed.lt leftOutput then leftOutput else decayed
  -- right channel
  let rightDisplay :=
    if m.m_RightDisplayLevel.lt rightOutput then
      m.m_RightDisplayLevel.add ((rightOutput.sub m.m_RightDisplayLevel).mul s_RiseFactor)
    else
      let decayed := m.m_RightDisplayLevel.sub m.m_Decay
      if decayed.lt rightOutput then rightOutput else decayed
  let levelsChanged : Bool :=
    leftDisplay.ne m.m_LeftDisplayLevel || rightDisplay.ne m.m_RightDisplayLevel
  if levelsChanged then
    (true, { m with m_OutputLevel := (leftOutput, rightOutput),
                    m_LeftDisplayLevel := leftDisplay,
                    m_RightDisplayLevel := rightDisplay })
  else
    (false, { m with m_OutputLevel := (leftOutput, rightOutput) })

/-- The meter after one `GetLevels` call. -/
def tick (m : VUMeter) (raw : F32 × F32) : VUMeter := (m.GetLevels raw).2

/-- The meter after a run of `GetLevels` calls, one per element of `raws`. -/
def ticks (m : VUMeter) (raws : List (F32 × F32)) : VUMeter := raws.foldl tick m

/-- Component of a `{ left, right }` pair for a channel. -/
def component (p : F32 × F32) : VUPlayer.VUMeter.Channel → F32
  | .left => p.1
  | .right => p.2

/-- Display level of a channel (`m_LeftDisplayLevel` / `m_RightDisplayLevel`). -/
def display (m : VUMeter) : VUPlayer.VUMeter.Channel → F32
  | .left => m.m_LeftDisplayLevel
  | .right => m.m_RightDisplayLevel

/-- Stored output level of a channel (component of `m_OutputLevel`). -/
def output (m : VUMeter) (ch : VUPlayer.VUMeter.Channel) : F32 := component m.m_OutputLevel ch

/-- Value of a channel of `m_OutputLevel` at src/VUMeter.cpp line 110, after the mono
collapse of lines 103-109 and before `std::clamp`. -/
def preClamp (stereo : Bool) (raw : F32 × F32) (ch : VUPlayer.VUMeter.Channel) : F32 :=
  if stereo then component raw ch else if raw.2.lt raw.1 then raw.1 else raw.2

/-- Closed form of the per-channel smoothing of src/VUMeter.cpp lines 116-132, used to
state lemmas about `GetLevels`. -/
def smooth (display output decay : F32) : F32 :=
  if display.lt output then display.add ((output.sub display).mul s_RiseFactor)
  else if (display.sub decay).lt output then output else display.sub decay

/-- A silent pair of raw levels, `( 0.0f, 0.0f )`. -/
def silence : F32 × F32 := (.fin 0, .fin 0)

end VUMeter

end Binary32

/-- Modelled from the spec: the enumeration `Output::State` (declared in Output.h, which
is not among the sources).  Section 3 gives OutputState as the enumeration of Stopped,
Playing and Paused. -/
inductive Output.State where
  | Stopped
  | Playing
  | Paused
deriving DecidableEq, Repr

/-- Pitch range options (`Settings::PitchRange`, src/Settings.h lines 72-76). -/
inductive Settings.PitchRange where
  | Small
  | Medium
  | Large
deriving DecidableEq, Repr

/-- The command IDs of `VUPlayer::OnCommand` that are embedded here. -/
inductive Command where
  | ID_CONTROL_PLAY
  | ID_TRAY_PLAY
  | ID_CONTROL_STOP
  | ID_CONTROL_VOLUMEDOWN
  | ID_CONTROL_VOLUMEUP
  | ID_CONTROL_PITCHDOWN
  | ID_CONTROL_PITCHUP
  | ID_CONTROL_PITCHRESET
  | ID_CONTROL_PITCHRANGE_SMALL
  | ID_CONTROL_PITCHRANGE_MEDIUM
  | ID_CONTROL_PITCHRANGE_LARGE
  | ID_BLING1
  | ID_BLING2
  | ID_BLING3
  | ID_BLING4
deriving DecidableEq, Repr

/-- A call made by a handler on one of its collaborators. -/
inductive Call where
  /-- The call `m_Output.Pause()`. -/
  | Output_Pause
  /-- The call `m_Output.Play( playlist, item.ID )`; `playlist` identifies the playlist. -/
  | Output_Play (playlist : ℕ) (itemID : ℤ)
  /-- The call `m_Output.Stop()`. -/
  | Output_Stop
  /-- The call `m_Output.SetVolume( volume )`. -/
  | Output_SetVolume (volume : ℚ)
  /-- The call `m_Output.SetPitch( pitch )`. -/
  | Output_SetPitch (pitch : ℚ)
  /-- The call `m_Settings.SetPitchRange( range )`. -/
  | Settings_SetPitchRange (range : Settings.PitchRange)
  /-- The call `m_VolumeControl.Update()`. -/
  | VolumeControl_Update
  /-- The call `m_Output.Bling( blingID )`. -/
  | Output_Bling (blingID : ℤ)
deriving DecidableEq, Repr

/-- What a handler reads from its collaborators, in the exact-arithmetic reading
(volume, pitch and range factors are rationals). -/
structure Env where
  /-- Result of `m_Output.GetState()`. -/
  state : Output.State
  /-- Result of `m_List.GetPlaylist()`: `none` for a null pointer. -/
  playlist : Option ℕ
  /-- Field `ID` of `m_List.GetCurrentSelectedItem()`. -/
  selectedID : ℤ
  /-- Result of `m_Output.GetVolume()`. -/
  volume : ℚ
  /-- Result of `m_Output.GetPitch()` at the point where the handler reads it. -/
  pitch : ℚ
  /-- Result of `m_Settings.GetPitchRange()` on entry to the handler. -/
  pitchRange : Settings.PitchRange
  /-- Result of `m_Settings.GetPitchRangeOptions()[ range ]`; the table
  (`Settings::s_PitchRanges`) is defined outside the sources. -/
  pitchRangeOptions : Settings.PitchRange → ℚ

/-- The cases of `VUPlayer::OnCommand` (src/VUPlayer.cpp lines 608-1140) for the embedded
command IDs, as the list of calls made, in the exact-arithmetic reading: the volume and
pitch expressions are evaluated over the rationals, unrounded; `Binary32.OnCommand` is the
binary32 reading.  The two readings make the same transport and bling calls. -/
def OnCommand (commandID : Command) (env : Env) : List Call :=
  match commandID with
  | .ID_CONTROL_PLAY | .ID_TRAY_PLAY =>
    match env.state with
    | .Paused | .Playing => [.Output_Pause]
    | _ =>
      match env.playlist with
      | some playlist =>
        if 0 ≠ env.selectedID then [.Output_Play playlist env.selectedID] else []
      | none => []
  | .ID_CONTROL_STOP => [.Output_Stop]
  | .ID_CONTROL_VOLUMEDOWN =>
    let volume := env.volume - 1 / 100
    let volume := if volume < 0 then 0 else volume
    [.Output_SetVolume volume, .VolumeControl_Update]
  | .ID_CONTROL_VOLUMEUP =>
    let volume := env.volume + 1 / 100
    let volume := if volume > 1 then 1 else volume
    [.Output_SetVolume volume, .VolumeControl_Update]
  | .ID_CONTROL_PITCHDOWN | .ID_CONTROL_PITCHUP =>
    let pitchRange := env.pitchRangeOptions env.pitchRange
    if pitchRange > 0 then
      let pitchAdjustment :=
        pitchRange * (if Command.ID_CONTROL_PITCHDOWN = commandID then -1 else 1) / 100
      [.Output_SetPitch (env.pitch + pitchAdjustment), .VolumeControl_Update]
    else []
  | .ID_CONTROL_PITCHRESET => [.Output_SetPitch 1, .VolumeControl_Update]
  | .ID_CONTROL_PITCHRANGE_SMALL | .ID_CONTROL_PITCHRANGE_MEDIUM
  | .ID_CONTROL_PITCHRANGE_LARGE =>
    let previousPitchRangeSetting := env.pitchRange
    let currentPitchRangeSetting : Settings.PitchRange :=
      if Command.ID_CONTROL_PITCHRANGE_SMALL = commandID then .Small
      else if Command.ID_CONTROL_PITCHRANGE_MEDIUM = commandID then .Medium else .Large
    if currentPitchRangeSetting ≠ previousPitchRangeSetting then
      let previousPitch := env.pitch
      .Settings_SetPitchRange currentPitchRangeSetting ::
        (if previousPitch ≠ 1 then
          let previousPitchRange := env.pitchRangeOptions previousPitchRangeSetting
          let currentPitchRange := env.pitchRangeOptions currentPitchRangeSetting
          if previousPitchRange > 0 ∧ currentPitchRange > 0 then
            let updatedPitch := 1 + (previousPitch - 1) * (currentPitchRange / previousPitchRange)
            [.Output_SetPitch updatedPitch]
          else []
        else [])
    else []
  | .ID_BLING1 | .ID_BLING2 | .ID_BLING3 | .ID_BLING4 =>
    let bling : ℤ :=
      if Command.ID_BLING1 = commandID then 1
      else if Command.ID_BLING2 = commandID then 2
      else if Command.ID_BLING3 = commandID then 3 else 4
    [.Output_Bling bling]

/-- The tail of the constructor `VUPlayer::VUPlayer` (src/VUPlayer.cpp lines 148-168):
the calls made on `m_Output`, given `m_Settings.GetPlayOnStartup()`. -/
def playOnStartup (enabled : Bool) (env : Env) : List Call :=
  if enabled then
    match env.state with
    | .Paused | .Playing => [.Output_Pause]
    | _ =>
      match env.playlist with
      | some playlist =>
        if 0 ≠ env.selectedID then [.Output_Play playlist env.selectedID] else []
      | none => []
  else []

/-- The command ID that selects a pitch range (src/VUPlayer.cpp lines 818-819 read
backwards). -/
def pitchRangeCommand : Settings.PitchRange → Command
  | .Small => .ID_CONTROL_PITCHRANGE_SMALL
  | .Medium => .ID_CONTROL_PITCHRANGE_MEDIUM
  | .Large => .ID_CONTROL_PITCHRANGE_LARGE

namespace Binary32

/-- A call made by a handler on one of its collaborators, with `float` arguments. -/
inductive Call where
  /-- The call `m_Output.Pause()`. -/
  | Output_Pause
  /-- The call `m_Output.Play( playlist, item.ID )`; `playlist` identifies the playlist. -/
  | Output_Play (playlist : ℕ) (itemID : ℤ)
  /-- The call `m_Output.Stop()`. -/
  | Output_Stop
  /-- The call `m_Output.SetVolume( volume )`. -/
  | Output_SetVolume (volume : F32)
  /-- The call `m_Output.SetPitch( pitch )`. -/
  | Output_SetPitch (pitch : F32)
  /-- The call `m_Settings.SetPitchRange( range )`. -/
  | Settings_SetPitchRange (range : Settings.PitchRange)
  /-- The call `m_VolumeControl.Update()`. -/
  | VolumeControl_Update
  /-- The call `m_Output.Bling( blingID )`. -/
  | Output_Bling (blingID : ℤ)
deriving DecidableEq, Repr

/-- What a handler reads from its collaborators, volume and pitch being `float`s. -/
structure Env where
  /-- Result of `m_Output.GetState()`. -/
  state : Output.State
  /-- Result of `m_List.GetPlaylist()`: `none` for a null pointer. -/
  playlist : Option ℕ
  /-- Field `ID` of `m_List.GetCurrentSelectedItem()`. -/
  selectedID : ℤ
  /-- Result of `m_Output.GetVolume()`. -/
  volume : F32
  /-- Result of `m_Output.GetPitch()` at the point where the handler reads it. -/
  pitch : F32
  /-- Result of `m_Settings.GetPitchRange()` on entry to the handler. -/
  pitchRange : Settings.PitchRange
  /-- Result of `m_Settings.GetPitchRangeOptions()[ range ]`; the table
  (`Settings::s_PitchRanges`) is defined outside the sources. -/
  pitchRangeOptions : Settings.PitchRange → F32

/-- The cases of `VUPlayer::OnCommand` (src/VUPlayer.cpp lines 608-1140) for the embedded
command IDs in binary32 arithmetic, as the list of calls made.  An integer operand of a
`float` operation is converted to `float` first. -/
def OnCommand (commandID : Command) (env : Env) : List Call :=
  match commandID with
  | .ID_CONTROL_PLAY | .ID_TRAY_PLAY =>
    match env.state with
    | .Paused | .Playing => [.Output_Pause]
    | _ =>
      match env.playlist with
      | some playlist =>
        if 0 ≠ env.selectedID then [.Output_Play playlist env.selectedID] else []
      | none => []
  | .ID_CONTROL_STOP => [.Output_Stop]
  | .ID_CONTROL_VOLUMEDOWN =>
    -- float volume = m_Output.GetVolume() - 0.01f; if ( volume < 0.0f ) volume = 0.0f;
    let volume := env.volume.sub (F32.ofRat (1 / 100))
    let volume := if volume.lt (F32.ofRat 0) then F32.ofRat 0 else volume
    [.Output_SetVolume volume, .VolumeControl_Update]
  | .ID_CONTROL_VOLUMEUP =>
    -- float volume = m_Output.GetVolume() + 0.01f; if ( volume > 1.0f ) volume = 1.0f;
    let volume := env.volume.add (F32.ofRat (1 / 100))
    let volume := if (F32.ofRat 1).lt volume then F32.ofRat 1 else volume
    [.Output_SetVolume volume, .VolumeControl_Update]
  | .ID_CONTROL_PITCHDOWN | .ID_CONTROL_PITCHUP =>
    let pitchRange := env.pitchRangeOptions env.pitchRange
    if (F32.ofInt 0).lt pitchRange then
      -- const float pitchAdjustment = pitchRange * ( ( ID_CONTROL_PITCHDOWN == commandID ) ? -1 : 1 ) / 100;
      let pitchAdjustment :=
        (pitchRange.mul
          (F32.ofInt (if Command.ID_CONTROL_PITCHDOWN = commandID then -1 else 1))).div
          (F32.ofInt 100)
      [.Output_SetPitch (env.pitch.add pitchAdjustment), .VolumeControl_Update]
    else []
  | .ID_CONTROL_PITCHRESET => [.Output_SetPitch (F32.ofRat 1), .VolumeControl_Update]
  | .ID_CONTROL_PITCHRANGE_SMALL | .ID_CONTROL_PITCHRANGE_MEDIUM
  | .ID_CONTROL_PITCHRANGE_LARGE =>
    let previousPitchRangeSetting := env.pitchRange
    let currentPitchRangeSetting : Settings.PitchRange :=
      if Command.ID_CONTROL_PITCHRANGE_SMALL = commandID then .Small
      else if Command.ID_CONTROL_PITCHRANGE_MEDIUM = commandID then .Medium else .Large
    if currentPitchRangeSetting ≠ previousPitchRangeSetting then
      let previousPitch := env.pitch
      .Settings_SetPitchRange currentPitchRangeSetting ::
        (if previousPitch.ne (F32.ofRat 1) then
          let previousPitchRange := env.pitchRangeOptions previousPitchRangeSetting
          let currentPitchRange := env.pitchRangeOptions currentPitchRangeSetting
          if (F32.ofInt 0).lt previousPitchRange ∧ (F32.ofInt 0).lt currentPitchRange then
            -- const float updatedPitch = 1.0f + ( previousPitch - 1.0f ) * ( currentPitchRange / previousPitchRange );
            let updatedPitch :=
              (F32.ofRat 1).add
                ((previousPitch.sub (F32.ofRat 1)).mul
                  (currentPitchRange.div previousPitchRange))
            [.Output_SetPitch updatedPitch]
          else []
        else [])
    else []
  | .ID_BLING1 | .ID_BLING2 | .ID_BLING3 | .ID_BLING4 =>
    let bling : ℤ :=
      if Command.ID_BLING1 = commandID then 1
      else if Command.ID_BLING2 = commandID then 2
      else if Command.ID_BLING3 = commandID then 3 else 4
    [.Output_Bling bling]

/-- A sample environment: output stopped, playlist `7` shown with item `3` selected,
volume `0.5`, pitch `1.25`, the large pitch range active, range factors `10` (small),
`20` (medium) and `30` (large). -/
def Env.sample : Env where
  state := .Stopped
  playlist := some 7
  selectedID := 3
  volume := .fin (1 / 2)
  pitch := .fin (5 / 4)
  pitchRange := .Large
  pitchRangeOptions := fun r =>
    match r with
    | .Small => .fin 10
    | .Medium => .fin 20
    | .Large => .fin 30

end Binary32

/-- Modelled from the spec: the transport operations of the output engine (class
`Output`, whose implementation is not among the sources), section 4.1. -/
inductive Transport.Op where
  | Play (itemID : ℤ)
  | Pause
  | Resume
  | Stop
deriving DecidableEq, Repr

/-- Modelled from the spec: the transition table of section 4.1 for the transport
operations of `Output` (implementation not among the sources).  Play fails silently
(no-op, state unchanged) if the item is invalid (ID = 0) and otherwise transitions to
Playing; Pause and Resume are valid only from Playing and Paused respectively and are
otherwise no-ops; Stop transitions to Stopped from any state. -/
def Transport.step (s : Output.State) : Transport.Op → Output.State
  | .Play itemID => if itemID = 0 then s else .Playing
  | .Pause => if s = .Playing then .Paused else s
  | .Resume => if s = .Paused then .Playing else s
  | .Stop => .Stopped

/-- The transport operation that a call invokes, if it is one. -/
def Call.op : Call → Option Transport.Op
  | .Output_Play _ itemID => some (.Play itemID)
  | .Output_Pause => some .Pause
  | .Output_Stop => some .Stop
  | _ => none

/-- Effect of one call on the output state: transport calls follow `Transport.step`; the
other calls are not transport operations and leave the state alone. -/
def Call.apply (s : Output.State) (c : Call) : Output.State :=
  match c.op with
  | some op => Transport.step s op
  | none => s

/-- The application state followed across events: the output state and the VU meter
that polls the output's levels. -/
structure App where
  output : Output.State
  meter : Binary32.VUMeter

/-- An event on the UI thread or the meter's render thread. -/
inductive Event where
  /-- A command reaches `OnCommand`; `ctx` holds what the handler reads, its `state` field
  being replaced by the output state at that moment. -/
  | command (commandID : Command) (ctx : Env)
  /-- The meter polls the output's levels (`VUMeter::GetLevels`) and is handed `raw`. -/
  | levelRead (raw : F32 × F32)

/-- One event: the new application state and the calls made on collaborators. -/
def App.step (a : App) : Event → App × List Call
  | .command commandID ctx =>
    let calls := OnCommand commandID { ctx with state := a.output }
    ({ a with output := calls.foldl Call.apply a.output }, calls)
  | .levelRead raw => ({ a with meter := (a.meter.GetLevels raw).2 }, [])

/-- A sequence of events: the final application state and all calls made, in order. -/
def App.run (a : App) : List Event → App × List Call
  | [] => (a, [])
  | e :: es =>
    let r := a.step e
    let rest := App.run r.1 es
    (rest.1, r.2 ++ rest.2)

/-- A sample environment: output stopped, playlist `7` shown with item `3` selected,
volume `1/2`, pitch `11/10`, medium pitch range, range factors `5`, `10` and `20`. -/
def Env.sample : Env where
  state := .Stopped
  playlist := some 7
  selectedID := 3
  volume := 1 / 2
  pitch := 11 / 10
  pitchRange := .Medium
  pitchRangeOptions := fun r =>
    match r with
    | .Small => 5
    | .Medium => 10
    | .Large => 20

/-- Skip repeat limit interval, in seconds (`s_SkipLimitInterval = 0.1f`,
src/VUPlayer.cpp line 36), read exactly as `0.1`; the binary32 value is
`Binary32.s_SkipLimitInterval`. -/
def s_SkipLimitInterval : ℚ := 1 / 10

/-- Modelled from the spec: the type `Output::Item` (declared in Output.h, which is not
among the sources), with the members the embedded handlers read.  Section 3 gives the
OutputSnapshot as the current PlaybackItem (stable integer ID, cached duration), the
elapsed position and the stream title. -/
structure Output.Item where
  /-- Member `PlaylistItem.ID`. -/
  ID : ℤ
  /-- Result of `PlaylistItem.Info.GetDuration()`. -/
  Duration : ℚ
  /-- Member `Position`. -/
  Position : ℚ
  /-- Member `StreamTitle`. -/
  StreamTitle : String
deriving DecidableEq, Repr

/-- The function `VUPlayer::AllowSkip` (src/VUPlayer.cpp lines 1554-1563) in the
exact-arithmetic reading: the elapsed time is the unrounded quotient, without the
conversion to `float`; `Binary32.AllowSkip` is the binary32 reading.  `perfFreq` and
`perfCount` are the values stored by `QueryPerformanceFrequency` and
`QueryPerformanceCounter`; the counters are non-negative 64-bit values, so their
difference does not overflow. -/
def AllowSkip (perfFreq perfCount m_LastSkipCount : ℤ) : Bool :=
  let secondsSinceLastSkip : ℚ := ((perfCount - m_LastSkipCount : ℤ) : ℚ) / (perfFreq : ℚ)
  let allowSkip : Bool :=
    decide (secondsSinceLastSkip > s_SkipLimitInterval) || decide (secondsSinceLastSkip < 0)
  allowSkip

/-- The two skip command IDs of `VUPlayer::OnCommand`. -/
inductive SkipCommand where
  | ID_CONTROL_SKIPBACKWARDS
  | ID_CONTROL_SKIPFORWARDS
deriving DecidableEq, Repr

/-- What a skip command reads from outside `VUPlayer`, in the exact-arithmetic reading
(the item's times are rationals). -/
structure SkipEnv where
  /-- Value stored by `QueryPerformanceFrequency` in `AllowSkip`. -/
  perfFreq : ℤ
  /-- Value stored by `QueryPerformanceCounter` in `AllowSkip`. -/
  perfCount : ℤ
  /-- Value stored by `QueryPerformanceCounter` in `ResetLastSkipCount`. -/
  resetCount : ℤ
  /-- Result of `m_Output.GetState()`. -/
  state : Output.State
  /-- Result of `m_Output.GetCurrentPlaying()`. -/
  item : Output.Item
deriving Repr

/-- A sample skip environment: a counter frequency of `1000` ticks per second, `500` ticks
since the last skip at count `0`, output playing item `3` of duration `60` at
position `7`. -/
def SkipEnv.sample : SkipEnv where
  perfFreq := 1000
  perfCount := 500
  resetCount := 501
  state := .Playing
  item := { ID := 3, Duration := 60, Position := 7, StreamTitle := String.mk [] }

namespace F32

/-- Whether the rational `x` is a finite binary32 value: rounding leaves it unchanged and
it does not exceed `FLT_MAX` in magnitude. -/
def representable (x : ℚ) : Bool := decide (round x = x ∧ |x| ≤ maxFinite)

end F32

namespace Binary32

/-- Skip duration, in seconds (`s_SkipDuration = 5.0f`, src/VUPlayer.cpp line 33). -/
def s_SkipDuration : F32 := F32.ofRat 5

/-- Skip repeat limit interval, in seconds (`s_SkipLimitInterval = 0.1f`,
src/VUPlayer.cpp line 36): the binary32 value nearest to `0.1`, which is
`13421773 / 134217728`. -/
def s_SkipLimitInterval : F32 := F32.ofRat (1 / 10)

/-- Modelled from the spec: the type `Output::Item` (declared in Output.h, which is not
among the sources), with the members the skip commands read, the times being `float`s.
Section 3 gives the OutputSnapshot as the current PlaybackItem (stable integer ID, cached
duration) and the elapsed position. -/
structure Item where
  /-- Member `PlaylistItem.ID`. -/
  ID : ℤ
  /-- Result of `PlaylistItem.Info.GetDuration()`. -/
  Duration : F32
  /-- Member `Position`. -/
  Position : F32
deriving DecidableEq, Repr

/-- The function `VUPlayer::AllowSkip` (src/VUPlayer.cpp lines 1554-1563) in binary32
arithmetic: the count difference is converted by `static_cast<float>`, the frequency by
the usual arithmetic conversion, and the quotient is a `float` division.  `perfFreq` and
`perfCount` are the values stored by `QueryPerformanceFrequency` and
`QueryPerformanceCounter`; the counters are non-negative 64-bit values, so their
difference does not overflow. -/
def AllowSkip (perfFreq perfCount m_LastSkipCount : ℤ) : Bool :=
  let secondsSinceLastSkip : F32 :=
    (F32.ofInt (perfCount - m_LastSkipCount)).div (F32.ofInt perfFreq)
  let allowSkip : Bool :=
    s_SkipLimitInterval.lt secondsSinceLastSkip || secondsSinceLastSkip.lt (F32.ofInt 0)
  allowSkip

/-- A call made on `m_Output` by a skip command, with `float` arguments. -/
inductive SkipCall where
  /-- The call `m_Output.Previous( forcePrevious, seek )`. -/
  | Output_Previous (forcePrevious : Bool) (seek : F32)
  /-- The call `m_Output.Next()`. -/
  | Output_Next
  /-- The call `m_Output.Play( itemID, startPosition )`. -/
  | Output_Play (itemID : ℤ) (startPosition : F32)
deriving DecidableEq, Repr

/-- What a skip command reads from outside `VUPlayer`. -/
structure SkipEnv where
  /-- Value stored by `QueryPerformanceFrequency` in `AllowSkip`. -/
  perfFreq : ℤ
  /-- Value stored by `QueryPerformanceCounter` in `AllowSkip`. -/
  perfCount : ℤ
  /-- Value stored by `QueryPerformanceCounter` in `ResetLastSkipCount`. -/
  resetCount : ℤ
  /-- Result of `m_Output.GetState()`. -/
  state : Output.State
  /-- Result of `m_Output.GetCurrentPlaying()`. -/
  item : Item
deriving Repr

/-- The cases `ID_CONTROL_SKIPBACKWARDS` and `ID_CONTROL_SKIPFORWARDS` of
`VUPlayer::OnCommand` (src/VUPlayer.cpp lines 767-798) in binary32 arithmetic, with
`ResetLastSkipCount` (lines 1565-1568) inlined: the calls made on `m_Output` and the value
of `m_LastSkipCount` afterwards. -/
def OnSkipCommand (commandID : SkipCommand) (m_LastSkipCount : ℤ) (env : SkipEnv) :
    List SkipCall × ℤ :=
  match commandID with
  | .ID_CONTROL_SKIPBACKWARDS =>
    if AllowSkip env.perfFreq env.perfCount m_LastSkipCount then
      let calls : List SkipCall :=
        if env.state = .Playing ∨ env.state = .Paused then
          -- float position = item.Position - s_SkipDuration;
          let position := env.item.Position.sub s_SkipDuration
          -- if ( position < 0 )
          if position.lt (F32.ofInt 0) then [.Output_Previous true s_SkipDuration.neg]
          else [.Output_Play env.item.ID position]
        else []
      (calls, env.resetCount)
    else ([], m_LastSkipCount)
  | .ID_CONTROL_SKIPFORWARDS =>
    if AllowSkip env.perfFreq env.perfCount m_LastSkipCount then
      let calls : List SkipCall :=
        if env.state = .Playing ∨ env.state = .Paused then
          -- float position = item.Position + s_SkipDuration;
          let position := env.item.Position.add s_SkipDuration
          -- if ( position > item.PlaylistItem.Info.GetDuration() )
          if env.item.Duration.lt position then [.Output_Next]
          else [.Output_Play env.item.ID position]
        else []
      (calls, env.resetCount)
    else ([], m_LastSkipCount)

/-- A sample skip environment: a counter frequency of `1000` ticks per second, `500` ticks
since the last skip at count `0`, output playing item `3` of duration `60` at
position `7`. -/
def SkipEnv.sample : SkipEnv where
  perfFreq := 1000
  perfCount := 500
  resetCount := 501
  state := .Playing
  item := { ID := 3, Duration := .fin 60, Position := .fin 7 }

end Binary32


/-- Timer ID (`s_TimerID = 42`, src/VUPlayer.cpp line 21). -/
def s_TimerID : ℕ := 42

/-- The controls refreshed at the end of a main timer tick (src/VUPlayer.cpp
lines 514-531), in program order. -/
inductive Widget where
  | SeekControl
  | ToolbarFile
  | ToolbarPlaylist
  | ToolbarFavourites
  | ToolbarOptions
  | ToolbarInfo
  | ToolbarCrossfade
  | ToolbarFlow
  | ToolbarPlayback
  | ToolbarTrackEnd
  | ToolbarEQ
  | ToolbarConvert
  | ToolbarVolume
  | Counter
  | Status
  | Tray
  | List
  | Tree
deriving DecidableEq, Repr

/-- A call made by `VUPlayer::OnTimer`. -/
inductive TimerCall where
  /-- The call `RedrawWindow( m_Status.GetWindowHandle(), ... )`. -/
  | RedrawWindow_Status
  /-- The call `m_Output.GetCurrentPlaying()`. -/
  | Output_GetCurrentPlaying
  /-- The call `OnOutputChanged( previousItem, currentItem )`. -/
  | OnOutputChanged (previousItem currentItem : Output.Item)
  /-- The call `SetTitlebarText( item )`. -/
  | SetTitlebarText (item : Output.Item)
  /-- The call `m_Output.GetCurrentSelectedPlaylistItem()`. -/
  | Output_GetCurrentSelectedPlaylistItem
  /-- The call `m_Output.SetCurrentSelectedPlaylistItem( item )`, by the item's ID. -/
  | Output_SetCurrentSelectedPlaylistItem (itemID : ℤ)
  /-- The call `m_Splitter.Resize()`. -/
  | Splitter_Resize
  /-- The call `m_Visual.DoRender()`. -/
  | Visual_DoRender
  /-- The refresh call on a control (`Update`, `Refresh`, `UpdateStatusIcon` or
  `UpdateOutputIcon`). -/
  | Update (widget : Widget)
  /-- The call `m_Tray.OnTimerElapsed()`. -/
  | Tray_OnTimerElapsed
deriving DecidableEq, Repr

/-- What `VUPlayer::OnTimer` reads from its collaborators. -/
structure TimerEnv where
  /-- Result of `m_Output.GetCurrentPlaying()`. -/
  currentPlaying : Output.Item
  /-- Field `ID` of `m_List.GetCurrentSelectedItem()`. -/
  currentSelectedPlaylistItemID : ℤ
  /-- Field `ID` of `m_Output.GetCurrentSelectedPlaylistItem()`. -/
  currentSelectedOutputItemID : ℤ
  /-- Whether `ID_VISUAL_ARTWORK == m_Visual.GetCurrentVisualID()`. -/
  isArtworkVisual : Bool
deriving Repr

/-- The data members of `VUPlayer` that `OnTimer` reads or writes. -/
structure TimerState where
  /-- The cached output snapshot. -/
  m_CurrentOutput : Output.Item
  /-- Whether no main timer tick has run yet. -/
  m_IsFirstTimeStartup : Bool
deriving DecidableEq, Repr

/-- The refresh calls of src/VUPlayer.cpp lines 514-531. -/
def refreshCalls : List TimerCall :=
  [.Update .SeekControl, .Update .ToolbarFile, .Update .ToolbarPlaylist,
   .Update .ToolbarFavourites, .Update .ToolbarOptions, .Update .ToolbarInfo,
   .Update .ToolbarCrossfade, .Update .ToolbarFlow, .Update .ToolbarPlayback,
   .Update .ToolbarTrackEnd, .Update .ToolbarEQ, .Update .ToolbarConvert,
   .Update .ToolbarVolume, .Update .Counter, .Update .Status, .Update .Tray,
   .Update .List, .Update .Tree]

/-- The function `VUPlayer::OnTimer` (src/VUPlayer.cpp lines 484-538): the value of
`handled`, the members afterwards, and the calls made.  `TIMER_SYSTRAY` is a constant
declared outside the sources. -/
def OnTimer (TIMER_SYSTRAY : ℕ) (timerID : ℕ) (s : TimerState) (env : TimerEnv) :
    Bool × TimerState × List TimerCall :=
  if s_TimerID = timerID then
    let first : List TimerCall := if s.m_IsFirstTimeStartup then [.RedrawWindow_Status] else []
    let currentPlaying := env.currentPlaying
    let changed : List TimerCall :=
      if s.m_CurrentOutput.ID ≠ currentPlaying.ID then
        [.OnOutputChanged s.m_CurrentOutput currentPlaying]
      else []
    let m_CurrentOutput := currentPlaying
    let selection : List TimerCall :=
      if 0 = currentPlaying.ID then
        .Output_GetCurrentSelectedPlaylistItem ::
          (if env.currentSelectedPlaylistItemID ≠ env.currentSelectedOutputItemID then
            .Output_SetCurrentSelectedPlaylistItem env.currentSelectedPlaylistItemID ::
              (if env.isArtworkVisual then [.Splitter_Resize, .Visual_DoRender] else [])
          else [])
      else []
    (true, { m_CurrentOutput := m_CurrentOutput, m_IsFirstTimeStartup := false },
      first ++ [.Output_GetCurrentPlaying] ++ changed ++ [.SetTitlebarText m_CurrentOutput]
        ++ selection ++ refreshCalls)
  else if TIMER_SYSTRAY = timerID then
    (true, s, [.Tray_OnTimerElapsed])
  else
    (false, s, [])

/-- The Windows message number `WM_APP` (Windows SDK, `0x8000`). -/
def WM_APP : ℕ := 0x8000

/-- Command ID of the first playlist entry on the Add to Playlist sub menu
(src/VUPlayer.cpp line 39). -/
def MSG_PLAYLISTMENUSTART : ℕ := WM_APP + 0xF00

/-- Command ID of the last playlist entry on the Add to Playlist sub menu
(src/VUPlayer.cpp line 42). -/
def MSG_PLAYLISTMENUEND : ℕ := MSG_PLAYLISTMENUSTART + 50

/-- The type `PlaylistMenuMap` of `m_AddToPlaylistMenuMap`: command IDs mapped to playlist
pointers (`none` for a null pointer), as the list of entries in key order. -/
abbrev PlaylistMenuMap := List (ℕ × Option ℕ)

/-- The call `map.insert( value_type( key, value ) )` of `std::map`: nothing is inserted
when the key is present.  The keys inserted by `InsertAddToPlaylists` increase, so
appending keeps the entries in key order. -/
def PlaylistMenuMap.insert (map : PlaylistMenuMap) (key : ℕ) (value : Option ℕ) :
    PlaylistMenuMap :=
  if (map.lookup key).isSome then map else map ++ [(key, value)]

/-- The call `map.find( key )` of `std::map`: the mapped value, `none` for `end()`. -/
def PlaylistMenuMap.find (map : PlaylistMenuMap) (key : ℕ) : Option (Option ℕ) :=
  map.lookup key

/-- The loop over `playlists` in `VUPlayer::InsertAddToPlaylists` (src/VUPlayer.cpp
lines 1619-1627), from the playlists still to visit, the current `commandID` and the
map built so far. -/
def insertPlaylists : List (Option ℕ) → ℕ → PlaylistMenuMap → PlaylistMenuMap
  | [], _, map => map
  | playlist :: rest, commandID, map =>
    match playlist with
    | some p =>
      let map := PlaylistMenuMap.insert map commandID (some p)
      let commandID := commandID + 1
      if commandID > MSG_PLAYLISTMENUEND then map else insertPlaylists rest commandID map
    | none => insertPlaylists rest commandID map

/-- What `VUPlayer::InsertAddToPlaylists` reads from the menu and its collaborators. -/
structure MenuEnv where
  /-- Results of `GetMenuItemID( menu, itemIndex )` for the `GetMenuItemCount( menu )`
  items of the menu. -/
  menuItemIDs : List ℕ
  /-- Whether `CreatePopupMenu()` returns a non-null handle. -/
  popupCreated : Bool
  /-- Result of `m_List.GetSelectedCount()`. -/
  selectedCount : ℤ
  /-- Result of `m_List.GetPlaylist()`: `none` for a null pointer, otherwise whether its
  type is `Playlist::Type::CDDA`. -/
  currentPlaylistIsCDDA : Option Bool
  /-- Result of `m_Tree.GetPlaylists()`; `none` is a null pointer. -/
  playlists : List (Option ℕ)
deriving Repr

/-- The function `VUPlayer::InsertAddToPlaylists` (src/VUPlayer.cpp lines 1601-1638): the
value of `m_AddToPlaylistMenuMap` afterwards. -/
def InsertAddToPlaylists (insertAfterItemID : ℕ) (env : MenuEnv) : PlaylistMenuMap :=
  -- m_AddToPlaylistMenuMap.clear();
  let map : PlaylistMenuMap := []
  let commandID := MSG_PLAYLISTMENUSTART
  -- the first menu item with the ID `insertAfterItemID`, if any
  if insertAfterItemID ∈ env.menuItemIDs then
    if env.popupCreated then
      let enableMenu : Bool :=
        decide (env.selectedCount > 0) &&
          (match env.currentPlaylistIsCDDA with
           | some isCDDA => !isCDDA
           | none => false)
      if enableMenu then insertPlaylists env.playlists commandID map else map
    else map
  else map

/-- The function `VUPlayer::OnAddToPlaylist` (src/VUPlayer.cpp lines 1587-1599): the calls
`playlist->AddPending( filename )` made, as pairs of playlist and filename.
`selectedFilenames` are the filenames of `m_List.GetSelectedPlaylistItems()`. -/
def OnAddToPlaylist (command : ℕ) (m_AddToPlaylistMenuMap : PlaylistMenuMap)
    (selectedFilenames : List String) : List (ℕ × String) :=
  match PlaylistMenuMap.find m_AddToPlaylistMenuMap command with
  | some playlist =>
    match playlist with
    | some p => selectedFilenames.map (fun filename => (p, filename))
    | none => []
  | none => []

/-- A sample menu environment: the menu holds items `10` and `20`, one list item is
selected, the current playlist is not a CD, and the tree holds playlists `5` and `6`
with a null pointer between them. -/
def MenuEnv.sample : MenuEnv where
  menuItemIDs := [10, 20]
  popupCreated := true
  selectedCount := 1
  currentPlaylistIsCDDA := some false
  playlists := [some 5, none, some 6]

/-- The media in a CD drive (`CDDAMedia`, declared outside the sources), with the members
`VUPlayer::OnMusicBrainzQuery` reads.  `α` is the type of the pair `[ discID, toc ]`. -/
structure CDDAMedia (α : Type) where
  /-- Result of `GetCDDB()`. -/
  cddb : ℤ
  /-- Result of `GetMusicBrainzID()`: the disc ID and the table of contents. -/
  musicBrainzID : α
deriving DecidableEq, Repr

/-- The loop over `drives` in `VUPlayer::OnMusicBrainzQuery` (src/VUPlayer.cpp
lines 1732-1738): the argument of the `m_MusicBrainz.Query( discID, toc, true )` call
made, if any.  `drives` is the whole map (for `drives.begin()`), `remaining` the drives
still to visit. -/
def OnMusicBrainzQuery.loop {α : Type} (cddbID : ℤ) (drives : List (Char × CDDAMedia α)) :
    List (Char × CDDAMedia α) → Option α
  | [] => none
  | drive :: remaining =>
    if cddbID = drive.2.cddb then
      -- const auto [ discID, toc ] = drives.begin()->second.GetMusicBrainzID();
      match drives.head? with
      | some first => some first.2.musicBrainzID
      | none => none
    else OnMusicBrainzQuery.loop cddbID drives remaining

/-- The function `VUPlayer::OnMusicBrainzQuery` (src/VUPlayer.cpp lines 1724-1741): the
argument of the `m_MusicBrainz.Query( discID, toc, true )` call made, if any.
`playlist` is the result of `m_List.GetPlaylist()`: `none` for a null pointer, otherwise
whether its type is `Playlist::Type::CDDA` and the CDDB IDs of its items.  `drives` is
the result of `m_CDDAManager.GetCDDADrives()`, a map from drive letter to media, in key
order. -/
def OnMusicBrainzQuery {α : Type} (playlist : Option (Bool × List ℤ))
    (drives : List (Char × CDDAMedia α)) : Option α :=
  match playlist with
  | some (isCDDA, itemCDDBs) =>
    if isCDDA then
      match itemCDDBs with
      | cddbID :: _ => OnMusicBrainzQuery.loop cddbID drives drives
      | [] => none
    else none
  | none => none

/-- The drive that holds the disc with the given CDDB ID: the first drive, in key order,
whose media has that ID. -/
def matchingDrive {α : Type} (cddbID : ℤ) (drives : List (Char × CDDAMedia α)) :
    Option (Char × CDDAMedia α) :=
  drives.find? (fun drive => decide (cddbID = drive.2.cddb))

/-- Render thread millisecond interval (`s_RenderThreadInterval = 15`, src/VUMeter.cpp
line 6). -/
def s_RenderThreadInterval : ℕ := 15

/-- The Windows wait result `WAIT_OBJECT_0` (Windows SDK, `0`). -/
def WAIT_OBJECT_0 : ℕ := 0

/-- The Windows timeout `INFINITE` (Windows SDK, `0xFFFFFFFF`): a wait with this timeout
never times out. -/
def INFINITE : ℕ := 0xFFFFFFFF

/-- A call made by `VUMeter` on the operating system or on itself, as far as thread and
resource handling goes. -/
inductive MeterCall where
  /-- The call `GetLevels()`. -/
  | GetLevels
  /-- The call `DoRender()`. -/
  | DoRender
  /-- The call `WaitForSingleObject( m_RenderStopEvent, milliseconds )`. -/
  | WaitForSingleObject_RenderStopEvent (milliseconds : ℕ)
  /-- The call `WaitForSingleObject( m_RenderThread, milliseconds )`. -/
  | WaitForSingleObject_RenderThread (milliseconds : ℕ)
  /-- The call `SetEvent( m_RenderStopEvent )`. -/
  | SetEvent_RenderStopEvent
  /-- The call `ResetEvent( m_RenderStopEvent )`. -/
  | ResetEvent_RenderStopEvent
  /-- The call `CreateThread( ..., RenderThreadProc, this, ... )`. -/
  | CreateThread
  /-- The call `CloseHandle( m_RenderThread )`. -/
  | CloseHandle_RenderThread
  /-- The call `CloseHandle( m_RenderStopEvent )`. -/
  | CloseHandle_RenderStopEvent
  /-- The call `FreeResources()`. -/
  | FreeResources
deriving DecidableEq, Repr

namespace VUMeter

/-- The function `VUMeter::RenderThreadHandler` (src/VUMeter.cpp lines 88-97), run on the
iterations for which inputs are given: each input is the pair handed to `GetLevels` and
the result of the wait on the stop event.  Returns the meter, the calls made, and whether
the loop has ended. -/
def RenderThreadHandler (m : VUMeter) :
    List ((ℚ × ℚ) × ℕ) → VUMeter × List MeterCall × Bool
  | [] => (m, [], false)
  | (raw, result) :: rest =>
    let levels := m.GetLevels raw
    let render : List MeterCall := if levels.1 then [.DoRender] else []
    let calls : List MeterCall :=
      .GetLevels :: (render ++ [.WaitForSingleObject_RenderStopEvent s_RenderThreadInterval])
    if WAIT_OBJECT_0 ≠ result then
      let r := RenderThreadHandler levels.2 rest
      (r.1, calls ++ r.2.1, r.2.2)
    else (levels.2, calls, true)

/-- One iteration as the specification words it: sample the levels once, render if and
only if `GetLevels` reported a change, then wait on the stop event for 15 ms. -/
def iteration (m : VUMeter) (raw : ℚ × ℚ) : List MeterCall :=
  [.GetLevels] ++ (if (m.GetLevels raw).1 = true then [.DoRender] else [])
    ++ [.WaitForSingleObject_RenderStopEvent 15]

/-- The calls of consecutive iterations, one per element of `raws`. -/
def iterations (m : VUMeter) : List (ℚ × ℚ) → List MeterCall
  | [] => []
  | raw :: rest => m.iteration raw ++ iterations (m.tick raw) rest

/-- All data members of `VUMeter` that the embedded member functions read or write: the
level members (`levels`) and the thread and drawing resources.  A bitmap is `none` for a
null pointer and otherwise holds its picture; a picture is `none` for the base image
without a pin and `some n` for the base image with pin `n` drawn on it. -/
structure Full where
  /-- The members `m_OutputLevel`, `m_LeftDisplayLevel`, `m_RightDisplayLevel`, `m_Decay`
  and `m_IsStereo`. -/
  levels : VUMeter
  /-- Whether `m_RenderThread` is non-null. -/
  m_RenderThread : Bool
  /-- The left bitmap. -/
  m_BitmapLeft : Option (Option ℤ)
  /-- The right bitmap. -/
  m_BitmapRight : Option (Option ℤ)
  /-- Whether `m_Brush` is non-null. -/
  m_Brush : Bool
  /-- Current meter positions, `{ left, right }`. -/
  m_MeterPosition : ℤ × ℤ
  /-- The index `n` with `m_MeterPin == VU_PIN[ n ]`; `none` for a null pointer. -/
  m_MeterPin : Option ℤ
  /-- The picture held in `m_MeterImage`. -/
  m_MeterImage : Option ℤ
deriving DecidableEq, Repr

namespace Full

/-- State set up by the constructor `VUMeter::VUMeter` (src/VUMeter.cpp lines 23-40). -/
def new (decay : ℚ) (stereo : Bool) : Full where
  levels := VUMeter.new decay stereo
  m_RenderThread := false
  m_BitmapLeft := none
  m_BitmapRight := none
  m_Brush := false
  m_MeterPosition := (0, 0)
  m_MeterPin := none
  m_MeterImage := none

/-- The function `VUMeter::StartRenderThread` (src/VUMeter.cpp lines 66-72);
`threadCreated` tells whether `CreateThread` returns a non-null handle. -/
def StartRenderThread (m : Full) (threadCreated : Bool) : Full × List MeterCall :=
  if m.m_RenderThread = false then
    ({ m with m_RenderThread := threadCreated }, [.ResetEvent_RenderStopEvent, .CreateThread])
  else (m, [])

/-- The function `VUMeter::StopRenderThread` (src/VUMeter.cpp lines 74-86). -/
def StopRenderThread (m : Full) : Full × List MeterCall :=
  if m.m_RenderThread = true then
    ({ m with
        m_RenderThread := false
        levels := { m.levels with
          m_OutputLevel := (0, 0), m_LeftDisplayLevel := 0, m_RightDisplayLevel := 0 }
        m_MeterPosition := (0, 0) },
      [.SetEvent_RenderStopEvent, .WaitForSingleObject_RenderThread INFINITE,
        .CloseHandle_RenderThread])
  else (m, [])

/-- The function `VUMeter::Show` (src/VUMeter.cpp lines 56-59). -/
def Show (m : Full) (threadCreated : Bool) : Full × List MeterCall :=
  m.StartRenderThread threadCreated

/-- The function `VUMeter::Hide` (src/VUMeter.cpp lines 61-64). -/
def Hide (m : Full) : Full × List MeterCall :=
  m.StopRenderThread

/-- The function `VUMeter::FreeResources` (src/VUMeter.cpp lines 271-285). -/
def FreeResources (m : Full) : Full :=
  { m with m_BitmapLeft := none, m_BitmapRight := none, m_Brush := false }

/-- The destructor `VUMeter::~VUMeter` (src/VUMeter.cpp lines 42-48). -/
def destructor (m : Full) : Full × List MeterCall :=
  let stopped := m.StopRenderThread
  (stopped.1.FreeResources,
    stopped.2 ++ [.CloseHandle_RenderStopEvent, .CloseHandle_RenderThread, .FreeResources])

/-- The truncation of `static_cast<int>` / `int( ... )`: rounding toward zero. -/
def truncate (x : ℚ) : ℤ := if 0 ≤ x then ⌊x⌋ else ⌈x⌉

/-- The function `VUMeter::GetPinPosition` (src/VUMeter.cpp lines 287-290) in the
exact-arithmetic reading (product and sum unrounded); `Binary32.GetPinPosition` is the
binary32 reading, which gives the same pin for the levels `0.2` / `0.2f` and can differ by
one pin when the unrounded sum is within rounding distance of an integer.
`VU_PINCOUNT` is a constant of VUMeterData.h, which is not among the sources. -/
def GetPinPosition (VU_PINCOUNT : ℤ) (level : ℚ) : ℤ :=
  truncate (level * (VU_PINCOUNT : ℚ) + 1 / 2)

/-- The function `VUMeter::DrawPin` (src/VUMeter.cpp lines 143-166). -/
def DrawPin (VU_PINCOUNT : ℤ) (m : Full) (position : ℤ) : Full :=
  let pos := if position < 0 then 0 else if position > VU_PINCOUNT then VU_PINCOUNT else position
  if m.m_MeterPin ≠ some pos then
    { m with m_MeterImage := some pos, m_MeterPin := some pos }
  else m

/-- The function `VUMeter::UpdateBitmaps` (src/VUMeter.cpp lines 168-190). -/
def UpdateBitmaps (VU_PINCOUNT : ℤ) (m : Full) (leftLevel rightLevel : ℚ) : Full :=
  let leftPosition := GetPinPosition VU_PINCOUNT leftLevel
  let rightPosition := GetPinPosition VU_PINCOUNT rightLevel
  let m :=
    if m.m_MeterPosition.1 ≠ leftPosition ∧ m.m_BitmapLeft ≠ none then
      let m := { m with m_MeterPosition := (leftPosition, m.m_MeterPosition.2) }
      let m := DrawPin VU_PINCOUNT m m.m_MeterPosition.1
      { m with m_BitmapLeft := some m.m_MeterImage }
    else m
  if m.m_MeterPosition.2 ≠ rightPosition ∧ m.m_BitmapRight ≠ none then
    let m := { m with m_MeterPosition := (m.m_MeterPosition.1, rightPosition) }
    let m := DrawPin VU_PINCOUNT m m.m_MeterPosition.2
    { m with m_BitmapRight := some m.m_MeterImage }
  else m

/-- What `VUMeter::OnPaint` gets from the drawing layer. -/
structure PaintEnv where
  /-- Whether `BeginDrawing()` returns a non-null device context. -/
  deviceContext : Bool
  /-- Whether `CreateSolidColorBrush` yields a brush. -/
  brushCreated : Bool
  /-- Whether `CreateBitmap` succeeds for the left bitmap. -/
  leftCreated : Bool
  /-- Whether `CreateBitmap` succeeds for the right bitmap. -/
  rightCreated : Bool
  /-- Member `height` of `deviceContext->GetSize()`. -/
  height : ℚ
deriving DecidableEq, Repr

/-- The function `VUMeter::LoadResources` (src/VUMeter.cpp lines 235-269). -/
def LoadResources (VU_PINCOUNT : ℤ) (m : Full) (env : PaintEnv) : Full :=
  if env.deviceContext then
    let m := if m.m_Brush = false then { m with m_Brush := env.brushCreated } else m
    if m.m_BitmapLeft = none ∧ m.m_BitmapRight = none then
      let m :=
        if env.leftCreated then { m with m_BitmapLeft := some none } else m.FreeResources
      let m :=
        if m.levels.m_IsStereo then
          if env.rightCreated then { m with m_BitmapRight := some none } else m.FreeResources
        else m
      let m := DrawPin VU_PINCOUNT m 0
      let m := if m.m_BitmapLeft ≠ none then { m with m_BitmapLeft := some m.m_MeterImage } else m
      if m.m_BitmapRight ≠ none then { m with m_BitmapRight := some m.m_MeterImage } else m
    else m
  else m

/-- The function `VUMeter::OnPaint` (src/VUMeter.cpp lines 192-222), as far as the data
members go; the drawing calls on the device context change none of them. -/
def OnPaint (VU_PINCOUNT : ℤ) (m : Full) (env : PaintEnv) : Full :=
  if env.deviceContext then
    let m := LoadResources VU_PINCOUNT m env
    if env.height > 0 ∧ env.height > 0 then
      UpdateBitmaps VU_PINCOUNT m m.levels.m_LeftDisplayLevel m.levels.m_RightDisplayLevel
    else m
  else m

/-- The function `VUMeter::OnSettingsChange` (src/VUMeter.cpp lines 224-228); `decay` is the
result of `GetSettings().GetVUMeterDecay()`. -/
def OnSettingsChange (m : Full) (decay : ℚ) : Full :=
  FreeResources { m with levels := { m.levels with m_Decay := decay } }

/-- The function `VUMeter::OnSysColorChange` (src/VUMeter.cpp lines 230-233). -/
def OnSysColorChange (m : Full) : Full :=
  m.FreeResources

/-- The calls on a meter that the bitmap claim ranges over. -/
inductive Event where
  | Show (threadCreated : Bool)
  | Hide
  | OnSettingsChange (decay : ℚ)
  | OnSysColorChange
  /-- One `GetLevels` call of the render thread, handed `raw` by the output. -/
  | tick (raw : ℚ × ℚ)
  | OnPaint (env : PaintEnv)
deriving DecidableEq, Repr

/-- One event.  `GetLevels` runs on the render thread only, so a tick without a render
thread changes nothing. -/
def step (VU_PINCOUNT : ℤ) (m : Full) : Event → Full
  | .Show threadCreated => (m.Show threadCreated).1
  | .Hide => m.Hide.1
  | .OnSettingsChange decay => m.OnSettingsChange decay
  | .OnSysColorChange => m.OnSysColorChange
  | .tick raw => if m.m_RenderThread then { m with levels := (m.levels.GetLevels raw).2 } else m
  | .OnPaint env => OnPaint VU_PINCOUNT m env

/-- A sequence of events. -/
def run (VU_PINCOUNT : ℤ) (m : Full) (events : List Event) : Full :=
  events.foldl (step VU_PINCOUNT) m

/-- A paint environment in which every step succeeds and the target is `100` high. -/
def PaintEnv.ok : PaintEnv where
  deviceContext := true
  brushCreated := true
  leftCreated := true
  rightCreated := true
  height := 100

end Full

end VUMeter

namespace Binary32

/-- The function `VUMeter::GetPinPosition` (src/VUMeter.cpp lines 287-290) in binary32
arithmetic: `VU_PINCOUNT` is converted to `float`, the product and the sum are rounded, and
the result is truncated toward zero; the conversion of a NaN or an infinity to `int` is
undefined, which is `none`.  `VU_PINCOUNT` is a constant of VUMeterData.h, which is not
among the sources. -/
def GetPinPosition (VU_PINCOUNT : ℤ) (level : F32) : Option ℤ :=
  match (level.mul (F32.ofInt VU_PINCOUNT)).add (F32.ofRat (1 / 2)) with
  | .fin x => some (VUPlayer.VUMeter.Full.truncate x)
  | _ => none

end Binary32

/-- The function `VUPlayer::SetTitlebarText` (src/VUPlayer.cpp lines 1856-1877): the value
of `m_TitlebarText` afterwards and the texts passed to `SetWindowText`.  `title` is the
result of `item.PlaylistItem.Info.GetTitle( true )` and `artist` that of
`item.PlaylistItem.Info.GetArtist()`. -/
def SetTitlebarText (m_IdleText m_TitlebarText : String) (item : Output.Item)
    (title artist : String) : String × List String :=
  let titlebarText := m_IdleText
  let titlebarText :=
    if item.ID > 0 then
      if !item.StreamTitle.isEmpty then item.StreamTitle
      else
        if !title.isEmpty then
          let titlebarText := artist
          let titlebarText :=
            if !titlebarText.isEmpty then titlebarText ++ " - " else titlebarText
          titlebarText ++ title
        else titlebarText
    else titlebarText
  if m_TitlebarText ≠ titlebarText then (titlebarText, [titlebarText])
  else (m_TitlebarText, [])

/-- The device event `DBT_DEVICEARRIVAL` (Windows SDK, `0x8000`). -/
def DBT_DEVICEARRIVAL : ℕ := 0x8000

/-- The device event `DBT_DEVICEQUERYREMOVE` (Windows SDK, `0x8001`). -/
def DBT_DEVICEQUERYREMOVE : ℕ := 0x8001

/-- The device event `DBT_DEVICEREMOVEPENDING` (Windows SDK, `0x8003`). -/
def DBT_DEVICEREMOVEPENDING : ℕ := 0x8003

/-- The device event `DBT_DEVICEREMOVECOMPLETE` (Windows SDK, `0x8004`). -/
def DBT_DEVICEREMOVECOMPLETE : ℕ := 0x8004

/-- The device type `DBT_DEVTYP_VOLUME` (Windows SDK, `2`). -/
def DBT_DEVTYP_VOLUME : ℕ := 2

/-- The device type `DBT_DEVTYP_HANDLE` (Windows SDK, `6`). -/
def DBT_DEVTYP_HANDLE : ℕ := 6

/-- A call made by `VUPlayer::OnDeviceChange`. -/
inductive DeviceCall where
  /-- The call `m_CDDAManager.OnDeviceChange()`. -/
  | CDDAManager_OnDeviceChange
  /-- The call `m_Tree.OnDriveArrived( drive )`. -/
  | Tree_OnDriveArrived (drive : Char)
  /-- The call `m_Tree.OnDriveRemoved( drive )`. -/
  | Tree_OnDriveRemoved (drive : Char)
  /-- The call `m_Tree.OnDeviceHandleRemoved( handle )`. -/
  | Tree_OnDeviceHandleRemoved (handle : ℕ)
deriving DecidableEq, Repr

/-- The broadcast structure that `lParam` points to, with the members `OnDeviceChange`
reads (`DEV_BROADCAST_HDR`, `DEV_BROADCAST_VOLUME`, `DEV_BROADCAST_HANDLE`). -/
structure DeviceBroadcast where
  /-- Member `dbch_devicetype`. -/
  dbch_devicetype : ℕ
  /-- Member `dbcv_unitmask`, a `DWORD`. -/
  dbcv_unitmask : ℕ
  /-- Member `dbch_handle`. -/
  dbch_handle : ℕ
deriving DecidableEq, Repr

/-- The drive letters `'A'` to `'Z'` that the loop of `OnDeviceChange` visits, in order. -/
def driveLetters : List Char := (List.range 26).map (fun i => Char.ofNat (65 + i))

/-- The loop over drive letters in `VUPlayer::OnDeviceChange` (src/VUPlayer.cpp
lines 1649-1658), from the letters still to visit and the current `unitMask`. -/
def OnDeviceChange.loop (wParam : ℕ) : List Char → ℕ → List DeviceCall
  | [], _ => []
  | drive :: rest, unitMask =>
    (if unitMask &&& 1 ≠ 0 then
      if DBT_DEVICEARRIVAL = wParam then [.Tree_OnDriveArrived drive]
      else if DBT_DEVICEREMOVEPENDING = wParam ∨ DBT_DEVICEREMOVECOMPLETE = wParam then
        [.Tree_OnDriveRemoved drive]
      else []
    else []) ++ OnDeviceChange.loop wParam rest (unitMask >>> 1)

/-- The function `VUPlayer::OnDeviceChange` (src/VUPlayer.cpp lines 1640-1664): the calls
made.  `lParam` is `none` for a null pointer. -/
def OnDeviceChange (wParam : ℕ) (lParam : Option DeviceBroadcast) : List DeviceCall :=
  .CDDAManager_OnDeviceChange ::
    (match lParam with
     | some hdr =>
       if DBT_DEVTYP_VOLUME = hdr.dbch_devicetype then
         OnDeviceChange.loop wParam driveLetters hdr.dbcv_unitmask
       else if DBT_DEVTYP_HANDLE = hdr.dbch_devicetype ∧ DBT_DEVICEQUERYREMOVE = wParam then
         [.Tree_OnDeviceHandleRemoved hdr.dbch_handle]
       else []
     | none => [])

/-- The notification for one drive whose bit is set (src/VUPlayer.cpp lines 1651-1655),
used to state lemmas about `OnDeviceChange.loop`. -/
def OnDeviceChange.notify (wParam : ℕ) (drive : Char) : List DeviceCall :=
  if DBT_DEVICEARRIVAL = wParam then [.Tree_OnDriveArrived drive]
  else if DBT_DEVICEREMOVEPENDING = wParam ∨ DBT_DEVICEREMOVECOMPLETE = wParam then
    [.Tree_OnDriveRemoved drive]
  else []

/-- A playlist item (`Playlist::Item`, declared outside the sources), with the members
`VUPlayer::OnConvert` reads. -/
structure Playlist.Item where
  /-- Member `ID`. -/
  ID : ℤ
  /-- Result of `Info.GetFilename()`. -/
  Filename : String
deriving DecidableEq, Repr

/-- The erase loops of `VUPlayer::OnConvert` (src/VUPlayer.cpp lines 1670-1676 and
1680-1686): every item whose filename `IsURL` accepts is erased.  `IsURL` is a function of
Utility.h, which is not among the sources. -/
def eraseURLs (IsURL : String → Bool) : List Playlist.Item → List Playlist.Item
  | [] => []
  | item :: rest =>
    if IsURL item.Filename then eraseURLs IsURL rest else item :: eraseURLs IsURL rest

/-- A call made by `VUPlayer::OnConvert`. -/
inductive ConvertCall where
  /-- The call `playlist->GetItems()`, made after the null test on `playlist`. -/
  | Playlist_GetItems
  /-- The construction `DlgConvert dlgConvert( ..., itemList, selectedItems )`. -/
  | DlgConvert (itemList selectedItems : List Playlist.Item)
  /-- The call `m_Settings.SetEncoder( ... )`. -/
  | Settings_SetEncoder
  /-- The call `playlist->GetType()` on a non-null `playlist`. -/
  | Playlist_GetType
  /-- The call `playlist->GetType()` on a null `playlist`. -/
  | NullDereference
  /-- The call `m_Output.Stop()`. -/
  | Output_Stop
  /-- The construction `CDDAExtract extract( ..., selectedItems, ... )`. -/
  | CDDAExtract (selectedItems : List Playlist.Item)
  /-- The construction `Converter converter( ..., selectedItems, ... )`. -/
  | Converter (selectedItems : List Playlist.Item)
  /-- The call `SetFocus( m_List.GetWindowHandle() )`. -/
  | SetFocus_List
deriving DecidableEq, Repr

/-- What `VUPlayer::OnConvert` reads from its collaborators. -/
structure ConvertEnv where
  /-- Result of `m_List.GetPlaylist()`: `none` for a null pointer, otherwise whether its
  type is `Playlist::Type::CDDA` and its items. -/
  playlist : Option (Bool × List Playlist.Item)
  /-- Result of `m_List.GetSelectedPlaylistItems()`. -/
  selectedItems : List Playlist.Item
  /-- The value of `selectedItems` when the dialog has returned. -/
  dialogSelection : List Playlist.Item
  /-- Whether `dlgConvert.GetSelectedHandler()` is non-null. -/
  handler : Bool
  /-- Result of `m_Output.GetPlaylist()`: `none` for a null pointer, otherwise whether its
  type is `Playlist::Type::CDDA`. -/
  outputPlaylistIsCDDA : Option Bool
deriving Repr

/-- The function `VUPlayer::OnConvert` (src/VUPlayer.cpp lines 1666-1711): the calls
made. -/
def OnConvert (IsURL : String → Bool) (env : ConvertEnv) : List ConvertCall :=
  -- Playlist::ItemList itemList = playlist ? playlist->GetItems() : Playlist::ItemList();
  let fetched : List ConvertCall × List Playlist.Item :=
    match env.playlist with
    | some (_, items) => ([.Playlist_GetItems], items)
    | none => ([], [])
  let itemList := eraseURLs IsURL fetched.2
  if !itemList.isEmpty then
    let selectedItems := eraseURLs IsURL env.selectedItems
    let selectedItems := if selectedItems.isEmpty then itemList else selectedItems
    let dialog : ConvertCall := .DlgConvert itemList selectedItems
    let selectedItems := env.dialogSelection
    let convert : List ConvertCall :=
      if !selectedItems.isEmpty then
        if env.handler then
          match env.playlist with
          | some (isCDDA, _) =>
            [.Settings_SetEncoder, .Playlist_GetType]
              ++ (if isCDDA ∧ env.outputPlaylistIsCDDA = some true then [.Output_Stop] else [])
              ++ [.Playlist_GetType]
              ++ (if isCDDA then [.CDDAExtract selectedItems] else [.Converter selectedItems])
          | none => [.Settings_SetEncoder, .NullDereference]
        else []
      else []
    fetched.1 ++ [dialog] ++ convert ++ [.SetFocus_List]
  else fetched.1

/-- The items of the playlist that `OnConvert` works on: none for a null pointer. -/
def ConvertEnv.items (env : ConvertEnv) : List Playlist.Item :=
  match env.playlist with
  | some (_, items) => items
  | none => []

/-- A sample convert environment, for an `IsURL` that accepts filenames starting with
`h`: a playlist that is not a CD with two files and one stream between them, the stream
being the only selected item. -/
def ConvertEnv.sample : ConvertEnv where
  playlist := some (false, [⟨1, "a.mp3"⟩, ⟨2, "http:radio"⟩, ⟨3, "b.mp3"⟩])
  selectedItems := [⟨2, "http:radio"⟩]
  dialogSelection := []
  handler := false
  outputPlaylistIsCDDA := none

/-- A call made by `VUPlayer::OnCommandLineFiles`. -/
inductive CommandLineCall where
  /-- The call `m_Tree.ImportPlaylist( firstFilename )`. -/
  | Tree_ImportPlaylist (filename : String)
  /-- The call `m_Tree.SetScratchList( mediaList )`; a media entry is given by its
  filename. -/
  | Tree_SetScratchList (mediaList : List String)
  /-- The call `m_Output.Play( scratchList )`. -/
  | Output_Play_ScratchList
  /-- The call `m_Tree.SelectAudioCD( drive )`. -/
  | Tree_SelectAudioCD (drive : Char)
  /-- The call `m_Output.Play( playlist )` for the audio CD playlist. -/
  | Output_Play_AudioCD
deriving DecidableEq, Repr

/-- What `VUPlayer::OnCommandLineFiles` reads from its collaborators and from the
system. -/
structure CommandLineEnv where
  /-- The function `GetFileExtension` of Utility.h, which is not among the sources. -/
  GetFileExtension : String → String
  /-- Result of `m_Handlers.GetAllSupportedFileExtensions()`. -/
  trackExtensions : List String
  /-- Result of `Playlist::GetSupportedPlaylistExtensions()`. -/
  playlistExtensions : List String
  /-- Whether `GetDriveType( filename )` is `DRIVE_CDROM`. -/
  isCDROM : String → Bool
  /-- The function `CDDAMedia::ContainsCDAudio`. -/
  ContainsCDAudio : Char → Bool
  /-- Whether `m_Tree.SelectAudioCD( drive )` returns a non-null playlist. -/
  audioCDPlaylist : Char → Bool

/-- The loop over `filenames` in `VUPlayer::OnCommandLineFiles` (src/VUPlayer.cpp
lines 1825-1832): the media list built, each entry given by its filename. -/
def collectMedia (env : CommandLineEnv) : List String → List String
  | [] => []
  | filename :: rest =>
    if env.GetFileExtension filename ∈ env.trackExtensions then
      filename :: collectMedia env rest
    else collectMedia env rest

/-- The function `VUPlayer::OnCommandLineFiles` (src/VUPlayer.cpp lines 1808-1854): the
value returned and the calls made. -/
def OnCommandLineFiles (env : CommandLineEnv) (filenames : List String) :
    Bool × List CommandLineCall :=
  match filenames with
  | [] => (false, [])
  | firstFilename :: _ =>
    let extension := env.GetFileExtension firstFilename
    let importPlaylist : Bool := decide (extension ∈ env.playlistExtensions)
    if importPlaylist then
      (true, [.Tree_ImportPlaylist firstFilename])
    else
      let mediaList := collectMedia env filenames
      if !mediaList.isEmpty then
        (true, [.Tree_SetScratchList mediaList, .Output_Play_ScratchList])
      else
        -- Handle Audio CD autoplay
        (false,
          if 1 = filenames.length then
            let filename := firstFilename
            if !filename.isEmpty then
              if env.isCDROM filename && env.ContainsCDAudio filename.front then
                .Tree_SelectAudioCD filename.front ::
                  (if env.audioCDPlaylist filename.front then [.Output_Play_AudioCD] else [])
              else []
            else []
          else [])

/-- A sample command line environment: the extension is what follows the last dot, `mp3`
and `ogg` are track extensions, `m3u` is a playlist extension, and drive `E` holds an
audio CD. -/
def CommandLineEnv.sample : CommandLineEnv where
  GetFileExtension := fun s => String.mk (s.toList.reverse.takeWhile (fun c => c != '.')).reverse
  trackExtensions := ["mp3", "ogg"]
  playlistExtensions := ["m3u"]
  isCDROM := fun s => s.front == 'E'
  ContainsCDAudio := fun c => c == 'E'
  audioCDPlaylist := fun c => c == 'E'

/-! ## Theorems -/

namespace VUMeter

theorem snd_ite_eq (c : Bool) (A B : VUMeter) (h : c = false → B = A) :
    (if c = true then (true, A) else (false, B)).2 = A := by
  cases c
  · simpa using h rfl
  · rfl

theorem collapse_eq (stereo : Bool) (raw : ℚ × ℚ) :
    (if !stereo then
      if raw.1 > raw.2 then (raw.1, raw.1) else (raw.2, raw.2)
    else (raw.1, raw.2)) = (preClamp stereo raw .left, preClamp stereo raw .right) := by
  cases stereo
  · by_cases h : raw.1 > raw.2
    · simp [preClamp, h, max_eq_left (le_of_lt h)]
    · simp [preClamp, h, max_eq_right (not_lt.mp h)]
  · simp [preClamp, Channel.of]

/-- The meter after `GetLevels`, in closed form. -/
theorem GetLevels_snd (m : VUMeter) (raw : ℚ × ℚ) :
    (m.GetLevels raw).2 =
      { m with
        m_OutputLevel := outputOf m.m_IsStereo raw
        m_LeftDisplayLevel := smooth m.m_LeftDisplayLevel (outputOf m.m_IsStereo raw).1 m.m_Decay
        m_RightDisplayLevel := smooth m.m_RightDisplayLevel (outputOf m.m_IsStereo raw).2 m.m_Decay } := by
  unfold GetLevels
  dsimp only
  rw [collapse_eq]
  refine (snd_ite_eq _ _ _ ?_).trans ?_
  · intro h
    simp only [Bool.or_eq_false_iff, decide_eq_false_iff_not, ne_eq, not_not] at h
    rw [h.1, h.2]
  · rfl

theorem GetLevels_output (m : VUMeter) (raw : ℚ × ℚ) (ch : Channel) :
    (m.GetLevels raw).2.output ch = clamp (preClamp m.m_IsStereo raw ch) 0 1 := by
  rw [GetLevels_snd]
  cases ch <;> rfl

theorem GetLevels_display (m : VUMeter) (raw : ℚ × ℚ) (ch : Channel) :
    (m.GetLevels raw).2.display ch =
      smooth (m.display ch) ((m.GetLevels raw).2.output ch) m.m_Decay := by
  rw [GetLevels_snd]
  cases ch <;> rfl

theorem GetLevels_decay (m : VUMeter) (raw : ℚ × ℚ) :
    (m.GetLevels raw).2.m_Decay = m.m_Decay := by
  rw [GetLevels_snd]

theorem GetLevels_stereo (m : VUMeter) (raw : ℚ × ℚ) :
    (m.GetLevels raw).2.m_IsStereo = m.m_IsStereo := by
  rw [GetLevels_snd]

/-- Attack in exact arithmetic: for every channel whose previous displayed level `d` is
strictly below the clamped output level `o` stored by `GetLevels`, the new displayed level
is `d + (o - d) * 0.2`; in particular `d = 0`, `o = 1` gives `0.2`. -/
theorem GetLevels_attack (m : VUMeter) (raw : ℚ × ℚ) (ch : Channel)
    (h : m.display ch < (m.GetLevels raw).2.output ch) :
    (m.GetLevels raw).2.display ch =
        m.display ch + ((m.GetLevels raw).2.output ch - m.display ch) * (1 / 5) ∧
    (m.display ch = 0 → (m.GetLevels raw).2.output ch = 1 →
      (m.GetLevels raw).2.display ch = 1 / 5) := by
  have key : (m.GetLevels raw).2.display ch =
      m.display ch + ((m.GetLevels raw).2.output ch - m.display ch) * (1 / 5) := by
    rw [GetLevels_display, smooth, if_pos h, s_RiseFactor]
  refine ⟨key, fun hd ho => ?_⟩
  rw [key, hd, ho]
  norm_num

theorem silent_tick_display (m : VUMeter) (ch : Channel) (h0 : 0 ≤ m.display ch) :
    (m.tick (0, 0)).display ch = max (m.display ch - m.m_Decay) 0 := by
  have ho : (m.GetLevels (0, 0)).2.output ch = 0 := by
    rw [GetLevels_output]
    cases m.m_IsStereo <;> cases ch <;> simp [preClamp, Channel.of, clamp]
  unfold tick
  rw [GetLevels_display, ho, smooth, if_neg (not_lt.mpr h0)]
  split_ifs with h2
  · exact (max_eq_right (le_of_lt h2)).symm
  · exact (max_eq_left (not_lt.mp h2)).symm

theorem silent_run_display (k : ℕ) (m : VUMeter) (ch : Channel) (hdecay : 0 < m.m_Decay)
    (h0 : 0 ≤ m.display ch) :
    (m.ticks (List.replicate k (0, 0))).display ch
      = max (m.display ch - (k : ℚ) * m.m_Decay) 0 := by
  induction k generalizing m with
  | zero => simp [ticks, max_eq_left h0]
  | succ n ih =>
    have hstep : (m.tick (0, 0)).display ch = max (m.display ch - m.m_Decay) 0 :=
      silent_tick_display m ch h0
    have hdec : (m.tick (0, 0)).m_Decay = m.m_Decay := GetLevels_decay m (0, 0)
    have h0t : 0 ≤ (m.tick (0, 0)).display ch := by
      rw [hstep]
      exact le_max_right _ _
    have hrec := ih (m.tick (0, 0)) (by rw [hdec]; exact hdecay) h0t
    have hunf : m.ticks (List.replicate (n + 1) (0, 0))
        = (m.tick (0, 0)).ticks (List.replicate n (0, 0)) := by
      simp [ticks, List.replicate_succ]
    rw [hunf, hrec, hstep, hdec]
    have hn : (0 : ℚ) ≤ (n : ℚ) * m.m_Decay :=
      mul_nonneg (Nat.cast_nonneg n) (le_of_lt hdecay)
    push_cast
    rcases le_total (m.display ch - m.m_Decay) 0 with hle | hge
    · rw [max_eq_right hle, max_eq_right (by linarith), max_eq_right (by linarith)]
    · rw [max_eq_left hge]
      congr 1
      ring

/-- Silent decay in exact arithmetic: with a positive decay and a non-negative starting
level `d0` on a channel, holding the output at `0.0` for `k` ticks of `GetLevels` leaves
the displayed level at `max (d0 - k * decay) 0`: it is never negative, it is `0` once
`k * decay ≥ d0`, and it is still `0` after any further ticks. -/
theorem ticks_silent (m : VUMeter) (k : ℕ) (ch : Channel) (hdecay : 0 < m.m_Decay)
    (h0 : 0 ≤ m.display ch) :
    (m.ticks (List.replicate k (0, 0))).display ch
        = max (m.display ch - (k : ℚ) * m.m_Decay) 0 ∧
    0 ≤ (m.ticks (List.replicate k (0, 0))).display ch ∧
    (m.display ch ≤ (k : ℚ) * m.m_Decay →
      ∀ j : ℕ, (m.ticks (List.replicate (k + j) (0, 0))).display ch = 0) := by
  refine ⟨silent_run_display k m ch hdecay h0, ?_, fun hk j => ?_⟩
  · rw [silent_run_display k m ch hdecay h0]
    exact le_max_right _ _
  · rw [silent_run_display (k + j) m ch hdecay h0]
    apply max_eq_right
    have hj : (0 : ℚ) ≤ (j : ℚ) * m.m_Decay :=
      mul_nonneg (Nat.cast_nonneg j) (le_of_lt hdecay)
    push_cast
    linarith

end VUMeter

/-- C6. The play command (`ID_CONTROL_PLAY` or `ID_TRAY_PLAY`) makes the same calls as the
play-on-startup path and dispatches on the output state: in state Playing or Paused it
makes exactly the call `Pause()`; in any other state it never calls `Pause`, it calls
`Play( playlist, item.ID )` exactly when the list has a playlist and the selected item's
ID is not `0`, and with item ID `0` it makes no call at all, so the output state is
unchanged. -/
theorem play_command_dispatch (commandID : Command) (env : Env)
    (hc : commandID = .ID_CONTROL_PLAY ∨ commandID = .ID_TRAY_PLAY) :
    playOnStartup true env = OnCommand commandID env ∧
    (env.state = .Playing ∨ env.state = .Paused →
      OnCommand commandID env = [.Output_Pause]) ∧
    (env.state ≠ .Playing → env.state ≠ .Paused →
      Call.Output_Pause ∉ OnCommand commandID env ∧
      (∀ playlist itemID, Call.Output_Play playlist itemID ∈ OnCommand commandID env ↔
        (env.playlist = some playlist ∧ itemID = env.selectedID ∧ env.selectedID ≠ 0)) ∧
      (∀ playlist, env.playlist = some playlist → env.selectedID ≠ 0 →
        OnCommand commandID env = [.Output_Play playlist env.selectedID]) ∧
      (env.selectedID = 0 →
        OnCommand commandID env = [] ∧
        (OnCommand commandID env).foldl Call.apply env.state = env.state)) := by
  have hsame : OnCommand commandID env = playOnStartup true env := by
    rcases hc with rfl | rfl <;> rfl
  rw [hsame]
  refine ⟨rfl, ?_, ?_⟩
  · rintro (h | h) <;> simp [playOnStartup, h]
  · intro h1 h2
    have hs : env.state = .Stopped := by
      cases hst : env.state
      · rfl
      · exact absurd hst h1
      · exact absurd hst h2
    cases hp : env.playlist with
    | none => simp [playOnStartup, hs, hp]
    | some pl =>
      by_cases hid : env.selectedID = 0
      · simp [playOnStartup, hs, hp, hid]
      · have hid2 : ¬ (0 = env.selectedID) := fun h => hid h.symm
        simp only [playOnStartup, hs, hp, if_true, ne_eq, hid2, not_false_eq_true,
          List.mem_singleton, reduceCtorEq, Call.Output_Play.injEq, Option.some.injEq,
          hid, and_true, true_and, false_implies, implies_true]
        refine ⟨fun playlist itemID => ?_, fun playlist h => ?_⟩
        · constructor
          · rintro ⟨rfl, rfl⟩
            exact ⟨rfl, rfl⟩
          · rintro ⟨rfl, rfl⟩
            exact ⟨rfl, rfl⟩
        · intro _
          rw [h]

/-- Witness for C6: with the output stopped and item `3` of playlist `7` selected the play
command calls `Play( 7, 3 )`; with item ID `0` it makes no call; while playing it calls
`Pause()`. -/
theorem play_command_dispatch_witness :
    OnCommand .ID_CONTROL_PLAY Env.sample = [.Output_Play 7 3] ∧
    OnCommand .ID_TRAY_PLAY { Env.sample with selectedID := 0 } = [] ∧
    OnCommand .ID_CONTROL_PLAY { Env.sample with state := .Playing } = [.Output_Pause] :=
  ⟨((play_command_dispatch .ID_CONTROL_PLAY Env.sample (Or.inl rfl)).2.2
      (by decide) (by decide)).2.2.1 7 rfl (by decide),
   (((play_command_dispatch .ID_TRAY_PLAY { Env.sample with selectedID := 0 }
      (Or.inr rfl)).2.2 (by decide) (by decide)).2.2.2 rfl).1,
   (play_command_dispatch .ID_CONTROL_PLAY { Env.sample with state := .Playing }
      (Or.inl rfl)).2.1 (Or.inl rfl)⟩

/-- A sample run for C7: from Stopped, play with item `3` of playlist `7` selected starts
playback; a level read that returns NaN changes nothing; play again pauses; play once more
stays paused; a volume command changes nothing; stop stops.  The calls made are `Play`,
`Pause`, `Pause`, `SetVolume`, `Update` and `Stop`. -/
theorem transport_sample_run :
    ((App.mk .Stopped (Binary32.VUMeter.new (.fin 0) true)).run
      [.command .ID_CONTROL_PLAY Env.sample]).1.output = .Playing ∧
    ((App.mk .Stopped (Binary32.VUMeter.new (.fin 0) true)).run
      [.command .ID_CONTROL_PLAY Env.sample, .levelRead (.nan, .nan),
        .command .ID_TRAY_PLAY Env.sample]).1.output = .Paused ∧
    ((App.mk .Stopped (Binary32.VUMeter.new (.fin 0) true)).run
      [.command .ID_CONTROL_PLAY Env.sample, .levelRead (.nan, .nan),
        .command .ID_TRAY_PLAY Env.sample, .command .ID_CONTROL_PLAY Env.sample]).1.output
      = .Paused ∧
    ((App.mk .Stopped (Binary32.VUMeter.new (.fin 0) true)).run
      [.command .ID_CONTROL_PLAY Env.sample, .levelRead (.nan, .nan),
        .command .ID_TRAY_PLAY Env.sample, .command .ID_CONTROL_PLAY Env.sample,
        .command .ID_CONTROL_VOLUMEUP Env.sample, .command .ID_CONTROL_STOP Env.sample]).1.output
      = .Stopped ∧
    ((App.mk .Stopped (Binary32.VUMeter.new (.fin 0) true)).run
      [.command .ID_CONTROL_PLAY Env.sample, .levelRead (.nan, .nan),
        .command .ID_TRAY_PLAY Env.sample, .command .ID_CONTROL_PLAY Env.sample,
        .command .ID_CONTROL_VOLUMEUP Env.sample, .command .ID_CONTROL_STOP Env.sample]).2
      = [.Output_Play 7 3, .Output_Pause, .Output_Pause,
          .Output_SetVolume (1 / 2 + 1 / 100), .VolumeControl_Update, .Output_Stop] ∧
    ((App.mk .Stopped (Binary32.VUMeter.new (.fin 0) true)).run
      [.command .ID_CONTROL_PLAY { Env.sample with selectedID := 0 }]).1.output = .Stopped := by
  refine ⟨?_, ?_, ?_, ?_, ?_, ?_⟩ <;>
    simp [App.run, App.step, OnCommand, Env.sample, Call.apply, Call.op, Transport.step]
  norm_num

/-- C8. For a current volume `v` in `[0, 1]`, volume-down passes `max (v - 0.01) 0` to
`SetVolume` and volume-up passes `min (v + 0.01) 1`; every volume either command passes
to `SetVolume` lies in `[0, 1]`. -/
theorem volume_commands (env : Env) (h0 : 0 ≤ env.volume) (h1 : env.volume ≤ 1) :
    OnCommand .ID_CONTROL_VOLUMEDOWN env
      = [.Output_SetVolume (max (env.volume - 1 / 100) 0), .VolumeControl_Update] ∧
    OnCommand .ID_CONTROL_VOLUMEUP env
      = [.Output_SetVolume (min (env.volume + 1 / 100) 1), .VolumeControl_Update] ∧
    (∀ v, Call.Output_SetVolume v ∈ OnCommand .ID_CONTROL_VOLUMEDOWN env ∨
        Call.Output_SetVolume v ∈ OnCommand .ID_CONTROL_VOLUMEUP env → 0 ≤ v ∧ v ≤ 1) := by
  have hdown : OnCommand .ID_CONTROL_VOLUMEDOWN env
      = [.Output_SetVolume (max (env.volume - 1 / 100) 0), .VolumeControl_Update] := by
    simp only [OnCommand]
    split_ifs with h
    · rw [max_eq_right (le_of_lt h)]
    · rw [max_eq_left (not_lt.mp h)]
  have hup : OnCommand .ID_CONTROL_VOLUMEUP env
      = [.Output_SetVolume (min (env.volume + 1 / 100) 1), .VolumeControl_Update] := by
    simp only [OnCommand]
    split_ifs with h
    · rw [min_eq_right (le_of_lt h)]
    · rw [min_eq_left (not_lt.mp h)]
  refine ⟨hdown, hup, fun v hv => ?_⟩
  rw [hdown, hup] at hv
  simp only [List.mem_cons, Call.Output_SetVolume.injEq, reduceCtorEq, List.mem_nil_iff,
    or_false] at hv
  rcases hv with rfl | rfl
  · refine ⟨le_max_right _ _, max_le (by linarith) zero_le_one⟩
  · refine ⟨le_min (by linarith) zero_le_one, min_le_right _ _⟩

/-- Witness for C8: at volume `1/2` the commands pass `49/100` and `51/100`. -/
theorem volume_commands_witness :
    OnCommand .ID_CONTROL_VOLUMEDOWN Env.sample
      = [.Output_SetVolume (49 / 100), .VolumeControl_Update] ∧
    OnCommand .ID_CONTROL_VOLUMEUP Env.sample
      = [.Output_SetVolume (51 / 100), .VolumeControl_Update] := by
  have h := volume_commands Env.sample (by norm_num [Env.sample])
    (by norm_num [Env.sample])
  have e1 : max (Env.sample.volume - 1 / 100) 0 = 49 / 100 := by
    norm_num [Env.sample]
  have e2 : min (Env.sample.volume + 1 / 100) 1 = 51 / 100 := by
    norm_num [Env.sample]
  rw [e1, e2] at h
  exact ⟨h.1, h.2.1⟩

/-- The pitch range commands in exact arithmetic: when `r` is already the active
range no call is made; when `r` differs and the current pitch is exactly `1.0` only the
setting is stored and `SetPitch` is not called; when `r` differs, the pitch `p` is not
`1.0` and both range factors are positive, the setting is stored and `SetPitch` is called
with a pitch `p'` such that `(p' - 1) * oldRange = (p - 1) * newRange`. -/
theorem pitch_range_change (env : Env) (r : Settings.PitchRange) :
    (r = env.pitchRange → OnCommand (pitchRangeCommand r) env = []) ∧
    (r ≠ env.pitchRange → env.pitch = 1 →
      OnCommand (pitchRangeCommand r) env = [.Settings_SetPitchRange r]) ∧
    (r ≠ env.pitchRange → env.pitch ≠ 1 →
      0 < env.pitchRangeOptions env.pitchRange → 0 < env.pitchRangeOptions r →
      ∃ p', OnCommand (pitchRangeCommand r) env
          = [.Settings_SetPitchRange r, .Output_SetPitch p'] ∧
        (p' - 1) * env.pitchRangeOptions env.pitchRange
          = (env.pitch - 1) * env.pitchRangeOptions r) := by
  refine ⟨fun h => ?_, fun h hp => ?_, fun h hp hold hnew => ?_⟩
  · cases r <;> simp [pitchRangeCommand, OnCommand, ← h]
  · cases r <;> simp [pitchRangeCommand, OnCommand, h, hp]
  · refine ⟨1 + (env.pitch - 1) * (env.pitchRangeOptions r / env.pitchRangeOptions env.pitchRange),
      ?_, ?_⟩
    · cases r <;> simp [pitchRangeCommand, OnCommand, h, hp, hold, hnew]
    · field_simp

/-- C10. With `r` the factor mapped to the selected pitch range: when `r > 0`, pitch-up
passes `GetPitch() + r / 100` to `SetPitch` and pitch-down passes `GetPitch() - r / 100`,
so pitch-down issued while `GetPitch()` returns what pitch-up passed (no clamping in
between) passes the original pitch again; when `r ≤ 0` neither command makes a call. -/
theorem pitch_step (env : Env) :
    (0 < env.pitchRangeOptions env.pitchRange →
      OnCommand .ID_CONTROL_PITCHUP env
        = [.Output_SetPitch (env.pitch + env.pitchRangeOptions env.pitchRange / 100),
            .VolumeControl_Update] ∧
      OnCommand .ID_CONTROL_PITCHDOWN env
        = [.Output_SetPitch (env.pitch - env.pitchRangeOptions env.pitchRange / 100),
            .VolumeControl_Update] ∧
      OnCommand .ID_CONTROL_PITCHDOWN
          { env with pitch := env.pitch + env.pitchRangeOptions env.pitchRange / 100 }
        = [.Output_SetPitch env.pitch, .VolumeControl_Update]) ∧
    (env.pitchRangeOptions env.pitchRange ≤ 0 →
      OnCommand .ID_CONTROL_PITCHUP env = [] ∧ OnCommand .ID_CONTROL_PITCHDOWN env = []) := by
  refine ⟨fun h => ⟨?_, ?_, ?_⟩, fun h => ⟨?_, ?_⟩⟩
  · simp [OnCommand, h]
  · simp only [OnCommand, gt_iff_lt, h, if_true]
    congr 2
    ring
  · simp only [OnCommand, gt_iff_lt, h, if_true]
    congr 2
    ring
  · simp [OnCommand, not_lt.mpr h]
  · simp [OnCommand, not_lt.mpr h]

/-- Witness for C10: with factor `10` and pitch `11/10`, pitch-up passes `6/5` and
pitch-down passes `1`; with a factor of `0` pitch-up makes no call. -/
theorem pitch_step_witness :
    OnCommand .ID_CONTROL_PITCHUP Env.sample
      = [.Output_SetPitch (6 / 5), .VolumeControl_Update] ∧
    OnCommand .ID_CONTROL_PITCHDOWN Env.sample
      = [.Output_SetPitch 1, .VolumeControl_Update] ∧
    OnCommand .ID_CONTROL_PITCHUP { Env.sample with pitchRangeOptions := fun _ => 0 } = [] := by
  have h := (pitch_step Env.sample).1 (by norm_num [Env.sample])
  have h0 := ((pitch_step { Env.sample with pitchRangeOptions := fun _ => 0 }).2
    (le_refl _)).1
  have e1 : Env.sample.pitch + Env.sample.pitchRangeOptions Env.sample.pitchRange / 100
      = 6 / 5 := by
    norm_num [Env.sample]
  have e2 : Env.sample.pitch - Env.sample.pitchRangeOptions Env.sample.pitchRange / 100
      = 1 := by
    norm_num [Env.sample]
  rw [e1, e2] at h
  exact ⟨h.1, h.2.1, h0⟩

/-- `AllowSkip` in exact arithmetic: with a positive counter frequency it returns true
exactly when the time elapsed since the last recorded skip,
`(perfCount - m_LastSkipCount) / perfFreq` seconds, is strictly greater than `0.1` or
negative, and an elapsed time of exactly `0.1` s is refused. -/
theorem AllowSkip_exact (perfFreq perfCount last : ℤ) (hfreq : 0 < perfFreq) :
    (AllowSkip perfFreq perfCount last = true ↔
      ((perfCount - last : ℤ) : ℚ) / (perfFreq : ℚ) > 1 / 10 ∨
      ((perfCount - last : ℤ) : ℚ) / (perfFreq : ℚ) < 0) ∧
    (AllowSkip perfFreq perfCount last = true ↔
      perfFreq < 10 * (perfCount - last) ∨ perfCount < last) ∧
    (((perfCount - last : ℤ) : ℚ) / (perfFreq : ℚ) = 1 / 10 →
      AllowSkip perfFreq perfCount last = false) := by
  have hq : (0 : ℚ) < (perfFreq : ℚ) := by exact_mod_cast hfreq
  have hdef : AllowSkip perfFreq perfCount last = true ↔
      ((perfCount - last : ℤ) : ℚ) / (perfFreq : ℚ) > 1 / 10 ∨
      ((perfCount - last : ℤ) : ℚ) / (perfFreq : ℚ) < 0 := by
    simp [AllowSkip, s_SkipLimitInterval]
  refine ⟨hdef, ?_, fun h => ?_⟩
  · rw [hdef, gt_iff_lt, lt_div_iff₀ hq, div_lt_iff₀ hq]
    constructor
    · rintro (h | h)
      · left
        have h2 : (perfFreq : ℚ) < 10 * ((perfCount - last : ℤ) : ℚ) := by linarith
        exact_mod_cast h2
      · right
        rw [zero_mul] at h
        have h2 : ((perfCount - last : ℤ) : ℚ) < 0 := h
        have h3 : perfCount - last < 0 := by exact_mod_cast h2
        linarith
    · rintro (h | h)
      · left
        have h2 : (perfFreq : ℚ) < 10 * ((perfCount - last : ℤ) : ℚ) := by
          exact_mod_cast h
        linarith
      · right
        rw [zero_mul]
        have h3 : perfCount - last < 0 := by linarith
        exact_mod_cast h3
  · cases hallow : AllowSkip perfFreq perfCount last with
    | false => rfl
    | true =>
      rw [hdef, h] at hallow
      norm_num at hallow


/-- C13. The commands `ID_BLING1`, `ID_BLING2`, `ID_BLING3` and `ID_BLING4` call
`Output::Bling` with `1`, `2`, `3` and `4` respectively and make no other call; so the
argument of every such call lies in `[1, 4]`, and two of these commands that make the
same call are the same command. -/
theorem bling_commands (env : Env) :
    OnCommand .ID_BLING1 env = [.Output_Bling 1] ∧
    OnCommand .ID_BLING2 env = [.Output_Bling 2] ∧
    OnCommand .ID_BLING3 env = [.Output_Bling 3] ∧
    OnCommand .ID_BLING4 env = [.Output_Bling 4] ∧
    (∀ commandID ∈ [Command.ID_BLING1, .ID_BLING2, .ID_BLING3, .ID_BLING4],
      ∀ n, Call.Output_Bling n ∈ OnCommand commandID env → 1 ≤ n ∧ n ≤ 4) ∧
    (∀ c1 ∈ [Command.ID_BLING1, .ID_BLING2, .ID_BLING3, .ID_BLING4],
      ∀ c2 ∈ [Command.ID_BLING1, .ID_BLING2, .ID_BLING3, .ID_BLING4],
        OnCommand c1 env = OnCommand c2 env → c1 = c2) := by
  have h1 : OnCommand .ID_BLING1 env = [.Output_Bling 1] := rfl
  have h2 : OnCommand .ID_BLING2 env = [.Output_Bling 2] := rfl
  have h3 : OnCommand .ID_BLING3 env = [.Output_Bling 3] := rfl
  have h4 : OnCommand .ID_BLING4 env = [.Output_Bling 4] := rfl
  refine ⟨h1, h2, h3, h4, ?_, ?_⟩
  · intro commandID hc n hn
    simp only [List.mem_cons, List.mem_singleton, List.mem_nil_iff, or_false] at hc
    rcases hc with rfl | rfl | rfl | rfl
    · rw [h1] at hn
      simp only [List.mem_singleton, Call.Output_Bling.injEq] at hn
      omega
    · rw [h2] at hn
      simp only [List.mem_singleton, Call.Output_Bling.injEq] at hn
      omega
    · rw [h3] at hn
      simp only [List.mem_singleton, Call.Output_Bling.injEq] at hn
      omega
    · rw [h4] at hn
      simp only [List.mem_singleton, Call.Output_Bling.injEq] at hn
      omega
  · intro c1 hc1 c2 hc2 heq
    simp only [List.mem_cons, List.mem_singleton, List.mem_nil_iff, or_false] at hc1 hc2
    rcases hc1 with rfl | rfl | rfl | rfl <;> rcases hc2 with rfl | rfl | rfl | rfl <;>
      first
        | rfl
        | exact absurd heq (by simp [OnCommand])

/-- Witness for C13: `ID_BLING3` calls `Bling( 3 )`, and `3` lies in `[1, 4]`. -/
theorem bling_commands_witness :
    OnCommand .ID_BLING3 Env.sample = [.Output_Bling 3] ∧ (1 : ℤ) ≤ 3 ∧ (3 : ℤ) ≤ 4 :=
  ⟨(bling_commands Env.sample).2.2.1,
   (bling_commands Env.sample).2.2.2.2.1 .ID_BLING3 (by simp) 3
     (by rw [(bling_commands Env.sample).2.2.1]; simp)⟩

theorem refreshCalls_update (c : TimerCall) (h : c ∈ refreshCalls) : ∃ w, c = .Update w := by
  simp only [refreshCalls, List.mem_cons, List.mem_singleton, List.mem_nil_iff, or_false] at h
  rcases h with h | h | h | h | h | h | h | h | h | h | h | h | h | h | h | h | h | h <;>
    exact ⟨_, h⟩

theorem OnTimer_calls (TIMER_SYSTRAY : ℕ) (s : TimerState) (env : TimerEnv) :
    ∃ first selection : List TimerCall,
      (OnTimer TIMER_SYSTRAY s_TimerID s env).2.2 =
        first ++ TimerCall.Output_GetCurrentPlaying ::
          ((if s.m_CurrentOutput.ID ≠ env.currentPlaying.ID then
              [TimerCall.OnOutputChanged s.m_CurrentOutput env.currentPlaying] else [])
            ++ TimerCall.SetTitlebarText env.currentPlaying :: (selection ++ refreshCalls)) ∧
      (∀ c ∈ first, c = .RedrawWindow_Status) ∧
      (∀ c ∈ selection, c = .Output_GetCurrentSelectedPlaylistItem ∨
        c = .Output_SetCurrentSelectedPlaylistItem env.currentSelectedPlaylistItemID ∨
        c = .Splitter_Resize ∨ c = .Visual_DoRender) := by
  refine ⟨if s.m_IsFirstTimeStartup then [.RedrawWindow_Status] else [],
    if 0 = env.currentPlaying.ID then
        .Output_GetCurrentSelectedPlaylistItem ::
          (if env.currentSelectedPlaylistItemID ≠ env.currentSelectedOutputItemID then
            .Output_SetCurrentSelectedPlaylistItem env.currentSelectedPlaylistItemID ::
              (if env.isArtworkVisual then [.Splitter_Resize, .Visual_DoRender] else [])
          else [])
      else [], ?_, ?_, ?_⟩
  · simp only [OnTimer, if_true, List.append_assoc, List.singleton_append, List.cons_append,
      List.nil_append]
  · intro c hc
    split_ifs at hc
    · simpa using hc
    · simp at hc
  · intro c hc
    split_ifs at hc <;> simp at hc <;> tauto

/-- C12. On a main timer tick `OnTimer` calls `GetCurrentPlaying` exactly once, calls
`OnOutputChanged( previous cached snapshot, new snapshot )` if and only if the playlist
item ID of the new snapshot differs from the cached one (and makes no other
`OnOutputChanged` call), and afterwards `m_CurrentOutput` is the snapshot read in that
tick. -/
theorem OnTimer_snapshot (TIMER_SYSTRAY : ℕ) (s : TimerState) (env : TimerEnv) :
    (∃ before after : List TimerCall,
      (OnTimer TIMER_SYSTRAY s_TimerID s env).2.2
        = before ++ TimerCall.Output_GetCurrentPlaying :: after ∧
      TimerCall.Output_GetCurrentPlaying ∉ before ∧
      TimerCall.Output_GetCurrentPlaying ∉ after) ∧
    (TimerCall.OnOutputChanged s.m_CurrentOutput env.currentPlaying
        ∈ (OnTimer TIMER_SYSTRAY s_TimerID s env).2.2
      ↔ s.m_CurrentOutput.ID ≠ env.currentPlaying.ID) ∧
    (∀ previousItem currentItem,
      TimerCall.OnOutputChanged previousItem currentItem
          ∈ (OnTimer TIMER_SYSTRAY s_TimerID s env).2.2 →
        previousItem = s.m_CurrentOutput ∧ currentItem = env.currentPlaying) ∧
    (OnTimer TIMER_SYSTRAY s_TimerID s env).2.1.m_CurrentOutput = env.currentPlaying ∧
    (OnTimer TIMER_SYSTRAY s_TimerID s env).1 = true := by
  obtain ⟨first, selection, hcalls, hfirst, hsel⟩ := OnTimer_calls TIMER_SYSTRAY s env
  have hstate : (OnTimer TIMER_SYSTRAY s_TimerID s env).2.1.m_CurrentOutput
      = env.currentPlaying := by
    simp only [OnTimer, if_true]
  have hhandled : (OnTimer TIMER_SYSTRAY s_TimerID s env).1 = true := by
    simp only [OnTimer, if_true]
  have hrest : ∀ c ∈ selection ++ refreshCalls,
      c ≠ .Output_GetCurrentPlaying ∧ ∀ x y, c ≠ .OnOutputChanged x y := by
    intro c hc
    rcases List.mem_append.mp hc with h | h
    · rcases hsel c h with rfl | rfl | rfl | rfl <;> simp
    · obtain ⟨w, rfl⟩ := refreshCalls_update c h
      simp
  have hfirst2 : ∀ c ∈ first,
      c ≠ .Output_GetCurrentPlaying ∧ ∀ x y, c ≠ .OnOutputChanged x y := by
    intro c hc
    rw [hfirst c hc]
    simp
  refine ⟨⟨first, _, hcalls, fun h => (hfirst2 _ h).1 rfl, ?_⟩, ?_, ?_, hstate, hhandled⟩
  · intro h
    rcases List.mem_append.mp h with h | h
    · split_ifs at h <;> simp at h
    · rcases List.mem_cons.mp h with h | h
      · simp at h
      · exact (hrest _ h).1 rfl
  · rw [hcalls]
    constructor
    · intro h
      rcases List.mem_append.mp h with h | h
      · exact absurd rfl ((hfirst2 _ h).2 _ _)
      · rcases List.mem_cons.mp h with h | h
        · simp at h
        · rcases List.mem_append.mp h with h | h
          · by_cases hne : s.m_CurrentOutput.ID ≠ env.currentPlaying.ID
            · exact hne
            · rw [if_neg hne] at h
              simp at h
          · rcases List.mem_cons.mp h with h | h
            · simp at h
            · exact absurd rfl ((hrest _ h).2 _ _)
    · intro hne
      simp [hne]
  · intro previousItem currentItem h
    rw [hcalls] at h
    rcases List.mem_append.mp h with h | h
    · exact absurd rfl ((hfirst2 _ h).2 _ _)
    · rcases List.mem_cons.mp h with h | h
      · simp at h
      · rcases List.mem_append.mp h with h | h
        · by_cases hne : s.m_CurrentOutput.ID ≠ env.currentPlaying.ID
          · rw [if_pos hne] at h
            simp only [List.mem_singleton, TimerCall.OnOutputChanged.injEq] at h
            exact h
          · rw [if_neg hne] at h
            simp at h
        · rcases List.mem_cons.mp h with h | h
          · simp at h
          · exact absurd rfl ((hrest _ h).2 _ _)

theorem lookup_fresh (map : PlaylistMenuMap) (key : ℕ) (h : key ∉ map.map Prod.fst) :
    map.lookup key = none := by
  induction map with
  | nil => rfl
  | cons e es ih =>
    obtain ⟨k, v⟩ := e
    simp only [List.map_cons, List.mem_cons, not_or] at h
    rw [List.lookup_cons]
    have hne : (key == k) = false := by simpa using h.1
    rw [hne]
    exact ih h.2

theorem insert_fresh (map : PlaylistMenuMap) (key : ℕ) (value : Option ℕ)
    (h : key ∉ map.map Prod.fst) :
    PlaylistMenuMap.insert map key value = map ++ [(key, value)] := by
  simp [PlaylistMenuMap.insert, lookup_fresh map key h]

theorem insertPlaylists_keys (playlists : List (Option ℕ)) (s c : ℕ) (map : PlaylistMenuMap)
    (hs : s ≤ c) (hc : c ≤ MSG_PLAYLISTMENUEND)
    (hkeys : map.map Prod.fst = List.range' s (c - s)) :
    (insertPlaylists playlists c map).map Prod.fst
        = List.range' s (insertPlaylists playlists c map).length ∧
    (insertPlaylists playlists c map).length ≤ MSG_PLAYLISTMENUEND + 1 - s := by
  have hlen : map.length = c - s := by
    have := congrArg List.length hkeys
    simpa using this
  induction playlists generalizing c map with
  | nil =>
    simp only [insertPlaylists]
    rw [hlen]
    exact ⟨hkeys, by omega⟩
  | cons playlist rest ih =>
    cases playlist with
    | none =>
      simp only [insertPlaylists]
      exact ih c map hs hc hkeys hlen
    | some p =>
      have hfresh : c ∉ map.map Prod.fst := by
        rw [hkeys]
        simp only [List.mem_range'_1, not_and, not_lt]
        intro _
        omega
      have hkeys2 : (map ++ [(c, some p)]).map Prod.fst = List.range' s (c + 1 - s) := by
        rw [List.map_append, hkeys]
        have : c + 1 - s = (c - s) + 1 := by omega
        rw [this, List.range'_concat]
        simp
        omega
      have hlen2 : (map ++ [(c, some p)]).length = c + 1 - s := by
        simp [hlen]
        omega
      simp only [insertPlaylists, insert_fresh map c (some p) hfresh]
      split_ifs with hend
      · rw [hlen2]
        exact ⟨hkeys2, by omega⟩
      · exact ih (c + 1) _ (by omega) (by omega) hkeys2 hlen2

theorem insertPlaylists_values (playlists : List (Option ℕ)) (c : ℕ) (map : PlaylistMenuMap)
    (hc : c ≤ MSG_PLAYLISTMENUEND) (hfresh : ∀ k ∈ map.map Prod.fst, k < c) :
    (insertPlaylists playlists c map).map Prod.snd
      = map.map Prod.snd
        ++ ((playlists.filterMap id).take (MSG_PLAYLISTMENUEND + 1 - c)).map some := by
  induction playlists generalizing c map with
  | nil => simp [insertPlaylists]
  | cons playlist rest ih =>
    cases playlist with
    | none =>
      simp only [insertPlaylists, List.filterMap_cons, id]
      exact ih c map hc hfresh
    | some p =>
      have hnot : c ∉ map.map Prod.fst := fun h => lt_irrefl c (hfresh c h)
      have hone : MSG_PLAYLISTMENUEND + 1 - c = (MSG_PLAYLISTMENUEND - c) + 1 := by omega
      simp only [insertPlaylists, insert_fresh map c (some p) hnot, List.filterMap_cons, id]
      rw [hone, List.take_succ_cons]
      split_ifs with hend
      · have hz : MSG_PLAYLISTMENUEND - c = 0 := by omega
        rw [hz]
        simp
      · have hfresh2 : ∀ k ∈ (map ++ [(c, some p)]).map Prod.fst, k < c + 1 := by
          intro k hk
          simp only [List.map_append, List.map_cons, List.map_nil, List.mem_append,
            List.mem_singleton] at hk
          rcases hk with hk | hk
          · exact Nat.lt_succ_of_lt (hfresh k hk)
          · omega
        rw [ih (c + 1) _ (by omega) hfresh2]
        have hsub : MSG_PLAYLISTMENUEND + 1 - (c + 1) = MSG_PLAYLISTMENUEND - c := by omega
        rw [hsub]
        simp

theorem OnAddToPlaylist_absent (command : ℕ) (map : PlaylistMenuMap)
    (selectedFilenames : List String) (h : command ∉ map.map Prod.fst) :
    OnAddToPlaylist command map selectedFilenames = [] := by
  simp [OnAddToPlaylist, PlaylistMenuMap.find, lookup_fresh map command h]

theorem InsertAddToPlaylists_cases (insertAfterItemID : ℕ) (env : MenuEnv) :
    InsertAddToPlaylists insertAfterItemID env = [] ∨
    InsertAddToPlaylists insertAfterItemID env
      = insertPlaylists env.playlists MSG_PLAYLISTMENUSTART [] := by
  unfold InsertAddToPlaylists
  dsimp only
  split_ifs
  · right
    rfl
  · left
    rfl
  · left
    rfl
  · left
    rfl

theorem insertPlaylists_start (playlists : List (Option ℕ)) :
    (insertPlaylists playlists MSG_PLAYLISTMENUSTART []).map Prod.fst
      = List.range' MSG_PLAYLISTMENUSTART
          (insertPlaylists playlists MSG_PLAYLISTMENUSTART []).length ∧
    (insertPlaylists playlists MSG_PLAYLISTMENUSTART []).length ≤ 51 ∧
    (insertPlaylists playlists MSG_PLAYLISTMENUSTART []).map Prod.snd
      = ((playlists.filterMap id).take
          (insertPlaylists playlists MSG_PLAYLISTMENUSTART []).length).map some := by
  have hle : MSG_PLAYLISTMENUSTART ≤ MSG_PLAYLISTMENUEND := by
    simp [MSG_PLAYLISTMENUEND]
  have h51 : MSG_PLAYLISTMENUEND + 1 - MSG_PLAYLISTMENUSTART = 51 := by
    simp only [MSG_PLAYLISTMENUEND]
    omega
  have hk := insertPlaylists_keys playlists MSG_PLAYLISTMENUSTART MSG_PLAYLISTMENUSTART []
    (le_refl _) hle (by simp)
  have hv := insertPlaylists_values playlists MSG_PLAYLISTMENUSTART [] hle (by simp)
  rw [h51] at hk hv
  simp only [List.map_nil, List.nil_append] at hv
  refine ⟨hk.1, hk.2, ?_⟩
  have hlen : (insertPlaylists playlists MSG_PLAYLISTMENUSTART []).length
      = ((playlists.filterMap id).take 51).length := by
    have := congrArg List.length hv
    simpa using this
  rw [hlen, hv]
  congr 1
  rw [List.length_take]
  rcases le_total 51 (playlists.filterMap id).length with h | h
  · rw [min_eq_left h]
  · rw [min_eq_right h, List.take_of_length_le h, List.take_of_length_le (le_refl _)]

/-- C19. The map that `InsertAddToPlaylists` builds: every command ID in it lies in
`[MSG_PLAYLISTMENUSTART, MSG_PLAYLISTMENUEND]`; the IDs are consecutive from
`MSG_PLAYLISTMENUSTART`, hence distinct; at most 51 playlists are listed, and they are
the first non-null playlists of the tree in order; the map is empty when nothing is
selected, when there is no current playlist, or when the current playlist is a CD; and
`OnAddToPlaylist` makes no call for a command that is not in the map. -/
theorem add_to_playlist_map (insertAfterItemID : ℕ) (env : MenuEnv) :
    (∀ e ∈ InsertAddToPlaylists insertAfterItemID env,
      MSG_PLAYLISTMENUSTART ≤ e.1 ∧ e.1 ≤ MSG_PLAYLISTMENUEND) ∧
    (InsertAddToPlaylists insertAfterItemID env).map Prod.fst
      = List.range' MSG_PLAYLISTMENUSTART (InsertAddToPlaylists insertAfterItemID env).length ∧
    ((InsertAddToPlaylists insertAfterItemID env).map Prod.fst).Nodup ∧
    (InsertAddToPlaylists insertAfterItemID env).length ≤ 51 ∧
    (InsertAddToPlaylists insertAfterItemID env).map Prod.snd
      = ((env.playlists.filterMap id).take
          (InsertAddToPlaylists insertAfterItemID env).length).map some ∧
    (env.selectedCount ≤ 0 ∨ env.currentPlaylistIsCDDA = none ∨
        env.currentPlaylistIsCDDA = some true →
      InsertAddToPlaylists insertAfterItemID env = []) ∧
    (∀ command selectedFilenames,
      command ∉ (InsertAddToPlaylists insertAfterItemID env).map Prod.fst →
      OnAddToPlaylist command (InsertAddToPlaylists insertAfterItemID env) selectedFilenames
        = []) := by
  have hmain : (InsertAddToPlaylists insertAfterItemID env).map Prod.fst
        = List.range' MSG_PLAYLISTMENUSTART
            (InsertAddToPlaylists insertAfterItemID env).length ∧
      (InsertAddToPlaylists insertAfterItemID env).length ≤ 51 ∧
      (InsertAddToPlaylists insertAfterItemID env).map Prod.snd
        = ((env.playlists.filterMap id).take
            (InsertAddToPlaylists insertAfterItemID env).length).map some := by
    rcases InsertAddToPlaylists_cases insertAfterItemID env with h | h
    · rw [h]
      simp
    · rw [h]
      exact insertPlaylists_start env.playlists
  refine ⟨fun e he => ?_, hmain.1, ?_, hmain.2.1, hmain.2.2, fun hdis => ?_,
    fun command selectedFilenames h => OnAddToPlaylist_absent command _ selectedFilenames h⟩
  · have hk : e.1 ∈ (InsertAddToPlaylists insertAfterItemID env).map Prod.fst :=
      List.mem_map_of_mem Prod.fst he
    rw [hmain.1, List.mem_range'_1] at hk
    have h51 := hmain.2.1
    simp only [MSG_PLAYLISTMENUEND]
    omega
  · rw [hmain.1]
    exact List.nodup_range' _ _
  · unfold InsertAddToPlaylists
    dsimp only
    rcases hdis with h | h | h
    · have h2 : ¬ env.selectedCount > 0 := not_lt.mpr h
      simp [h2]
    · simp [h]
    · simp [h]

/-- Witness for C19: with two non-null playlists `5` and `6` the map holds them under
the first two command IDs; with nothing selected it is empty; and a command outside the
map adds nothing. -/
theorem add_to_playlist_map_witness :
    InsertAddToPlaylists 20 MenuEnv.sample
      = [(MSG_PLAYLISTMENUSTART, some 5), (MSG_PLAYLISTMENUSTART + 1, some 6)] ∧
    InsertAddToPlaylists 20 { MenuEnv.sample with selectedCount := 0 } = [] ∧
    OnAddToPlaylist (MSG_PLAYLISTMENUSTART + 2) (InsertAddToPlaylists 20 MenuEnv.sample)
      [String.mk []] = [] := by
  have hmap : InsertAddToPlaylists 20 MenuEnv.sample
      = [(MSG_PLAYLISTMENUSTART, some 5), (MSG_PLAYLISTMENUSTART + 1, some 6)] := by
    decide
  refine ⟨hmap, (add_to_playlist_map 20 { MenuEnv.sample with selectedCount := 0 }).2.2.2.2.2.1
    (Or.inl (le_refl _)), ?_⟩
  refine (add_to_playlist_map 20 MenuEnv.sample).2.2.2.2.2.2 _ _ ?_
  rw [hmap]
  decide

/-- Witness for C12: with item `3` cached and item `4` playing, the tick calls
`OnOutputChanged` with the two snapshots and caches the new one. -/
theorem OnTimer_snapshot_witness :
    TimerCall.OnOutputChanged SkipEnv.sample.item { SkipEnv.sample.item with ID := 4 }
      ∈ (OnTimer 7 s_TimerID ⟨SkipEnv.sample.item, false⟩
          ⟨{ SkipEnv.sample.item with ID := 4 }, 0, 0, false⟩).2.2 ∧
    (OnTimer 7 s_TimerID ⟨SkipEnv.sample.item, false⟩
          ⟨{ SkipEnv.sample.item with ID := 4 }, 0, 0, false⟩).2.1.m_CurrentOutput
      = { SkipEnv.sample.item with ID := 4 } :=
  ⟨(OnTimer_snapshot 7 ⟨SkipEnv.sample.item, false⟩
      ⟨{ SkipEnv.sample.item with ID := 4 }, 0, 0, false⟩).2.1.mpr (by decide),
   (OnTimer_snapshot 7 ⟨SkipEnv.sample.item, false⟩
      ⟨{ SkipEnv.sample.item with ID := 4 }, 0, 0, false⟩).2.2.2.1⟩

/-- Whenever `OnMusicBrainzQuery` makes a query, the disc ID and TOC it passes are those
of the first drive of the map. -/
theorem OnMusicBrainzQuery_first {α : Type} (playlist : Option (Bool × List ℤ))
    (drives : List (Char × CDDAMedia α)) (x : α)
    (h : OnMusicBrainzQuery playlist drives = some x) :
    ∃ first, drives.head? = some first ∧ x = first.2.musicBrainzID := by
  have hloop : ∀ (cddbID : ℤ) (remaining : List (Char × CDDAMedia α)),
      OnMusicBrainzQuery.loop cddbID drives remaining = some x →
      ∃ first, drives.head? = some first ∧ x = first.2.musicBrainzID := by
    intro cddbID remaining
    induction remaining with
    | nil =>
      intro h
      simp [OnMusicBrainzQuery.loop] at h
    | cons drive rest ih =>
      intro h
      simp only [OnMusicBrainzQuery.loop] at h
      split_ifs at h with hm
      · cases hh : drives.head? with
        | none => simp [hh] at h
        | some first =>
          rw [hh] at h
          simp only [Option.some.injEq] at h
          exact ⟨first, rfl, h.symm⟩
      · exact ih h
  cases playlist with
  | none => simp [OnMusicBrainzQuery] at h
  | some pl =>
    obtain ⟨isCDDA, itemCDDBs⟩ := pl
    cases isCDDA with
    | false => simp [OnMusicBrainzQuery] at h
    | true =>
      cases itemCDDBs with
      | nil => simp [OnMusicBrainzQuery] at h
      | cons cddbID rest =>
        simp only [OnMusicBrainzQuery, if_true] at h
        exact hloop _ _ h

/-- C16. At the failing input the code disagrees with the claim: with drive `D` holding a
disc with CDDB ID `1` and MusicBrainz ID `(100, 101)`, drive `E` holding the disc with
CDDB ID `2` and MusicBrainz ID `(200, 201)`, and a CD playlist whose first item has CDDB
ID `2`, the drive that matches is `E`, yet the query is made with `(100, 101)`, the ID of
drive `D`. -/
theorem musicbrainz_query_wrong_drive :
    matchingDrive 2 [('D', (⟨1, (100, 101)⟩ : CDDAMedia (ℕ × ℕ))), ('E', ⟨2, (200, 201)⟩)]
      = some ('E', ⟨2, (200, 201)⟩) ∧
    OnMusicBrainzQuery (some (true, [2]))
        [('D', (⟨1, (100, 101)⟩ : CDDAMedia (ℕ × ℕ))), ('E', ⟨2, (200, 201)⟩)]
      = some (100, 101) ∧
    OnMusicBrainzQuery (some (true, [2]))
        [('D', (⟨1, (100, 101)⟩ : CDDAMedia (ℕ × ℕ))), ('E', ⟨2, (200, 201)⟩)]
      ≠ some (200, 201) := by
  refine ⟨by decide, by decide, by decide⟩

namespace VUMeter

theorem RenderThreadHandler_cons (m : VUMeter) (raw : ℚ × ℚ) (result : ℕ)
    (rest : List ((ℚ × ℚ) × ℕ)) :
    m.RenderThreadHandler ((raw, result) :: rest) =
      if WAIT_OBJECT_0 ≠ result then
        (((m.tick raw).RenderThreadHandler rest).1,
          m.iteration raw ++ ((m.tick raw).RenderThreadHandler rest).2.1,
          ((m.tick raw).RenderThreadHandler rest).2.2)
      else (m.tick raw, m.iteration raw, true) := by
  simp only [RenderThreadHandler, iteration, tick, s_RenderThreadInterval,
    List.singleton_append, List.cons_append, List.nil_append]

theorem RenderThreadHandler_running (inputs : List ((ℚ × ℚ) × ℕ)) (m : VUMeter)
    (h : ∀ i ∈ inputs, i.2 ≠ WAIT_OBJECT_0) :
    m.RenderThreadHandler inputs
      = (m.ticks (inputs.map Prod.fst), m.iterations (inputs.map Prod.fst), false) := by
  induction inputs generalizing m with
  | nil => rfl
  | cons i rest ih =>
    obtain ⟨raw, result⟩ := i
    have hne : WAIT_OBJECT_0 ≠ result := fun e => h (raw, result) (List.mem_cons_self _ _) e.symm
    have hrest := ih (m.tick raw) (fun j hj => h j (List.mem_cons_of_mem _ hj))
    rw [RenderThreadHandler_cons, if_pos hne, hrest]
    rfl

/-- C15. Every iteration of `RenderThreadHandler` samples the levels once, renders if and
only if `GetLevels` reported a change, and then waits on the stop event with a timeout of
15 ms (`iteration`); the loop ends exactly at the first wait that reports the stop event
signalled: if the waits of the iterations in `before` report something else and the next
one reports `WAIT_OBJECT_0`, the handler runs those iterations and that one and returns,
whatever follows; while no wait reports `WAIT_OBJECT_0` it keeps iterating. -/
theorem RenderThreadHandler_loop (m : VUMeter) (before after : List ((ℚ × ℚ) × ℕ))
    (raw : ℚ × ℚ) (hbefore : ∀ i ∈ before, i.2 ≠ WAIT_OBJECT_0) :
    m.RenderThreadHandler (before ++ (raw, WAIT_OBJECT_0) :: after)
      = (m.ticks (before.map Prod.fst ++ [raw]),
          m.iterations (before.map Prod.fst ++ [raw]), true) ∧
    m.RenderThreadHandler before
      = (m.ticks (before.map Prod.fst), m.iterations (before.map Prod.fst), false) ∧
    (∀ raw0, m.iteration raw0
      = [.GetLevels] ++ (if (m.GetLevels raw0).1 = true then [.DoRender] else [])
          ++ [.WaitForSingleObject_RenderStopEvent s_RenderThreadInterval]) := by
  refine ⟨?_, RenderThreadHandler_running before m hbefore, fun raw0 => rfl⟩
  induction before generalizing m with
  | nil =>
    rw [List.nil_append, RenderThreadHandler_cons, if_neg (fun h => h rfl)]
    simp [ticks, iterations]
  | cons i rest ih =>
    obtain ⟨raw1, result⟩ := i
    have hne : WAIT_OBJECT_0 ≠ result :=
      fun e => hbefore (raw1, result) (List.mem_cons_self _ _) e.symm
    have hrest := ih (m.tick raw1) (fun j hj => hbefore j (List.mem_cons_of_mem _ hj))
    rw [List.cons_append, RenderThreadHandler_cons, if_pos hne, hrest]
    simp [ticks, iterations]

/-- Witness for C15: with waits reporting `258` (timeout), `0` (signalled) and `258`, a
fresh meter fed full scale and then silence runs two iterations, rendering in both, and
ends. -/
theorem RenderThreadHandler_loop_witness :
    ((VUMeter.new (1 / 100) true).RenderThreadHandler
        [((1, 1), 258), ((0, 0), WAIT_OBJECT_0), ((0, 0), 258)]).2
      = ([.GetLevels, .DoRender, .WaitForSingleObject_RenderStopEvent 15,
          .GetLevels, .DoRender, .WaitForSingleObject_RenderStopEvent 15], true) := by
  have h := (RenderThreadHandler_loop (VUMeter.new (1 / 100) true) [((1, 1), 258)]
    [((0, 0), 258)] (0, 0) (by decide)).1
  rw [List.singleton_append] at h
  rw [h]
  norm_num [iterations, iteration, tick, GetLevels, VUMeter.new, clamp, s_RiseFactor]

end VUMeter

namespace VUMeter.Full

/-- Counterexample for C14: for a meter whose render thread runs, the only wait on the
thread that `Hide` and the destructor make has the timeout `INFINITE`, so it is not a
bounded wait. -/
theorem join_wait_not_bounded :
    ¬ (∀ milliseconds,
        MeterCall.WaitForSingleObject_RenderThread milliseconds
            ∈ (((Full.new (1 / 100) true).Show true).1.Hide).2 ∨
          MeterCall.WaitForSingleObject_RenderThread milliseconds
            ∈ (((Full.new (1 / 100) true).Show true).1.destructor).2 →
        milliseconds < INFINITE) := by
  intro h
  have hmem : MeterCall.WaitForSingleObject_RenderThread INFINITE
      ∈ (((Full.new (1 / 100) true).Show true).1.Hide).2 := by
    simp [Full.new, Show, StartRenderThread, Hide, StopRenderThread]
  exact lt_irrefl _ (h INFINITE (Or.inl hmem))

/-- C14, amended. When a render thread exists, `Hide` and the destructor signal the stop
event and then join the thread with an unbounded wait
(`WaitForSingleObject( m_RenderThread, INFINITE )`) before the thread handle is closed and,
in the destructor, before the stop event is closed and the resources are freed; afterwards
no render thread is recorded.  When no render thread exists they neither signal nor
wait. -/
theorem stop_joins_before_teardown (m : Full) :
    (m.m_RenderThread = true →
      m.Hide.2 = [.SetEvent_RenderStopEvent, .WaitForSingleObject_RenderThread INFINITE,
        .CloseHandle_RenderThread] ∧
      m.destructor.2 = [.SetEvent_RenderStopEvent, .WaitForSingleObject_RenderThread INFINITE,
        .CloseHandle_RenderThread, .CloseHandle_RenderStopEvent, .CloseHandle_RenderThread,
        .FreeResources] ∧
      m.Hide.1.m_RenderThread = false ∧ m.destructor.1.m_RenderThread = false) ∧
    (m.m_RenderThread = false →
      m.Hide.2 = [] ∧
      m.destructor.2 = [.CloseHandle_RenderStopEvent, .CloseHandle_RenderThread,
        .FreeResources]) := by
  constructor
  · intro h
    simp [Hide, destructor, StopRenderThread, FreeResources, h]
  · intro h
    simp [Hide, destructor, StopRenderThread, h]

/-- Witness for C14, amended: a shown meter is hidden by signalling, joining with
`INFINITE` and closing the thread handle; a meter never shown is hidden without any
call. -/
theorem stop_joins_before_teardown_witness :
    (((Full.new (1 / 100) true).Show true).1.Hide).2
      = [.SetEvent_RenderStopEvent, .WaitForSingleObject_RenderThread INFINITE,
        .CloseHandle_RenderThread] ∧
    ((Full.new (1 / 100) true).Hide).2 = [] :=
  ⟨((stop_joins_before_teardown ((Full.new (1 / 100) true).Show true).1).1 rfl).1,
   ((stop_joins_before_teardown (Full.new (1 / 100) true)).2 rfl).1⟩

/-- The defect behind C18, for any pin count `≥ 0`: when both bitmaps have been freed
while `m_MeterPosition` still holds the pin positions of the displayed levels, the next
`OnPaint` recreates the bitmaps with pin `0` and `UpdateBitmaps` leaves them alone,
whatever the displayed levels are. -/
theorem OnPaint_after_free (VU_PINCOUNT : ℤ) (hN : 0 ≤ VU_PINCOUNT) (m : Full)
    (hleft : m.m_BitmapLeft = none) (hright : m.m_BitmapRight = none)
    (hstereo : m.levels.m_IsStereo = true) (himage : m.m_MeterImage = m.m_MeterPin)
    (hposL : m.m_MeterPosition.1 = GetPinPosition VU_PINCOUNT m.levels.m_LeftDisplayLevel)
    (hposR : m.m_MeterPosition.2 = GetPinPosition VU_PINCOUNT m.levels.m_RightDisplayLevel) :
    (OnPaint VU_PINCOUNT m PaintEnv.ok).m_BitmapLeft = some (some 0) ∧
    (OnPaint VU_PINCOUNT m PaintEnv.ok).m_BitmapRight = some (some 0) := by
  obtain ⟨levels, thread, bitmapLeft, bitmapRight, brush, position, pin, image⟩ := m
  dsimp only at hleft hright hstereo himage hposL hposR
  subst hleft hright himage
  have hclamp : (if (0 : ℤ) < 0 then 0 else if 0 > VU_PINCOUNT then VU_PINCOUNT else 0)
      = 0 := by
    rw [if_neg (lt_irrefl _), if_neg (not_lt.mpr hN)]
  cases brush <;> by_cases hpin : image = some 0 <;>
    simp [OnPaint, LoadResources, FreeResources, DrawPin, UpdateBitmaps, PaintEnv.ok,
      hstereo, hposL, hposR, hpin, not_lt.mpr hN]

/-- C18. At the failing input the code disagrees with the claim: with `VU_PINCOUNT = 100`,
a stereo meter is shown, one tick at full scale raises both displayed levels to `1/5`,
`OnPaint` draws pin `20`, `OnSysColorChange` frees the bitmaps and the next `OnPaint`
recreates them.  After that `OnPaint` the left bitmap exists and shows pin `0`, while
`GetPinPosition` of the left displayed level is `20`; the same holds on the right. -/
theorem bitmap_stale_after_reload :
    (run 100 (Full.new (1 / 100) true)
        [.Show true, .tick (1, 1), .OnPaint PaintEnv.ok, .OnSysColorChange,
          .OnPaint PaintEnv.ok]).m_BitmapLeft = some (some 0) ∧
    GetPinPosition 100
      (run 100 (Full.new (1 / 100) true)
        [.Show true, .tick (1, 1), .OnPaint PaintEnv.ok, .OnSysColorChange,
          .OnPaint PaintEnv.ok]).levels.m_LeftDisplayLevel = 20 ∧
    (run 100 (Full.new (1 / 100) true)
        [.Show true, .tick (1, 1), .OnPaint PaintEnv.ok, .OnSysColorChange,
          .OnPaint PaintEnv.ok]).m_BitmapRight = some (some 0) ∧
    GetPinPosition 100
      (run 100 (Full.new (1 / 100) true)
        [.Show true, .tick (1, 1), .OnPaint PaintEnv.ok, .OnSysColorChange,
          .OnPaint PaintEnv.ok]).levels.m_RightDisplayLevel = 20 := by
  have h1 : run 100 (Full.new (1 / 100) true) [.Show true, .tick (1, 1)]
      = { levels := ⟨(1, 1), 1 / 5, 1 / 5, 1 / 100, true⟩, m_RenderThread := true,
          m_BitmapLeft := none, m_BitmapRight := none, m_Brush := false,
          m_MeterPosition := (0, 0), m_MeterPin := none, m_MeterImage := none } := by
    norm_num [run, step, Show, StartRenderThread, Full.new, VUMeter.new, GetLevels, clamp,
      s_RiseFactor]
  have hpin : GetPinPosition 100 (1 / 5) = 20 := by
    norm_num [GetPinPosition, truncate]
  have h2 : run 100 (Full.new (1 / 100) true)
        [.Show true, .tick (1, 1), .OnPaint PaintEnv.ok, .OnSysColorChange,
          .OnPaint PaintEnv.ok]
      = { levels := ⟨(1, 1), 1 / 5, 1 / 5, 1 / 100, true⟩, m_RenderThread := true,
          m_BitmapLeft := some (some 0), m_BitmapRight := some (some 0), m_Brush := true,
          m_MeterPosition := (20, 20), m_MeterPin := some 0, m_MeterImage := some 0 } := by
    have happ : run 100 (Full.new (1 / 100) true)
        [.Show true, .tick (1, 1), .OnPaint PaintEnv.ok, .OnSysColorChange,
          .OnPaint PaintEnv.ok]
        = run 100 (run 100 (Full.new (1 / 100) true) [.Show true, .tick (1, 1)])
            [.OnPaint PaintEnv.ok, .OnSysColorChange, .OnPaint PaintEnv.ok] := rfl
    have hpin5 : GetPinPosition 100 5⁻¹ = 20 := by
      norm_num [GetPinPosition, truncate]
    rw [happ, h1]
    simp [run, step, OnPaint, LoadResources, FreeResources, DrawPin, UpdateBitmaps,
      OnSysColorChange, PaintEnv.ok, hpin5]
  rw [h2]
  exact ⟨rfl, hpin, rfl, hpin⟩

end VUMeter.Full

/-- C21. `SetTitlebarText` computes the text as: the idle text when the item ID is not
positive; otherwise the stream title when it is non-empty; otherwise the idle text when
the title is empty, the title alone when the artist is empty, and the artist, `" - "` and
the title otherwise.  Afterwards `m_TitlebarText` is that text, and `SetWindowText` is
called, with that text, exactly when it differs from the previous `m_TitlebarText`. -/
theorem titlebar_text (m_IdleText m_TitlebarText : String) (item : Output.Item)
    (title artist : String) :
    (SetTitlebarText m_IdleText m_TitlebarText item title artist).1 =
      (if item.ID ≤ 0 then m_IdleText
       else if item.StreamTitle.isEmpty = false then item.StreamTitle
       else if title.isEmpty = true then m_IdleText
       else if artist.isEmpty = true then title
       else artist ++ " - " ++ title) ∧
    (SetTitlebarText m_IdleText m_TitlebarText item title artist).2 =
      (if (SetTitlebarText m_IdleText m_TitlebarText item title artist).1 ≠ m_TitlebarText
       then [(SetTitlebarText m_IdleText m_TitlebarText item title artist).1] else []) := by
  have hempty : ∀ s t : String, s.isEmpty = true → s ++ t = t := by
    intro s t h
    rw [(String.isEmpty_iff s).mp h]
    exact String.empty_append t
  constructor
  · unfold SetTitlebarText
    dsimp only
    split_ifs <;> simp_all [hempty] <;> omega
  · unfold SetTitlebarText
    dsimp only
    split_ifs <;> simp_all

theorem OnDeviceChange.loop_range (wParam mask : ℕ) (n k : ℕ) :
    OnDeviceChange.loop wParam ((List.range' k n).map (fun i => Char.ofNat (65 + i)))
        (mask >>> k)
      = (((List.range' k n).filter (fun i => mask.testBit i)).map
          (fun i => OnDeviceChange.notify wParam (Char.ofNat (65 + i)))).flatten := by
  induction n generalizing k with
  | zero => rfl
  | succ n ih =>
    have hbit : ((mask >>> k) &&& 1 ≠ 0) ↔ mask.testBit k = true := by
      simp [Nat.testBit, Nat.and_comm]
    have hshift : (mask >>> k) >>> 1 = mask >>> (k + 1) := (Nat.shiftRight_add mask k 1).symm
    rw [List.range'_succ, List.map_cons, OnDeviceChange.loop, hshift, ih (k + 1),
      List.filter_cons]
    by_cases hk : mask.testBit k = true
    · rw [if_pos (hbit.mpr hk), if_pos hk, List.map_cons, List.flatten_cons]
      rfl
    · rw [if_neg (fun h => hk (hbit.mp h)), if_neg hk, List.nil_append]

theorem OnDeviceChange.volume (wParam mask handle : ℕ) :
    OnDeviceChange wParam (some ⟨DBT_DEVTYP_VOLUME, mask, handle⟩)
      = .CDDAManager_OnDeviceChange ::
        (((List.range 26).filter (fun i => mask.testBit i)).map
          (fun i => OnDeviceChange.notify wParam (Char.ofNat (65 + i)))).flatten := by
  have h := OnDeviceChange.loop_range wParam mask 26 0
  rw [Nat.shiftRight_zero, ← List.range_eq_range'] at h
  simp only [OnDeviceChange, if_true, driveLetters]
  rw [h]

theorem flatten_map_singleton {α β : Type} (l : List α) (f : α → β) :
    (l.map (fun a => [f a])).flatten = l.map f := by
  induction l with
  | nil => rfl
  | cons a as ih => simp [ih]

theorem flatten_map_nil {α β : Type} (l : List α) :
    (l.map (fun _ => ([] : List β))).flatten = [] := by
  induction l with
  | nil => rfl
  | cons a as ih => simp [ih]

/-- C22. For a volume broadcast with unit mask `mask`, `OnDeviceChange` notifies exactly
the drive letters `'A' + i` with `0 ≤ i ≤ 25` whose bit `i` of the mask is set, in order
and each once: with `OnDriveArrived` on `DBT_DEVICEARRIVAL`, with `OnDriveRemoved` on
`DBT_DEVICEREMOVEPENDING` or `DBT_DEVICEREMOVECOMPLETE`, and not at all on other events;
a drive whose bit is clear and a bit above 25 produce no notification. -/
theorem device_change_decoding (wParam mask handle : ℕ) :
    (wParam = DBT_DEVICEARRIVAL →
      OnDeviceChange wParam (some ⟨DBT_DEVTYP_VOLUME, mask, handle⟩)
        = .CDDAManager_OnDeviceChange ::
          ((List.range 26).filter (fun i => mask.testBit i)).map
            (fun i => DeviceCall.Tree_OnDriveArrived (Char.ofNat (65 + i)))) ∧
    (wParam = DBT_DEVICEREMOVEPENDING ∨ wParam = DBT_DEVICEREMOVECOMPLETE →
      OnDeviceChange wParam (some ⟨DBT_DEVTYP_VOLUME, mask, handle⟩)
        = .CDDAManager_OnDeviceChange ::
          ((List.range 26).filter (fun i => mask.testBit i)).map
            (fun i => DeviceCall.Tree_OnDriveRemoved (Char.ofNat (65 + i)))) ∧
    (wParam ≠ DBT_DEVICEARRIVAL → wParam ≠ DBT_DEVICEREMOVEPENDING →
      wParam ≠ DBT_DEVICEREMOVECOMPLETE →
      OnDeviceChange wParam (some ⟨DBT_DEVTYP_VOLUME, mask, handle⟩)
        = [.CDDAManager_OnDeviceChange]) ∧
    (((List.range 26).filter (fun i => mask.testBit i)).map
        (fun i => Char.ofNat (65 + i))).Nodup ∧
    (∀ drive,
      drive ∈ ((List.range 26).filter (fun i => mask.testBit i)).map
          (fun i => Char.ofNat (65 + i)) ↔
        ∃ i, i ≤ 25 ∧ mask.testBit i = true ∧ drive = Char.ofNat (65 + i)) := by
  refine ⟨fun h => ?_, fun h => ?_, fun h1 h2 h3 => ?_, ?_, fun drive => ?_⟩
  · rw [OnDeviceChange.volume]
    have hn : ∀ d, OnDeviceChange.notify wParam d = [DeviceCall.Tree_OnDriveArrived d] := by
      intro d
      simp [OnDeviceChange.notify, h]
    simp only [hn]
    rw [flatten_map_singleton]
  · rw [OnDeviceChange.volume]
    have hn : ∀ d, OnDeviceChange.notify wParam d = [DeviceCall.Tree_OnDriveRemoved d] := by
      intro d
      rcases h with h | h <;>
        simp [OnDeviceChange.notify, h, DBT_DEVICEARRIVAL, DBT_DEVICEREMOVEPENDING,
          DBT_DEVICEREMOVECOMPLETE]
    simp only [hn]
    rw [flatten_map_singleton]
  · rw [OnDeviceChange.volume]
    have hn : ∀ d, OnDeviceChange.notify wParam d = [] := by
      intro d
      simp [OnDeviceChange.notify, Ne.symm h1, Ne.symm h2, Ne.symm h3]
    simp only [hn]
    rw [flatten_map_nil]
  · have hsub : (((List.range 26).filter (fun i => mask.testBit i)).map
        (fun i => Char.ofNat (65 + i))).Sublist driveLetters :=
      List.Sublist.map _ (List.filter_sublist _)
    exact List.Nodup.sublist hsub (by decide)
  · simp only [List.mem_map, List.mem_filter, List.mem_range]
    constructor
    · rintro ⟨i, ⟨hi, hb⟩, rfl⟩
      exact ⟨i, by omega, hb, rfl⟩
    · rintro ⟨i, hi, hb, rfl⟩
      exact ⟨i, ⟨by omega, hb⟩, rfl⟩

/-- Witness for C22: with bits 0 and 3 set, an arrival notifies drives `A` and `D`, a
pending removal notifies their removal, and a query-remove event notifies nothing. -/
theorem device_change_decoding_witness :
    OnDeviceChange DBT_DEVICEARRIVAL (some ⟨DBT_DEVTYP_VOLUME, 9, 0⟩)
      = [.CDDAManager_OnDeviceChange, .Tree_OnDriveArrived 'A', .Tree_OnDriveArrived 'D'] ∧
    OnDeviceChange DBT_DEVICEREMOVEPENDING (some ⟨DBT_DEVTYP_VOLUME, 9, 0⟩)
      = [.CDDAManager_OnDeviceChange, .Tree_OnDriveRemoved 'A', .Tree_OnDriveRemoved 'D'] ∧
    OnDeviceChange DBT_DEVICEQUERYREMOVE (some ⟨DBT_DEVTYP_VOLUME, 9, 0⟩)
      = [.CDDAManager_OnDeviceChange] := by
  refine ⟨?_, ?_, (device_change_decoding DBT_DEVICEQUERYREMOVE 9 0).2.2.1
    (by decide) (by decide) (by decide)⟩
  · rw [(device_change_decoding DBT_DEVICEARRIVAL 9 0).1 rfl]
    decide
  · rw [(device_change_decoding DBT_DEVICEREMOVEPENDING 9 0).2.1 (Or.inl rfl)]
    decide

theorem eraseURLs_eq_filter (IsURL : String → Bool) (items : List Playlist.Item) :
    eraseURLs IsURL items = items.filter (fun item => !IsURL item.Filename) := by
  induction items with
  | nil => rfl
  | cons item rest ih =>
    cases h : IsURL item.Filename <;> simp [eraseURLs, List.filter_cons, h, ih]

theorem OnConvert_closed (IsURL : String → Bool) (env : ConvertEnv) :
    (eraseURLs IsURL env.items = [] ∧
      OnConvert IsURL env = (if env.playlist = none then [] else [.Playlist_GetItems])) ∨
    (eraseURLs IsURL env.items ≠ [] ∧
      ∃ isCDDA items tail, env.playlist = some (isCDDA, items) ∧
        OnConvert IsURL env = .Playlist_GetItems ::
          .DlgConvert (eraseURLs IsURL env.items)
            (if (eraseURLs IsURL env.selectedItems).isEmpty then eraseURLs IsURL env.items
              else eraseURLs IsURL env.selectedItems) :: tail ∧
        (∀ c ∈ tail, c ≠ .NullDereference ∧ c ≠ .Playlist_GetItems ∧
          ∀ a b, c ≠ .DlgConvert a b)) := by
  cases hp : env.playlist with
  | none =>
    left
    simp [ConvertEnv.items, OnConvert, hp, eraseURLs]
  | some pl =>
    obtain ⟨isCDDA, items⟩ := pl
    by_cases hempty : eraseURLs IsURL items = []
    · left
      simp [ConvertEnv.items, OnConvert, hp, hempty]
    · right
      refine ⟨by simpa [ConvertEnv.items, hp] using hempty, isCDDA, items, ?_⟩
      have hne : (eraseURLs IsURL items).isEmpty = false := by
        cases h : eraseURLs IsURL items with
        | nil => exact absurd h hempty
        | cons a as => rfl
      refine ⟨(if !env.dialogSelection.isEmpty then
            if env.handler then
              [ConvertCall.Settings_SetEncoder, .Playlist_GetType]
                ++ (if isCDDA ∧ env.outputPlaylistIsCDDA = some true then [.Output_Stop]
                    else [])
                ++ [.Playlist_GetType]
                ++ (if isCDDA then [.CDDAExtract env.dialogSelection]
                    else [.Converter env.dialogSelection])
            else []
          else []) ++ [.SetFocus_List], rfl, ?_, ?_⟩
      · simp only [OnConvert, ConvertEnv.items, hp, hne, Bool.not_false, if_true,
          List.singleton_append, List.cons_append, List.nil_append, List.append_assoc]
      · intro c hc
        simp only [List.mem_append, List.mem_singleton] at hc
        rcases hc with hc | hc
        · split_ifs at hc <;> simp at hc <;> casesm* _ ∨ _ <;> subst_vars <;> simp
        · subst hc
          simp

/-- Counterexample for C23: with `IsURL` accepting filenames that start with `h`, a playlist
that holds a single stream, and an empty playlist, have no non-URL item, yet
`playlist->GetItems()` is called on each (src/VUPlayer.cpp line 1669 runs for every
non-null `playlist`): the playlist pointer is dereferenced. -/
theorem convert_dereferences_playlist :
    (∀ item ∈ ({ ConvertEnv.sample with
        playlist := some (false, [⟨2, "http:radio"⟩]) } : ConvertEnv).items,
      (fun s : String => s.front == 'h') item.Filename = true) ∧
    ConvertCall.Playlist_GetItems ∈ OnConvert (fun s => s.front == 'h')
      { ConvertEnv.sample with playlist := some (false, [⟨2, "http:radio"⟩]) } ∧
    OnConvert (fun s => s.front == 'h')
      { ConvertEnv.sample with playlist := some (false, [⟨2, "http:radio"⟩]) }
        = [.Playlist_GetItems] ∧
    OnConvert (fun s => s.front == 'h') { ConvertEnv.sample with playlist := some (false, []) }
        = [.Playlist_GetItems] := by
  decide

/-- C23, amended. `OnConvert` never offers a stream: the item list handed to the convert dialog
is the playlist's items without those whose filename is a URL, in their original order, and
the selection handed to it is the selected items filtered the same way, or the whole item
list when no selected item is left; neither contains a URL.  The dialog is opened whenever
the playlist has a non-URL item.  When the playlist is absent or has no non-URL item, no
dialog is opened and `playlist->GetType()` is not reached; when it is absent no call is
made at all, and a null `playlist` is never dereferenced.  The call `playlist->GetItems()`
is made exactly when `playlist` is not null, and it is the only call made when the playlist
is present without a non-URL item. -/
theorem convert_offers_no_stream (IsURL : String → Bool) (env : ConvertEnv) :
    (∀ itemList selectedItems,
      ConvertCall.DlgConvert itemList selectedItems ∈ OnConvert IsURL env →
        itemList = env.items.filter (fun item => !IsURL item.Filename) ∧
        selectedItems =
          (if (env.selectedItems.filter (fun item => !IsURL item.Filename)).isEmpty
            then itemList
            else env.selectedItems.filter (fun item => !IsURL item.Filename)) ∧
        (∀ item ∈ itemList, IsURL item.Filename = false) ∧
        (∀ item ∈ selectedItems, IsURL item.Filename = false)) ∧
    ((∃ item ∈ env.items, IsURL item.Filename = false) →
      ∃ selectedItems, ConvertCall.DlgConvert
        (env.items.filter (fun item => !IsURL item.Filename)) selectedItems
          ∈ OnConvert IsURL env) ∧
    (env.playlist = none ∨ (∀ item ∈ env.items, IsURL item.Filename = true) →
      (∀ itemList selectedItems,
        ConvertCall.DlgConvert itemList selectedItems ∉ OnConvert IsURL env) ∧
      ConvertCall.Playlist_GetType ∉ OnConvert IsURL env) ∧
    (env.playlist = none → OnConvert IsURL env = []) ∧
    ConvertCall.NullDereference ∉ OnConvert IsURL env ∧
    (ConvertCall.Playlist_GetItems ∈ OnConvert IsURL env ↔ env.playlist ≠ none) ∧
    (env.playlist ≠ none → (∀ item ∈ env.items, IsURL item.Filename = true) →
      OnConvert IsURL env = [.Playlist_GetItems]) := by
  have hfilter : ∀ l : List Playlist.Item, ∀ item ∈ eraseURLs IsURL l,
      IsURL item.Filename = false := by
    intro l item h
    rw [eraseURLs_eq_filter, List.mem_filter] at h
    simpa using h.2
  have hshort : eraseURLs IsURL env.items = [] →
      (∀ a b, ConvertCall.DlgConvert a b ∉ OnConvert IsURL env) ∧
      ConvertCall.Playlist_GetType ∉ OnConvert IsURL env ∧
      ConvertCall.NullDereference ∉ OnConvert IsURL env := by
    intro he
    rcases OnConvert_closed IsURL env with ⟨_, hcalls⟩ | ⟨hne, _⟩
    · rw [hcalls]
      split_ifs <;> simp
    · exact absurd he hne
  have hall : (∀ item ∈ env.items, IsURL item.Filename = true) →
      eraseURLs IsURL env.items = [] := by
    intro h
    rw [eraseURLs_eq_filter, List.filter_eq_nil_iff]
    intro item hitem
    simp [h item hitem]
  refine ⟨fun itemList selectedItems hmem => ?_, fun hex => ?_, fun hdis => ?_, fun hnone => ?_,
    ?_, ?_, fun hsome hurl => ?_⟩
  · rcases OnConvert_closed IsURL env with ⟨he, _⟩ | ⟨_, isCDDA, items, tail, _, hcalls, htail⟩
    · exact absurd hmem ((hshort he).1 _ _)
    · rw [hcalls] at hmem
      simp only [List.mem_cons, reduceCtorEq, false_or, ConvertCall.DlgConvert.injEq] at hmem
      rcases hmem with ⟨rfl, rfl⟩ | hmem
      · refine ⟨eraseURLs_eq_filter IsURL _, ?_, hfilter _, ?_⟩
        · rw [eraseURLs_eq_filter IsURL env.selectedItems]
        · intro item hitem
          split_ifs at hitem
          · exact hfilter _ item hitem
          · exact hfilter _ item hitem
      · exact absurd rfl ((htail _ hmem).2.2 _ _)
  · rcases OnConvert_closed IsURL env with ⟨he, _⟩ | ⟨_, isCDDA, items, tail, _, hcalls, _⟩
    · obtain ⟨item, hitem, hurl⟩ := hex
      have : item ∈ eraseURLs IsURL env.items := by
        rw [eraseURLs_eq_filter, List.mem_filter]
        exact ⟨hitem, by simp [hurl]⟩
      rw [he] at this
      simp at this
    · refine ⟨if (eraseURLs IsURL env.selectedItems).isEmpty = true
          then eraseURLs IsURL env.items else eraseURLs IsURL env.selectedItems, ?_⟩
      rw [hcalls, ← eraseURLs_eq_filter]
      simp
  · have he : eraseURLs IsURL env.items = [] := by
      rcases hdis with h | h
      · simp [ConvertEnv.items, h, eraseURLs]
      · exact hall h
    exact ⟨(hshort he).1, (hshort he).2.1⟩
  · simp [OnConvert, hnone, eraseURLs]
  · rcases OnConvert_closed IsURL env with ⟨he, _⟩ | ⟨_, isCDDA, items, tail, _, hcalls, htail⟩
    · exact (hshort he).2.2
    · rw [hcalls]
      intro hmem
      simp only [List.mem_cons, reduceCtorEq, false_or] at hmem
      exact (htail _ hmem).1 rfl
  · rcases OnConvert_closed IsURL env with ⟨_, hcalls⟩ | ⟨_, isCDDA, items, tail, hp, hcalls, _⟩
    · rw [hcalls]
      by_cases hn : env.playlist = none
      · simp [hn]
      · simp [hn]
    · rw [hcalls, hp]
      simp
  · rcases OnConvert_closed IsURL env with ⟨_, hcalls⟩ | ⟨hne, _⟩
    · rw [hcalls, if_neg hsome]
    · exact absurd (hall hurl) hne


/-- Witness for C23, amended: with `IsURL` accepting filenames that start with `h`, the sample
playlist of two files and a stream, the stream alone being selected, opens the dialog with
the two files as item list and as selection; without a playlist no call is made. -/
theorem convert_offers_no_stream_witness :
    ConvertCall.DlgConvert [⟨1, "a.mp3"⟩, ⟨3, "b.mp3"⟩] [⟨1, "a.mp3"⟩, ⟨3, "b.mp3"⟩]
      ∈ OnConvert (fun s => s.front == 'h') ConvertEnv.sample ∧
    OnConvert (fun s => s.front == 'h') { ConvertEnv.sample with playlist := none } = [] := by
  refine ⟨?_, (convert_offers_no_stream (fun s => s.front == 'h')
    { ConvertEnv.sample with playlist := none }).2.2.2.1 rfl⟩
  obtain ⟨selectedItems, hmem⟩ :=
    (convert_offers_no_stream (fun s => s.front == 'h') ConvertEnv.sample).2.1
      ⟨⟨1, "a.mp3"⟩, by decide, by decide⟩
  have hsel := ((convert_offers_no_stream (fun s => s.front == 'h') ConvertEnv.sample).1
    _ selectedItems hmem).2.1
  have e1 : ConvertEnv.sample.items.filter (fun item => !(fun s => s.front == 'h') item.Filename)
      = [⟨1, "a.mp3"⟩, ⟨3, "b.mp3"⟩] := by decide
  have e2 : ConvertEnv.sample.selectedItems.filter
      (fun item => !(fun s => s.front == 'h') item.Filename) = [] := by decide
  rw [e2, e1] at hsel
  rw [e1, hsel] at hmem
  exact hmem

theorem collectMedia_eq_filter (env : CommandLineEnv) (filenames : List String) :
    collectMedia env filenames
      = filenames.filter (fun f => decide (env.GetFileExtension f ∈ env.trackExtensions)) := by
  induction filenames with
  | nil => rfl
  | cons f rest ih =>
    by_cases h : env.GetFileExtension f ∈ env.trackExtensions <;>
      simp [collectMedia, List.filter_cons, h, ih]

theorem collectMedia_isEmpty (env : CommandLineEnv) (filenames : List String) :
    (collectMedia env filenames).isEmpty = false ↔
      ∃ f ∈ filenames, env.GetFileExtension f ∈ env.trackExtensions := by
  rw [collectMedia_eq_filter]
  constructor
  · intro h
    cases hl : filenames.filter
        (fun f => decide (env.GetFileExtension f ∈ env.trackExtensions)) with
    | nil => simp [hl] at h
    | cons f fs =>
      have hf : f ∈ filenames.filter
          (fun f => decide (env.GetFileExtension f ∈ env.trackExtensions)) := by
        rw [hl]
        exact List.mem_cons_self _ _
      rw [List.mem_filter] at hf
      exact ⟨f, hf.1, by simpa using hf.2⟩
  · rintro ⟨f, hf, hext⟩
    have hmem : f ∈ filenames.filter
        (fun f => decide (env.GetFileExtension f ∈ env.trackExtensions)) := by
      rw [List.mem_filter]
      exact ⟨hf, by simpa using hext⟩
    cases hl : filenames.filter
        (fun f => decide (env.GetFileExtension f ∈ env.trackExtensions)) with
    | nil => simp [hl] at hmem
    | cons g gs => rfl

/-- C24. `OnCommandLineFiles` returns true if and only if the file list is non-empty and
either the first file has a supported playlist extension or some file has a supported
track extension.  In the first case the only call is the import of that playlist; in the
second (the first file not being a playlist) the scratch list is made of exactly the files
with a supported track extension, in order, and is played.  Whenever the audio CD
autoplay path makes a call, the value returned is false. -/
theorem command_line_files (env : CommandLineEnv) (filenames : List String) :
    ((OnCommandLineFiles env filenames).1 = true ↔
      filenames ≠ [] ∧
      ((∃ first, filenames.head? = some first ∧
          env.GetFileExtension first ∈ env.playlistExtensions) ∨
        ∃ f ∈ filenames, env.GetFileExtension f ∈ env.trackExtensions)) ∧
    (∀ first rest, filenames = first :: rest →
      env.GetFileExtension first ∈ env.playlistExtensions →
      OnCommandLineFiles env filenames = (true, [.Tree_ImportPlaylist first])) ∧
    (∀ first rest, filenames = first :: rest →
      env.GetFileExtension first ∉ env.playlistExtensions →
      (∃ f ∈ filenames, env.GetFileExtension f ∈ env.trackExtensions) →
      OnCommandLineFiles env filenames
        = (true, [.Tree_SetScratchList
            (filenames.filter (fun f => decide (env.GetFileExtension f ∈ env.trackExtensions))),
          .Output_Play_ScratchList])) ∧
    (∀ c ∈ (OnCommandLineFiles env filenames).2,
      ((∃ drive, c = .Tree_SelectAudioCD drive) ∨ c = .Output_Play_AudioCD) →
      (OnCommandLineFiles env filenames).1 = false) := by
  cases filenames with
  | nil => simp [OnCommandLineFiles]
  | cons first rest =>
    by_cases hpl : env.GetFileExtension first ∈ env.playlistExtensions
    · have hres : OnCommandLineFiles env (first :: rest)
          = (true, [.Tree_ImportPlaylist first]) := by
        simp [OnCommandLineFiles, hpl]
      rw [hres]
      refine ⟨?_, ?_, ?_, ?_⟩
      · simp [hpl]
      · intro f r he _
        simp only [List.cons.injEq] at he
        rw [he.1]
      · intro f r he hn
        simp only [List.cons.injEq] at he
        rw [← he.1] at hn
        exact absurd hpl hn
      · intro c hc hcd
        simp only [List.mem_singleton] at hc
        subst hc
        rcases hcd with ⟨d, hd⟩ | hd
        · exact absurd hd (by simp)
        · exact absurd hd (by simp)
    · by_cases htr : ∃ f ∈ first :: rest, env.GetFileExtension f ∈ env.trackExtensions
      · have hne := (collectMedia_isEmpty env (first :: rest)).mpr htr
        have hres : OnCommandLineFiles env (first :: rest)
            = (true, [.Tree_SetScratchList (collectMedia env (first :: rest)),
                .Output_Play_ScratchList]) := by
          simp [OnCommandLineFiles, hpl, hne]
        rw [hres]
        refine ⟨?_, ?_, ?_, ?_⟩
        · simp only [true_iff]
          exact ⟨List.cons_ne_nil _ _, Or.inr htr⟩
        · intro f r he hp
          simp only [List.cons.injEq] at he
          rw [← he.1] at hp
          exact absurd hp hpl
        · intro f r _ _ _
          rw [collectMedia_eq_filter]
        · intro c hc hcd
          simp only [List.mem_cons, List.mem_singleton, List.mem_nil_iff, or_false] at hc
          rcases hc with rfl | rfl <;> rcases hcd with ⟨d, hd⟩ | hd <;>
            exact absurd hd (by simp)
      · have hem : (collectMedia env (first :: rest)).isEmpty = true := by
          cases h : (collectMedia env (first :: rest)).isEmpty with
          | true => rfl
          | false => exact absurd ((collectMedia_isEmpty env (first :: rest)).mp h) htr
        have hres : (OnCommandLineFiles env (first :: rest)).1 = false := by
          simp [OnCommandLineFiles, hpl, hem]
        refine ⟨?_, ?_, ?_, fun _ _ _ => hres⟩
        · rw [hres]
          simp only [Bool.false_eq_true, false_iff, not_and, not_or]
          intro _
          refine ⟨?_, htr⟩
          rintro ⟨f, hf, hp⟩
          simp only [List.head?_cons, Option.some.injEq] at hf
          rw [← hf] at hp
          exact hpl hp
        · intro f r he hp
          simp only [List.cons.injEq] at he
          rw [← he.1] at hp
          exact absurd hp hpl
        · intro f r _ _ h
          exact absurd h htr

/-- Witness for C24: three files of which two have track extensions form the scratch list
of those two and the result is true; a playlist file first imports it alone; a lone CD
drive path takes the autoplay path, plays the CD and returns false. -/
theorem command_line_files_witness :
    OnCommandLineFiles CommandLineEnv.sample ["a.mp3", "b.txt", "c.ogg"]
      = (true, [.Tree_SetScratchList ["a.mp3", "c.ogg"], .Output_Play_ScratchList]) ∧
    OnCommandLineFiles CommandLineEnv.sample ["x.m3u", "c.ogg"]
      = (true, [.Tree_ImportPlaylist "x.m3u"]) ∧
    (OnCommandLineFiles CommandLineEnv.sample ["E:"]).1 = false := by
  refine ⟨?_, ?_, ?_⟩
  · rw [(command_line_files CommandLineEnv.sample ["a.mp3", "b.txt", "c.ogg"]).2.2.1
      "a.mp3" ["b.txt", "c.ogg"] rfl (by decide) ⟨"a.mp3", by decide, by decide⟩]
    decide
  · exact (command_line_files CommandLineEnv.sample ["x.m3u", "c.ogg"]).2.1
      "x.m3u" ["c.ogg"] rfl (by decide)
  · exact (command_line_files CommandLineEnv.sample ["E:"]).2.2.2
      .Output_Play_AudioCD (by decide) (Or.inr rfl)

/-! ### Rounding to binary32 -/

namespace F32

theorem roundEven_cases (q : ℚ) : roundEven q = ⌊q⌋ ∨ roundEven q = ⌊q⌋ + 1 := by
  unfold roundEven
  simp only
  split_ifs <;> simp

theorem roundEven_le (q : ℚ) (N : ℤ) (h : q ≤ N) : roundEven q ≤ N := by
  have hf : ⌊q⌋ ≤ N := Int.floor_le_iff.2 (by linarith [Int.lt_floor_add_one q, Int.floor_le q, show (q:ℚ) < N + 1 by linarith])
  by_cases hq : q = N
  · subst hq
    unfold roundEven
    simp
  · have hlt : q < N := lt_of_le_of_ne h hq
    have : ⌊q⌋ < N := Int.floor_lt.2 hlt
    rcases roundEven_cases q with h1 | h1 <;> omega

theorem le_roundEven (q : ℚ) (N : ℤ) (h : (N : ℚ) ≤ q) : N ≤ roundEven q := by
  have hf : N ≤ ⌊q⌋ := Int.le_floor.2 h
  rcases roundEven_cases q with h1 | h1 <;> omega

theorem roundEven_le_add_half (q : ℚ) : (roundEven q : ℚ) ≤ q + 1 / 2 := by
  unfold roundEven
  simp only
  have h1 := Int.floor_le q
  split_ifs with a b c
  · linarith
  · push_cast; linarith
  · linarith
  · push_cast; linarith

theorem sub_half_le_roundEven (q : ℚ) : q - 1 / 2 ≤ (roundEven q : ℚ) := by
  unfold roundEven
  simp only
  have h1 := Int.lt_floor_add_one q
  split_ifs with a b c
  · linarith
  · push_cast; linarith
  · linarith
  · push_cast; linarith

theorem log2Fuel_spec (fuel n : ℕ) (hn : n ≠ 0) (hf : n ≤ fuel) :
    2 ^ log2Fuel fuel n ≤ n ∧ n < 2 ^ (log2Fuel fuel n + 1) := by
  induction fuel generalizing n with
  | zero => omega
  | succ fuel ih =>
    unfold log2Fuel
    by_cases h2 : n < 2
    · simp only [h2, if_true]
      constructor <;> simp <;> omega
    · simp only [h2, if_false]
      have := ih (n / 2) (by omega) (by omega)
      obtain ⟨ha, hb⟩ := this
      constructor
      · rw [pow_succ]; omega
      · rw [pow_succ]; omega

theorem log2_spec (n : ℕ) (hn : n ≠ 0) : 2 ^ log2 n ≤ n ∧ n < 2 ^ (log2 n + 1) :=
  log2Fuel_spec n n hn le_rfl


theorem exponent_raw (x : ℚ) (hx : x ≠ 0) :
    let k : ℤ := (log2 x.num.natAbs : ℤ) - (log2 x.den : ℤ)
    let e : ℤ := if (2 : ℚ) ^ k ≤ |x| then k else k - 1
    (2 : ℚ) ^ e ≤ |x| ∧ |x| < (2 : ℚ) ^ (e + 1) := by
  intro k e
  have hp : x.num.natAbs ≠ 0 := by
    simpa using (Rat.num_ne_zero.2 hx)
  have hq : x.den ≠ 0 := x.den_nz
  obtain ⟨hp1, hp2⟩ := log2_spec _ hp
  obtain ⟨hq1, hq2⟩ := log2_spec _ hq
  have habs : |x| = (x.num.natAbs : ℚ) / (x.den : ℚ) := by
    have h := Rat.num_div_den x
    conv_lhs => rw [← h]
    rw [abs_div, Nat.cast_natAbs, Int.cast_abs]
    simp
  have hQ : (0 : ℚ) < x.den := by exact_mod_cast Nat.pos_of_ne_zero hq
  have hP1 : (2 : ℚ) ^ (log2 x.num.natAbs : ℤ) ≤ (x.num.natAbs : ℚ) := by
    rw [zpow_natCast]; exact_mod_cast hp1
  have hP2 : (x.num.natAbs : ℚ) < (2 : ℚ) ^ ((log2 x.num.natAbs : ℤ) + 1) := by
    have : ((log2 x.num.natAbs : ℤ) + 1) = ((log2 x.num.natAbs + 1 : ℕ) : ℤ) := by push_cast; ring
    rw [this, zpow_natCast]; exact_mod_cast hp2
  have hQ1 : (2 : ℚ) ^ (log2 x.den : ℤ) ≤ (x.den : ℚ) := by
    rw [zpow_natCast]; exact_mod_cast hq1
  have hQ2 : (x.den : ℚ) < (2 : ℚ) ^ ((log2 x.den : ℤ) + 1) := by
    have : ((log2 x.den : ℤ) + 1) = ((log2 x.den + 1 : ℕ) : ℤ) := by push_cast; ring
    rw [this, zpow_natCast]; exact_mod_cast hq2
  have h2 : (2 : ℚ) ≠ 0 := by norm_num
  have hupper : |x| < (2 : ℚ) ^ (k + 1) := by
    rw [habs, div_lt_iff₀ hQ]
    have e1 : (2 : ℚ) ^ (k + 1) = (2 : ℚ) ^ ((log2 x.num.natAbs : ℤ) + 1) / (2 : ℚ) ^ (log2 x.den : ℤ) := by
      rw [← zpow_sub₀ h2]; congr 1; simp only [k]; ring
    rw [e1, div_mul_eq_mul_div, lt_div_iff₀ (zpow_pos (by norm_num) _)]
    calc (x.num.natAbs : ℚ) * (2 : ℚ) ^ (log2 x.den : ℤ)
        ≤ (x.num.natAbs : ℚ) * x.den := by
          apply mul_le_mul_of_nonneg_left hQ1 (by positivity)
      _ < (2 : ℚ) ^ ((log2 x.num.natAbs : ℤ) + 1) * x.den := by
          apply mul_lt_mul_of_pos_right hP2 hQ
  have hlower : (2 : ℚ) ^ (k - 1) ≤ |x| := by
    rw [habs, le_div_iff₀ hQ]
    have e1 : (2 : ℚ) ^ (k - 1) = (2 : ℚ) ^ (log2 x.num.natAbs : ℤ) / (2 : ℚ) ^ ((log2 x.den : ℤ) + 1) := by
      rw [← zpow_sub₀ h2]; congr 1; simp only [k]; ring
    rw [e1, div_mul_eq_mul_div, div_le_iff₀ (zpow_pos (by norm_num) _)]
    calc (2 : ℚ) ^ (log2 x.num.natAbs : ℤ) * x.den
        ≤ (x.num.natAbs : ℚ) * x.den := by
          apply mul_le_mul_of_nonneg_right hP1 hQ.le
      _ ≤ (x.num.natAbs : ℚ) * (2 : ℚ) ^ ((log2 x.den : ℤ) + 1) := by
          apply mul_le_mul_of_nonneg_left hQ2.le (by positivity)
  by_cases hk : (2 : ℚ) ^ k ≤ |x|
  · have he : e = k := by simp only [e, hk, if_true]
    rw [he]; exact ⟨hk, hupper⟩
  · have he : e = k - 1 := by simp only [e, hk, if_false]
    rw [he]
    refine ⟨hlower, ?_⟩
    have : k - 1 + 1 = k := by ring
    rw [this]; exact lt_of_not_le hk

theorem exponent_ge (x : ℚ) : -126 ≤ exponent x := le_max_right _ _

theorem abs_lt_zpow_exponent (x : ℚ) : |x| < (2 : ℚ) ^ (exponent x + 1) := by
  by_cases hx : x = 0
  · subst hx; simp; positivity
  · obtain ⟨_, h2⟩ := exponent_raw x hx
    refine lt_of_lt_of_le h2 (zpow_le_zpow_right₀ (by norm_num) ?_)
    have := le_max_left (if (2 : ℚ) ^ ((log2 x.num.natAbs : ℤ) - (log2 x.den : ℤ)) ≤ |x| then
      ((log2 x.num.natAbs : ℤ) - (log2 x.den : ℤ)) else ((log2 x.num.natAbs : ℤ) - (log2 x.den : ℤ)) - 1) (-126)
    unfold exponent
    simp only
    omega

theorem zpow_exponent_le (x : ℚ) (hx : (2 : ℚ) ^ (-126 : ℤ) ≤ |x|) :
    (2 : ℚ) ^ exponent x ≤ |x| := by
  have hx0 : x ≠ 0 := by
    intro h; subst h
    have : (0 : ℚ) < (2 : ℚ) ^ (-126 : ℤ) := by positivity
    simp at hx; linarith
  obtain ⟨h1, h2⟩ := exponent_raw x hx0
  have hlt := lt_of_le_of_lt hx h2
  have hlt2 := (zpow_lt_zpow_iff_right₀ (by norm_num : (1 : ℚ) < 2)).1 hlt
  unfold exponent
  simp only
  rw [max_eq_left (by omega)]
  exact h1

theorem exponent_eq_of_small (x : ℚ) (hx0 : x ≠ 0) (hx : |x| < (2 : ℚ) ^ (-126 : ℤ)) :
    exponent x = -126 := by
  obtain ⟨h1, h2⟩ := exponent_raw x hx0
  have hlt := lt_of_le_of_lt h1 hx
  have hlt2 := (zpow_lt_zpow_iff_right₀ (by norm_num : (1 : ℚ) < 2)).1 hlt
  unfold exponent
  simp only
  rw [max_eq_right (by omega)]

theorem ulp_pos (x : ℚ) : 0 < ulp x := by unfold ulp; positivity


theorem round_zero : round 0 = 0 := by decide!

theorem round_one : round 1 = 1 := by decide!

theorem round_maxFinite : round maxFinite = maxFinite := by decide!

theorem round_nonneg (x : ℚ) (hx : 0 ≤ x) : 0 ≤ round x := by
  unfold round
  have h : (0 : ℤ) ≤ roundEven (x / ulp x) :=
    le_roundEven _ 0 (by simpa using div_nonneg hx (ulp_pos x).le)
  exact mul_nonneg (by exact_mod_cast h) (ulp_pos x).le

theorem round_nonpos (x : ℚ) (hx : x ≤ 0) : round x ≤ 0 := by
  unfold round
  have h : roundEven (x / ulp x) ≤ (0 : ℤ) :=
    roundEven_le _ 0 (by simpa using div_nonpos_of_nonpos_of_nonneg hx (ulp_pos x).le)
  exact mul_nonpos_of_nonpos_of_nonneg (by exact_mod_cast h) (ulp_pos x).le

theorem round_le_add_half_ulp (x : ℚ) : round x ≤ x + ulp x / 2 := by
  unfold round
  have h := roundEven_le_add_half (x / ulp x)
  have hu := ulp_pos x
  calc (roundEven (x / ulp x) : ℚ) * ulp x ≤ (x / ulp x + 1 / 2) * ulp x :=
        mul_le_mul_of_nonneg_right h hu.le
    _ = x + ulp x / 2 := by field_simp; ring

theorem sub_half_ulp_le_round (x : ℚ) : x - ulp x / 2 ≤ round x := by
  unfold round
  have h := sub_half_le_roundEven (x / ulp x)
  have hu := ulp_pos x
  calc x - ulp x / 2 = (x / ulp x - 1 / 2) * ulp x := by field_simp; ring
    _ ≤ (roundEven (x / ulp x) : ℚ) * ulp x := mul_le_mul_of_nonneg_right h hu.le

theorem zpow_exponent_le_of_ne (x : ℚ) (hx : x ≠ 0) (he : exponent x ≠ -126) :
    (2 : ℚ) ^ exponent x ≤ |x| := by
  by_cases h : (2 : ℚ) ^ (-126 : ℤ) ≤ |x|
  · exact zpow_exponent_le x h
  · exact absurd (exponent_eq_of_small x hx (lt_of_not_le h)) he

/-- Rounding never crosses a representable value: monotonicity against a fixed point. -/
theorem round_le_of_le (x y : ℚ) (hy : round y = y) (hxy : x ≤ y) : round x ≤ y := by
  by_cases hx0 : x = 0
  · subst hx0; rw [round_zero]; exact hxy
  have hux := ulp_pos x
  have h2 : (2 : ℚ) ≠ 0 := by norm_num
  by_cases hexp : exponent x ≤ exponent y
  · -- the grid of y is a multiple of the grid of x
    obtain ⟨n, hn⟩ := Int.eq_ofNat_of_zero_le (sub_nonneg.2 hexp)
    have huy : ulp y = ulp x * (2 : ℚ) ^ n := by
      unfold ulp
      rw [← zpow_natCast, ← zpow_add₀ h2]
      congr 1; omega
    obtain ⟨k, hk⟩ : ∃ k : ℤ, y = k * ulp y := ⟨roundEven (y / ulp y), hy.symm⟩
    have hyq : y / ulp x = ((k * 2 ^ n : ℤ) : ℚ) := by
      rw [hk, huy]
      push_cast
      field_simp
      ring
    have hle : x / ulp x ≤ ((k * 2 ^ n : ℤ) : ℚ) := by
      rw [← hyq]; exact div_le_div_of_nonneg_right hxy hux.le
    have hr := roundEven_le _ _ hle
    have : round x ≤ ((k * 2 ^ n : ℤ) : ℚ) * ulp x := by
      unfold round
      exact mul_le_mul_of_nonneg_right (by exact_mod_cast hr) hux.le
    calc round x ≤ ((k * 2 ^ n : ℤ) : ℚ) * ulp x := this
      _ = y / ulp x * ulp x := by rw [hyq]
      _ = y := by field_simp
  · -- x lies in a higher binade than y, so x is negative and below -2^e
    have hlt : exponent y < exponent x := lt_of_not_le hexp
    have hne : exponent x ≠ -126 := by have := exponent_ge y; omega
    have hlo := zpow_exponent_le_of_ne x hx0 hne
    have hy1 : |y| < (2 : ℚ) ^ exponent x :=
      lt_of_lt_of_le (abs_lt_zpow_exponent y) (zpow_le_zpow_right₀ (by norm_num) (by omega))
    have hxneg : x < 0 := by
      by_contra hcon
      have hx' : 0 ≤ x := le_of_not_lt hcon
      rw [abs_of_nonneg hx'] at hlo
      have := le_abs_self y
      linarith
    rw [abs_of_neg hxneg] at hlo
    have h4 : ((-(2 ^ 23) : ℤ) : ℚ) * ulp x = -(2 : ℚ) ^ exponent x := by
      unfold ulp
      rw [zpow_sub₀ h2]
      push_cast
      field_simp
      norm_num
      ring
    have hq : x / ulp x ≤ ((-(2 ^ 23) : ℤ) : ℚ) := by
      rw [div_le_iff₀ hux]
      rw [h4]; linarith
    have hr := roundEven_le _ _ hq
    have h3 : round x ≤ ((-(2 ^ 23) : ℤ) : ℚ) * ulp x := by
      unfold round
      exact mul_le_mul_of_nonneg_right (by exact_mod_cast hr) hux.le
    have := neg_abs_le y
    linarith

theorem round_le_one (x : ℚ) (hx : x ≤ 1) : round x ≤ 1 := round_le_of_le x 1 round_one hx

theorem round_le_two_mul (x : ℚ) (hx : 0 ≤ x) : round x ≤ 2 * x := by
  by_cases hx0 : x = 0
  · subst hx0; rw [round_zero]; norm_num
  have hpos : 0 < x := lt_of_le_of_ne hx (Ne.symm hx0)
  have hux := ulp_pos x
  have h2 : (2 : ℚ) ≠ 0 := by norm_num
  have hadd := round_le_add_half_ulp x
  by_cases he : exponent x = -126
  · by_cases hq : x / ulp x < 1 / 2
    · have hfloor : ⌊x / ulp x⌋ = 0 := by
        rw [Int.floor_eq_iff]
        constructor
        · simpa using (div_pos hpos hux).le
        · simp; linarith
      have : roundEven (x / ulp x) = 0 := by
        unfold roundEven
        simp only [hfloor]
        rw [if_pos (by simpa using hq)]
      unfold round
      rw [this]; simp; linarith
    · have : ulp x / 2 ≤ x := by
        have := le_of_not_lt hq
        rw [le_div_iff₀ hux] at this
        linarith
      linarith
  · have hlo := zpow_exponent_le_of_ne x hx0 he
    rw [abs_of_pos hpos] at hlo
    have hule : ulp x ≤ (2 : ℚ) ^ exponent x := by
      unfold ulp
      exact zpow_le_zpow_right₀ (by norm_num) (by omega)
    linarith

theorem roundEven_neg (q : ℚ) : roundEven (-q) = -roundEven q := by
  by_cases hq : (⌊q⌋ : ℚ) = q
  · -- an integer
    have h1 : roundEven q = ⌊q⌋ := by
      unfold roundEven
      simp only
      rw [if_pos (by rw [hq]; norm_num)]
    have hneg : ⌊-q⌋ = -⌊q⌋ := by
      rw [← hq, ← Int.cast_neg, Int.floor_intCast, Int.floor_intCast]
    have h2 : roundEven (-q) = ⌊-q⌋ := by
      unfold roundEven
      simp only
      rw [if_pos (by rw [hneg]; push_cast; rw [hq]; norm_num)]
    rw [h1, h2, hneg]
  · have hlo : (⌊q⌋ : ℚ) < q := lt_of_le_of_ne (Int.floor_le q) hq
    have hhi : q < ⌊q⌋ + 1 := Int.lt_floor_add_one q
    have hneg : ⌊-q⌋ = -⌊q⌋ - 1 := by
      rw [Int.floor_eq_iff]
      push_cast
      constructor <;> linarith
    unfold roundEven
    simp only [hneg]
    push_cast
    by_cases h1 : q - ⌊q⌋ < 1 / 2
    · rw [if_pos h1, if_neg (by linarith), if_pos (by linarith)]
      ring
    · by_cases h2 : 1 / 2 < q - ⌊q⌋
      · rw [if_neg h1, if_pos h2, if_pos (by linarith)]
        ring
      · have h3 : q - ⌊q⌋ = 1 / 2 := le_antisymm (not_lt.mp h2) (not_lt.mp h1)
        rw [if_neg h1, if_neg h2, if_neg (by linarith), if_neg (by linarith)]
        by_cases hpar : ⌊q⌋ % 2 = 0
        · rw [if_pos hpar, if_neg (by omega)]
          ring
        · rw [if_neg hpar, if_pos (by omega)]
          ring

theorem exponent_neg (x : ℚ) : exponent (-x) = exponent x := by
  unfold exponent
  simp only [Rat.neg_num, Int.natAbs_neg, Rat.neg_den, abs_neg]

theorem round_neg (x : ℚ) : round (-x) = -round x := by
  unfold round ulp
  rw [exponent_neg, neg_div, roundEven_neg]
  push_cast
  ring

/-- Rounding never crosses a representable value from above either. -/
theorem le_round_of_le (x y : ℚ) (hy : round y = y) (hyx : y ≤ x) : y ≤ round x := by
  have h := round_le_of_le (-x) (-y) (by rw [round_neg, hy]) (by linarith)
  rw [round_neg] at h
  linarith

theorem abs_round_sub_le (x : ℚ) : |round x - x| ≤ ulp x / 2 := by
  rw [abs_le]
  constructor
  · linarith [sub_half_ulp_le_round x]
  · linarith [round_le_add_half_ulp x]

/-- Relative rounding error of a value in the normal range. -/
theorem abs_round_sub_le_rel (x : ℚ) (hx : (2 : ℚ) ^ (-126 : ℤ) ≤ |x|) :
    |round x - x| ≤ |x| / 2 ^ 24 := by
  have h := abs_round_sub_le x
  have hlo := zpow_exponent_le x hx
  have hu : ulp x / 2 = (2 : ℚ) ^ exponent x / 2 ^ 24 := by
    unfold ulp
    rw [zpow_sub₀ (by norm_num : (2 : ℚ) ≠ 0)]
    norm_num
    ring
  rw [hu] at h
  exact le_trans h (div_le_div_of_nonneg_right hlo (by positivity))

/-- Absolute rounding error of a value in `[-1, 1]`. -/
theorem abs_round_sub_le_unit (x : ℚ) (hx : |x| ≤ 1) : |round x - x| ≤ 1 / 2 ^ 25 := by
  by_cases h1 : |x| = 1
  · rcases (abs_eq (by norm_num : (0 : ℚ) ≤ 1)).1 h1 with h | h
    · rw [h, round_one]; norm_num
    · rw [h, round_neg, round_one]; norm_num
  · have hlt : |x| < 1 := lt_of_le_of_ne hx h1
    have hexp : exponent x ≤ -1 := by
      by_cases hx0 : x = 0
      · subst hx0; decide!
      · by_cases he : exponent x = -126
        · omega
        · have hlo := zpow_exponent_le_of_ne x hx0 he
          have : (2 : ℚ) ^ exponent x < (2 : ℚ) ^ (0 : ℤ) := by
            rw [zpow_zero]; exact lt_of_le_of_lt hlo hlt
          have := (zpow_lt_zpow_iff_right₀ (by norm_num : (1 : ℚ) < 2)).1 this
          omega
    have h := abs_round_sub_le x
    have hu : ulp x ≤ (2 : ℚ) ^ (-24 : ℤ) := by
      unfold ulp
      exact zpow_le_zpow_right₀ (by norm_num) (by omega)
    have h24 : (2 : ℚ) ^ (-24 : ℤ) / 2 = 1 / 2 ^ 25 := by norm_num [zpow_neg]
    calc |round x - x| ≤ ulp x / 2 := h
      _ ≤ (2 : ℚ) ^ (-24 : ℤ) / 2 := div_le_div_of_nonneg_right hu (by norm_num)
      _ = 1 / 2 ^ 25 := h24

theorem exponent_unique (y : ℚ) (e : ℤ) (he : -126 ≤ e) (hlo : (2 : ℚ) ^ e ≤ |y|)
    (hhi : |y| < (2 : ℚ) ^ (e + 1)) : exponent y = e := by
  have hy0 : y ≠ 0 := by
    intro h
    subst h
    have : (0 : ℚ) < (2 : ℚ) ^ e := by positivity
    simp at hlo
    linarith
  obtain ⟨h1, h2⟩ := exponent_raw y hy0
  have ha := (zpow_lt_zpow_iff_right₀ (by norm_num : (1 : ℚ) < 2)).1 (lt_of_le_of_lt h1 hhi)
  have hb := (zpow_lt_zpow_iff_right₀ (by norm_num : (1 : ℚ) < 2)).1 (lt_of_le_of_lt hlo h2)
  unfold exponent
  simp only
  rw [max_eq_left (by omega)]
  omega

theorem roundEven_intCast (n : ℤ) : roundEven (n : ℚ) = n := by
  unfold roundEven
  simp

/-- A multiple `n * 2 ^ (e - 23)` with `|n| ≤ 2 ^ 24` and `e ≥ -126` is a fixed point of
`round` as soon as `|n| ≥ 2 ^ 23` or `e = -126`: these are the binary32 values. -/
theorem round_grid (n : ℤ) (e : ℤ) (he : -126 ≤ e) (hn : |n| ≤ 2 ^ 24)
    (hnorm : 2 ^ 23 ≤ |n| ∨ e = -126) :
    round ((n : ℚ) * (2 : ℚ) ^ (e - 23)) = (n : ℚ) * (2 : ℚ) ^ (e - 23) := by
  have h2 : (2 : ℚ) ≠ 0 := by norm_num
  have hu : (0 : ℚ) < (2 : ℚ) ^ (e - 23) := by positivity
  have habs : |(n : ℚ) * (2 : ℚ) ^ (e - 23)| = (|n| : ℤ) * (2 : ℚ) ^ (e - 23) := by
    rw [abs_mul, abs_of_pos hu, Int.cast_abs]
  have hpow : (2 : ℚ) ^ e = ((2 ^ 23 : ℤ) : ℚ) * (2 : ℚ) ^ (e - 23) := by
    rw [zpow_sub₀ h2]
    push_cast
    field_simp
    ring
  have hpow1 : (2 : ℚ) ^ (e + 1) = ((2 ^ 24 : ℤ) : ℚ) * (2 : ℚ) ^ (e - 23) := by
    rw [zpow_add_one₀ h2, hpow]
    push_cast
    ring
  by_cases hn0 : n = 0
  · subst hn0
    simp [round_zero]
  by_cases htop : |n| = 2 ^ 24
  · -- the value is a power of two, one binade up
    have hval : |(n : ℚ) * (2 : ℚ) ^ (e - 23)| = (2 : ℚ) ^ (e + 1) := by
      rw [habs, htop, hpow1]
    have hexp : exponent ((n : ℚ) * (2 : ℚ) ^ (e - 23)) = e + 1 :=
      exponent_unique _ (e + 1) (by omega) (le_of_eq hval.symm) (by
        rw [hval]
        exact zpow_lt_zpow_right₀ (by norm_num) (by omega))
    have hsign : n = 2 ^ 24 ∨ n = -2 ^ 24 := by
      rcases abs_cases n with ⟨h, _⟩ | ⟨h, _⟩ <;> omega
    unfold round ulp
    rw [hexp]
    have hu2 : (2 : ℚ) ^ (e + 1 - 23) = 2 * (2 : ℚ) ^ (e - 23) := by
      have : e + 1 - 23 = (e - 23) + 1 := by ring
      rw [this, zpow_add_one₀ h2]
      ring
    rw [hu2]
    rcases hsign with h | h
    · subst h
      have : ((2 ^ 24 : ℤ) : ℚ) * (2 : ℚ) ^ (e - 23) / (2 * (2 : ℚ) ^ (e - 23))
          = ((2 ^ 23 : ℤ) : ℚ) := by
        push_cast
        field_simp
        ring
      rw [this, roundEven_intCast]
      push_cast
      ring
    · subst h
      have : ((-2 ^ 24 : ℤ) : ℚ) * (2 : ℚ) ^ (e - 23) / (2 * (2 : ℚ) ^ (e - 23))
          = ((-2 ^ 23 : ℤ) : ℚ) := by
        push_cast
        field_simp
        ring
      rw [this, roundEven_intCast]
      push_cast
      ring
  · have hlt : |n| < 2 ^ 24 := lt_of_le_of_ne hn htop
    have hhi : |(n : ℚ) * (2 : ℚ) ^ (e - 23)| < (2 : ℚ) ^ (e + 1) := by
      rw [habs, hpow1]
      exact mul_lt_mul_of_pos_right (by exact_mod_cast hlt) hu
    have hexp : exponent ((n : ℚ) * (2 : ℚ) ^ (e - 23)) = e := by
      by_cases hbig : 2 ^ 23 ≤ |n|
      · exact exponent_unique _ e he (by
          rw [habs, hpow]
          exact mul_le_mul_of_nonneg_right (by exact_mod_cast hbig) hu.le) hhi
      · have he126 : e = -126 := by
          rcases hnorm with h | h
          · exact absurd h hbig
          · exact h
        have hsmall : |(n : ℚ) * (2 : ℚ) ^ (e - 23)| < (2 : ℚ) ^ (-126 : ℤ) := by
          rw [habs, ← he126, hpow]
          exact mul_lt_mul_of_pos_right (by exact_mod_cast lt_of_not_le hbig) hu
        rw [he126] at hsmall ⊢
        exact exponent_eq_of_small _ (by
          rw [← he126]
          exact mul_ne_zero (by exact_mod_cast hn0) (ne_of_gt hu)) hsmall
    unfold round ulp
    rw [hexp]
    have : (n : ℚ) * (2 : ℚ) ^ (e - 23) / (2 : ℚ) ^ (e - 23) = (n : ℚ) := by
      field_simp
    rw [this, roundEven_intCast]

/-- Rounding is idempotent: `round x` is a binary32 value (up to overflow). -/
theorem round_round (x : ℚ) : round (round x) = round x := by
  by_cases hx0 : x = 0
  · subst hx0
    rw [round_zero, round_zero]
  have h2 : (2 : ℚ) ≠ 0 := by norm_num
  have hu := ulp_pos x
  have hpow1 : (2 : ℚ) ^ (exponent x + 1) = ((2 ^ 24 : ℤ) : ℚ) * ulp x := by
    unfold ulp
    rw [zpow_add_one₀ h2, zpow_sub₀ h2]
    push_cast
    field_simp
    norm_num
    ring
  have hpow : (2 : ℚ) ^ exponent x = ((2 ^ 23 : ℤ) : ℚ) * ulp x := by
    unfold ulp
    rw [zpow_sub₀ h2]
    push_cast
    field_simp
    ring
  have hq := abs_lt_zpow_exponent x
  rw [hpow1] at hq
  have hq' : |x / ulp x| < ((2 ^ 24 : ℤ) : ℚ) := by
    rw [abs_div, abs_of_pos hu, div_lt_iff₀ hu]
    exact hq
  have hq2 := abs_lt.1 hq'
  have hn1 : roundEven (x / ulp x) ≤ 2 ^ 24 := roundEven_le _ _ hq2.2.le
  have hn2 : -(2 ^ 24) ≤ roundEven (x / ulp x) :=
    le_roundEven _ _ (by push_cast at hq2 ⊢; linarith [hq2.1])
  have hn : |roundEven (x / ulp x)| ≤ 2 ^ 24 := abs_le.2 ⟨hn2, hn1⟩
  have hnorm : 2 ^ 23 ≤ |roundEven (x / ulp x)| ∨ exponent x = -126 := by
    by_cases he : exponent x = -126
    · exact Or.inr he
    · left
      have hlo := zpow_exponent_le_of_ne x hx0 he
      rw [hpow] at hlo
      rcases le_total 0 x with hpos | hneg
      · rw [abs_of_nonneg hpos] at hlo
        have : ((2 ^ 23 : ℤ) : ℚ) ≤ x / ulp x := by
          rw [le_div_iff₀ hu]
          exact hlo
        have := le_roundEven _ _ this
        exact le_trans this (le_abs_self _)
      · rw [abs_of_nonpos hneg] at hlo
        have : x / ulp x ≤ ((-(2 ^ 23) : ℤ) : ℚ) := by
          rw [div_le_iff₀ hu]
          push_cast at hlo ⊢
          linarith
        have := roundEven_le _ _ this
        have h3 := neg_abs_le (roundEven (x / ulp x))
        omega
  have := round_grid (roundEven (x / ulp x)) (exponent x) (exponent_ge x) hn hnorm
  unfold round at this ⊢
  unfold ulp at this ⊢
  exact this

/-- Known binary32 roundings: the literals `0.2f`, `0.1f` and `0.01f`; ties to even at
`2 ^ 24 + 1` and `2 ^ 24 + 3`; the subnormal ties `2 ^ (-150)` and `3 * 2 ^ (-150)`; and
overflow, which starts at the midpoint `2 ^ 128 - 2 ^ 103` above `FLT_MAX`. -/
theorem round_known_values :
    round (1 / 5) = 13421773 / 67108864 ∧
    round (1 / 10) = 13421773 / 134217728 ∧
    round (1 / 100) = 5368709 / 536870912 ∧
    round 16777217 = 16777216 ∧
    round 16777219 = 16777220 ∧
    round (1 / 2 ^ 150) = 0 ∧
    round (3 / 2 ^ 150) = 1 / 2 ^ 148 ∧
    round (1 / 2 ^ 149) = 1 / 2 ^ 149 ∧
    ofRat (maxFinite + 2 ^ 102) = fin maxFinite ∧
    ofRat (2 ^ 128 - 2 ^ 103) = inf false ∧
    ofRat (-(2 ^ 128)) = inf true := by
  decide!

theorem ne_false {a b : F32} (h : a.ne b = false) : a = b := by
  cases a <;> cases b <;> simp_all [ne]

theorem maxFinite_ge_one : (1 : ℚ) ≤ maxFinite := by decide!

theorem ofRat_of_unit (x : ℚ) (h0 : 0 ≤ x) (h1 : x ≤ 1) :
    ofRat x = fin (round x) ∧ 0 ≤ round x ∧ round x ≤ 1 := by
  have hr0 := round_nonneg x h0
  have hr1 := round_le_one x h1
  have hm := maxFinite_ge_one
  refine ⟨?_, hr0, hr1⟩
  unfold ofRat
  simp only
  rw [if_neg (by linarith), if_neg (by linarith)]

theorem s_RiseFactor_eq : Binary32.s_RiseFactor = fin (13421773 / 67108864) := by decide!

end F32

namespace Binary32

namespace VUMeter

open VUPlayer.VUMeter (Channel)

theorem ite_snd_f32 (c : Bool) (A B : VUMeter) (h : c = false → B = A) :
    (if c = true then (true, A) else (false, B)).2 = A := by
  cases c
  · simpa using h rfl
  · rfl

theorem collapse_f32 (stereo : Bool) (raw : F32 × F32) :
    (if !stereo then
      if raw.2.lt raw.1 then (raw.1, raw.1) else (raw.2, raw.2)
    else (raw.1, raw.2)) = (preClamp stereo raw .left, preClamp stereo raw .right) := by
  cases stereo
  · by_cases h : raw.2.lt raw.1 = true
    · simp [preClamp, h]
    · simp [preClamp, h]
  · simp [preClamp, component]

/-- The meter after `GetLevels`, in closed form. -/
theorem GetLevels_closed (m : VUMeter) (raw : F32 × F32) :
    (m.GetLevels raw).2 =
      { m with
        m_OutputLevel := (clamp (preClamp m.m_IsStereo raw .left) (.fin 0) (.fin 1),
          clamp (preClamp m.m_IsStereo raw .right) (.fin 0) (.fin 1))
        m_LeftDisplayLevel := smooth m.m_LeftDisplayLevel
          (clamp (preClamp m.m_IsStereo raw .left) (.fin 0) (.fin 1)) m.m_Decay
        m_RightDisplayLevel := smooth m.m_RightDisplayLevel
          (clamp (preClamp m.m_IsStereo raw .right) (.fin 0) (.fin 1)) m.m_Decay } := by
  unfold GetLevels
  dsimp only
  rw [collapse_f32]
  refine (ite_snd_f32 _ _ _ ?_).trans ?_
  · intro h
    simp only [Bool.or_eq_false_iff] at h
    have h1 := F32.ne_false h.1
    have h2 := F32.ne_false h.2
    rw [h1, h2]
  · rfl


theorem stored_output (m : VUMeter) (raw : F32 × F32) (ch : Channel) :
    (m.GetLevels raw).2.output ch = clamp (preClamp m.m_IsStereo raw ch) (.fin 0) (.fin 1) := by
  rw [GetLevels_closed]
  cases ch <;> rfl

theorem stored_display (m : VUMeter) (raw : F32 × F32) (ch : Channel) :
    (m.GetLevels raw).2.display ch =
      smooth (m.display ch) ((m.GetLevels raw).2.output ch) m.m_Decay := by
  rw [GetLevels_closed]
  cases ch <;> rfl

theorem stored_decay (m : VUMeter) (raw : F32 × F32) :
    (m.GetLevels raw).2.m_Decay = m.m_Decay := by
  rw [GetLevels_closed]

theorem stored_stereo (m : VUMeter) (raw : F32 × F32) :
    (m.GetLevels raw).2.m_IsStereo = m.m_IsStereo := by
  rw [GetLevels_closed]

theorem clamp_unit (v : F32) (hv : v ≠ .nan) :
    (clamp v (.fin 0) (.fin 1)).inUnit = true := by
  cases v with
  | nan => exact absurd rfl hv
  | inf s => cases s <;> simp [clamp, F32.lt, F32.inUnit]
  | fin x =>
    unfold clamp
    by_cases h0 : x < 0
    · simp [F32.lt, h0, F32.inUnit]
    · by_cases h1 : 1 < x
      · simp [F32.lt, h0, h1, F32.inUnit]
      · simp only [F32.lt, h0, h1, decide_False, Bool.false_eq_true, if_false, F32.inUnit,
          decide_eq_true_eq]
        exact ⟨not_lt.mp h0, not_lt.mp h1⟩

theorem preClamp_ne_nan (stereo : Bool) (raw : F32 × F32) (ch : Channel)
    (hl : raw.1 ≠ .nan) (hr : raw.2 ≠ .nan) : preClamp stereo raw ch ≠ .nan := by
  unfold preClamp
  cases stereo
  · simp only [Bool.false_eq_true, if_false]
    split_ifs
    · exact hl
    · exact hr
  · cases ch <;> simpa [component]

theorem inUnit_iff (a : F32) : a.inUnit = true ↔ ∃ q, a = .fin q ∧ 0 ≤ q ∧ q ≤ 1 := by
  cases a with
  | nan => simp [F32.inUnit]
  | inf s => simp [F32.inUnit]
  | fin x => simp [F32.inUnit]

/-- A decay that is `≥ 0` as a `float` is a finite value `≥ 0` or the positive infinity. -/
theorem decay_cases (decay : F32) (hnan : decay ≠ .nan) (hneg : decay.lt (.fin 0) = false) :
    (∃ c, decay = .fin c ∧ 0 ≤ c) ∨ decay = .inf false := by
  cases decay with
  | nan => exact absurd rfl hnan
  | inf s =>
    right
    cases s
    · rfl
    · simp [F32.lt] at hneg
  | fin c =>
    left
    exact ⟨c, rfl, by simpa [F32.lt] using hneg⟩

/-- Attack and decay keep a level in `[0, 1]`, whatever the rounding. -/
theorem smooth_unit (d o decay : F32) (hd : d.inUnit = true) (ho : o.inUnit = true)
    (hnan : decay ≠ .nan) (hneg : decay.lt (.fin 0) = false) :
    (smooth d o decay).inUnit = true := by
  obtain ⟨x, rfl, hx0, hx1⟩ := (inUnit_iff d).1 hd
  obtain ⟨y, rfl, hy0, hy1⟩ := (inUnit_iff o).1 ho
  unfold smooth
  by_cases hlt : x < y
  · -- attack
    have hcond : (F32.fin x).lt (.fin y) = true := by simp [F32.lt, hlt]
    rw [if_pos hcond]
    obtain ⟨ha, ha0, ha1⟩ := F32.ofRat_of_unit (y + -x) (by linarith) (by linarith)
    have ha2 : F32.round (y + -x) ≤ 2 * (y + -x) := F32.round_le_two_mul _ (by linarith)
    have hsub : (F32.fin y).sub (.fin x) = .fin (F32.round (y + -x)) := by
      simp only [F32.sub, F32.neg, F32.add]
      exact ha
    have hprod0 : 0 ≤ F32.round (y + -x) * (13421773 / 67108864) := by positivity
    have hprod1 : F32.round (y + -x) * (13421773 / 67108864) ≤ 1 := by nlinarith
    obtain ⟨hb, hb0, hb1⟩ := F32.ofRat_of_unit _ hprod0 hprod1
    have hb2 := F32.round_le_two_mul _ hprod0
    have hmul : (F32.fin (F32.round (y + -x))).mul s_RiseFactor
        = .fin (F32.round (F32.round (y + -x) * (13421773 / 67108864))) := by
      rw [F32.s_RiseFactor_eq]
      simp only [F32.mul]
      exact hb
    have hsum0 : 0 ≤ x + F32.round (F32.round (y + -x) * (13421773 / 67108864)) := by linarith
    have hsum1 : x + F32.round (F32.round (y + -x) * (13421773 / 67108864)) ≤ 1 := by
      nlinarith
    obtain ⟨hs, hs0, hs1⟩ := F32.ofRat_of_unit _ hsum0 hsum1
    rw [hsub, hmul]
    simp only [F32.add]
    rw [hs]
    simp [F32.inUnit, hs0, hs1]
  · -- decay
    have hcond : ¬ ((F32.fin x).lt (.fin y) = true) := by simp [F32.lt, hlt]
    rw [if_neg hcond]
    rcases decay_cases decay hnan hneg with ⟨c, rfl, hc⟩ | rfl
    · have hr1 : F32.round (x + -c) ≤ 1 := F32.round_le_one _ (by linarith)
      have hm := F32.maxFinite_ge_one
      have hsub : (F32.fin x).sub (.fin c) =
          if F32.round (x + -c) < -F32.maxFinite then .inf true
          else .fin (F32.round (x + -c)) := by
        simp only [F32.sub, F32.neg, F32.add, F32.ofRat]
        rw [if_neg (by linarith)]
      rw [hsub]
      by_cases hover : F32.round (x + -c) < -F32.maxFinite
      · simp [hover, F32.lt, F32.inUnit, hy0, hy1]
      · simp only [hover, if_false, F32.lt]
        by_cases hly : F32.round (x + -c) < y
        · simp [hly, F32.inUnit, hy0, hy1]
        · simp only [hly, decide_False, Bool.false_eq_true, if_false, F32.inUnit,
            decide_eq_true_eq]
          exact ⟨by linarith [not_lt.mp hly], hr1⟩
    · simp [F32.sub, F32.neg, F32.add, F32.lt, F32.inUnit, hy0, hy1]

theorem sub_fin (x y : ℚ) : (F32.fin x).sub (.fin y) = F32.ofRat (x - y) := by
  simp only [F32.sub, F32.neg, F32.add, sub_eq_add_neg]

theorem silence_output (m : VUMeter) (ch : Channel) :
    (m.GetLevels silence).2.output ch = .fin 0 := by
  rw [stored_output]
  cases m.m_IsStereo <;> cases ch <;> simp [preClamp, component, silence, clamp, F32.lt]

/-- One silent tick takes a level `q` in `[0, FLT_MAX]` to `max (round (q - c)) 0`. -/
theorem silent_tick_f32 (m : VUMeter) (ch : Channel) (c q : ℚ) (hdecay : m.m_Decay = .fin c)
    (hc : 0 ≤ c) (hd : m.display ch = .fin q) (h0 : 0 ≤ q) (hmax : q ≤ F32.maxFinite) :
    (m.tick silence).display ch = .fin (max (F32.round (q - c)) 0) := by
  unfold tick
  rw [stored_display, silence_output, hd, hdecay]
  unfold smooth
  have hcond : ¬ ((F32.fin q).lt (.fin 0) = true) := by simp [F32.lt, h0]
  rw [if_neg hcond, sub_fin]
  have hr : F32.round (q - c) ≤ F32.maxFinite :=
    F32.round_le_of_le _ _ F32.round_maxFinite (by linarith)
  have hm := F32.maxFinite_ge_one
  have hof : F32.ofRat (q - c) = if F32.round (q - c) < -F32.maxFinite then .inf true
      else .fin (F32.round (q - c)) := by
    unfold F32.ofRat
    simp only
    rw [if_neg (not_lt.mpr hr)]
  rw [hof]
  by_cases hover : F32.round (q - c) < -F32.maxFinite
  · have hneg : F32.round (q - c) ≤ 0 := by linarith
    simp [hover, F32.lt, max_eq_right hneg]
  · simp only [hover, if_false, F32.lt]
    by_cases hlt : F32.round (q - c) < 0
    · simp [hlt, max_eq_right (le_of_lt hlt)]
    · simp [hlt, max_eq_left (not_lt.mp hlt)]

theorem silent_run_f32 (k : ℕ) (m : VUMeter) (ch : Channel) (c q : ℚ)
    (hdecay : m.m_Decay = .fin c) (hc : 0 ≤ c) (hd : m.display ch = .fin q) (h0 : 0 ≤ q)
    (hmax : q ≤ F32.maxFinite) :
    (m.ticks (List.replicate k silence)).display ch
        = .fin ((fun d => max (F32.round (d - c)) 0)^[k] q) ∧
      0 ≤ (fun d => max (F32.round (d - c)) 0)^[k] q := by
  induction k generalizing m q with
  | zero => exact ⟨by simpa [ticks] using hd, by simpa using h0⟩
  | succ n ih =>
    have hstep := silent_tick_f32 m ch c q hdecay hc hd h0 hmax
    have hdec : (m.tick silence).m_Decay = .fin c := by
      unfold tick; rw [stored_decay]; exact hdecay
    have hr : F32.round (q - c) ≤ F32.maxFinite :=
      F32.round_le_of_le _ _ F32.round_maxFinite (by linarith)
    have hm := F32.maxFinite_ge_one
    have hrec := ih (m.tick silence) (max (F32.round (q - c)) 0) hdec hstep (le_max_right _ _)
      (max_le hr (by linarith))
    have hunf : m.ticks (List.replicate (n + 1) silence)
        = (m.tick silence).ticks (List.replicate n silence) := by
      simp [ticks, List.replicate_succ]
    rw [hunf, Function.iterate_succ_apply]
    exact hrec

theorem zero_fixed (c : ℚ) (hc : 0 ≤ c) (j : ℕ) :
    (fun d => max (F32.round (d - c)) 0)^[j] 0 = 0 := by
  induction j with
  | zero => rfl
  | succ n ih =>
    rw [Function.iterate_succ_apply']
    rw [ih]
    exact max_eq_right (F32.round_nonpos _ (by linarith))

theorem clamp_fin_unit (v : F32) (o : ℚ) (h : clamp v (.fin 0) (.fin 1) = .fin o) :
    0 ≤ o ∧ o ≤ 1 := by
  have hv : v ≠ .nan := by
    rintro rfl
    simp [clamp, F32.lt] at h
  have hu := clamp_unit v hv
  rw [h] at hu
  simpa [F32.inUnit] using hu

/-- The attack step in binary32 stays within `2 ^ (-23)` of the exact 20% step. -/
theorem attack_error (d o : ℚ) (hd : 0 ≤ d) (hlt : d < o) (ho : o ≤ 1) :
    ∃ q, (F32.fin d).add (((F32.fin o).sub (.fin d)).mul (F32.ofRat (1 / 5))) = .fin q ∧
      |q - (d + (o - d) * (1 / 5))| ≤ 1 / 2 ^ 23 := by
  have hc : F32.ofRat (1 / 5) = .fin (13421773 / 67108864) := by decide!
  obtain ⟨ha, ha0, ha1⟩ := F32.ofRat_of_unit (o - d) (by linarith) (by linarith)
  have ha2 : F32.round (o - d) ≤ 2 * (o - d) := F32.round_le_two_mul _ (by linarith)
  have hae := abs_le.1 (F32.abs_round_sub_le_unit (o - d)
    (abs_le.2 ⟨by linarith, by linarith⟩))
  have hprod0 : 0 ≤ F32.round (o - d) * (13421773 / 67108864) := by positivity
  have hprod1 : F32.round (o - d) * (13421773 / 67108864) ≤ 1 := by nlinarith
  obtain ⟨hb, hb0, hb1⟩ := F32.ofRat_of_unit _ hprod0 hprod1
  have hb2 := F32.round_le_two_mul _ hprod0
  have hbe := abs_le.1 (F32.abs_round_sub_le_unit _ (abs_le.2 ⟨by linarith, hprod1⟩))
  have hsum0 : 0 ≤ d + F32.round (F32.round (o - d) * (13421773 / 67108864)) := by linarith
  have hsum1 : d + F32.round (F32.round (o - d) * (13421773 / 67108864)) ≤ 1 := by
    nlinarith
  obtain ⟨hs, hs0, hs1⟩ := F32.ofRat_of_unit _ hsum0 hsum1
  have hse := abs_le.1 (F32.abs_round_sub_le_unit _ (abs_le.2 ⟨by linarith, hsum1⟩))
  refine ⟨F32.round (d + F32.round (F32.round (o - d) * (13421773 / 67108864))), ?_, ?_⟩
  · rw [sub_fin, ha, hc]
    simp only [F32.mul]
    rw [hb]
    simp only [F32.add]
    exact hs
  · rw [abs_le]
    constructor
    · norm_num at hae hbe hse ⊢
      linarith [hae.1, hae.2, hbe.1, hbe.2, hse.1, hse.2]
    · norm_num at hae hbe hse ⊢
      linarith [hae.1, hae.2, hbe.1, hbe.2, hse.1, hse.2]

theorem exact_step (t c : ℚ) (hc : 0 ≤ c) : max (max t 0 - c) 0 = max (t - c) 0 := by
  rcases le_total t 0 with h | h
  · rw [max_eq_right h, max_eq_right (by linarith), max_eq_right (by linarith)]
  · rw [max_eq_left h]

/-- The silent decay in binary32 drifts from the exact one by at most `2 ^ (-25)` per
tick, for levels and decays up to `1`. -/
theorem silent_drift (k : ℕ) (c d0 : ℚ) (hc0 : 0 ≤ c) (hc1 : c ≤ 1) (h0 : 0 ≤ d0)
    (h1 : d0 ≤ 1) :
    |(fun d => max (F32.round (d - c)) 0)^[k] d0 - max (d0 - (k : ℚ) * c) 0| ≤ (k : ℚ) / 2 ^ 25 ∧
      0 ≤ (fun d => max (F32.round (d - c)) 0)^[k] d0 ∧
      (fun d => max (F32.round (d - c)) 0)^[k] d0 ≤ 1 := by
  induction k with
  | zero => simp [max_eq_left h0, h0, h1]
  | succ n ih =>
    obtain ⟨herr, hq0, hq1⟩ := ih
    rw [Function.iterate_succ_apply']
    set q := (fun d => max (F32.round (d - c)) 0)^[n] d0 with hq
    have hr1 : F32.round (q - c) ≤ 1 := F32.round_le_one _ (by linarith)
    have hre := F32.abs_round_sub_le_unit (q - c) (abs_le.2 ⟨by linarith, by linarith⟩)
    refine ⟨?_, le_max_right _ _, max_le hr1 zero_le_one⟩
    have hex : max (d0 - ((n + 1 : ℕ) : ℚ) * c) 0 = max (max (d0 - (n : ℚ) * c) 0 - c) 0 := by
      rw [exact_step _ _ hc0]
      push_cast
      ring_nf
    rw [hex]
    have hlip := abs_max_sub_max_le_abs (F32.round (q - c)) (max (d0 - (n : ℚ) * c) 0 - c) 0
    have htri : |F32.round (q - c) - (max (d0 - (n : ℚ) * c) 0 - c)|
        ≤ |F32.round (q - c) - (q - c)| + |q - max (d0 - (n : ℚ) * c) 0| := by
      have : F32.round (q - c) - (max (d0 - (n : ℚ) * c) 0 - c)
          = (F32.round (q - c) - (q - c)) + (q - max (d0 - (n : ℚ) * c) 0) := by ring
      rw [this]
      exact abs_add _ _
    push_cast
    have : ((n : ℚ) + 1) / 2 ^ 25 = (n : ℚ) / 2 ^ 25 + 1 / 2 ^ 25 := by ring
    rw [this]
    linarith

/-- Counterexample for C1: a stereo meter held at full-scale output `( 1, 1 )` shows
`1 - 2 ^ (-23)` after 71 ticks; at the next tick that level is still strictly below the
output level `1`, yet `GetLevels` returns `false` and leaves the level where it is: the new
level is neither `d + (1 - d) * 0.2` nor `d + (1 - d) * 0.2f` taken exactly. -/
theorem attack_stalls :
    (VUMeter.new (F32.ofRat (1 / 100)) true).ticks (List.replicate 71 (.fin 1, .fin 1))
      = VUMeter.mk (.fin 1, .fin 1) (.fin (8388607 / 8388608)) (.fin (8388607 / 8388608))
          (F32.ofRat (1 / 100)) true ∧
    ((VUMeter.mk (.fin 1, .fin 1) (.fin (8388607 / 8388608)) (.fin (8388607 / 8388608))
        (F32.ofRat (1 / 100)) true).display .left).lt
      (((VUMeter.mk (.fin 1, .fin 1) (.fin (8388607 / 8388608)) (.fin (8388607 / 8388608))
        (F32.ofRat (1 / 100)) true).GetLevels (.fin 1, .fin 1)).2.output .left) = true ∧
    ((VUMeter.mk (.fin 1, .fin 1) (.fin (8388607 / 8388608)) (.fin (8388607 / 8388608))
        (F32.ofRat (1 / 100)) true).GetLevels (.fin 1, .fin 1)).1 = false ∧
    ((VUMeter.mk (.fin 1, .fin 1) (.fin (8388607 / 8388608)) (.fin (8388607 / 8388608))
        (F32.ofRat (1 / 100)) true).GetLevels (.fin 1, .fin 1)).2.display .left
      = .fin (8388607 / 8388608) ∧
    ((VUMeter.mk (.fin 1, .fin 1) (.fin (8388607 / 8388608)) (.fin (8388607 / 8388608))
        (F32.ofRat (1 / 100)) true).GetLevels (.fin 1, .fin 1)).2.display .left
      ≠ .fin (8388607 / 8388608 + (1 - 8388607 / 8388608) * (1 / 5)) ∧
    ((VUMeter.mk (.fin 1, .fin 1) (.fin (8388607 / 8388608)) (.fin (8388607 / 8388608))
        (F32.ofRat (1 / 100)) true).GetLevels (.fin 1, .fin 1)).2.display .left
      ≠ .fin (8388607 / 8388608 + (1 - 8388607 / 8388608) * (13421773 / 67108864)) := by
  decide!

/-- C1, amended. Attack: for every channel whose previous displayed level `d` is strictly below
the clamped output level `o` stored by `GetLevels`, the new displayed level is
`d + (o - d) * 0.2f` computed in binary32, each of the three operations rounded to nearest;
from `d = 0` with `o = 1` one tick yields `0.2f`; for `d ≥ 0` the new level is finite and
within `2 ^ (-23)` of `d + (o - d) * 0.2`; and in exact arithmetic (the meter
`VUPlayer.VUMeter` over the rationals) the new level is `d + (o - d) * 0.2`, a move of
exactly 20% of the gap. -/
theorem attack_step (m : VUMeter) (raw : F32 × F32) (ch : Channel)
    (h : (m.display ch).lt ((m.GetLevels raw).2.output ch) = true) :
    (m.GetLevels raw).2.display ch =
        (m.display ch).add
          ((((m.GetLevels raw).2.output ch).sub (m.display ch)).mul (F32.ofRat (1 / 5))) ∧
    (m.display ch = .fin 0 → (m.GetLevels raw).2.output ch = .fin 1 →
      (m.GetLevels raw).2.display ch = F32.ofRat (1 / 5)) ∧
    (∀ d o : ℚ, m.display ch = .fin d → (m.GetLevels raw).2.output ch = .fin o → 0 ≤ d →
      ∃ q, (m.GetLevels raw).2.display ch = .fin q ∧
        |q - (d + (o - d) * (1 / 5))| ≤ 1 / 2 ^ 23) ∧
    (∀ (e : VUPlayer.VUMeter) (exact : ℚ × ℚ),
      e.display ch < (e.GetLevels exact).2.output ch →
        (e.GetLevels exact).2.display ch =
          e.display ch + ((e.GetLevels exact).2.output ch - e.display ch) * (1 / 5)) := by
  have key : (m.GetLevels raw).2.display ch =
      (m.display ch).add
        ((((m.GetLevels raw).2.output ch).sub (m.display ch)).mul (F32.ofRat (1 / 5))) := by
    rw [stored_display, smooth, if_pos h]
    rfl
  refine ⟨key, fun hd ho => ?_, fun d o hd ho hd0 => ?_, fun e exact he => ?_⟩
  · rw [key, hd, ho]
    decide!
  · have hlt : d < o := by simpa [hd, ho, F32.lt] using h
    have ho1 : o ≤ 1 := by
      have hst := stored_output m raw ch
      rw [ho] at hst
      exact (clamp_fin_unit _ o hst.symm).2
    rw [key, hd, ho]
    exact attack_error d o hd0 hlt ho1
  · exact (VUPlayer.VUMeter.GetLevels_attack e exact ch he).1

/-- Witness for C1, amended: a freshly constructed stereo meter fed full-scale output shows
`0.2f`, which is `13421773 / 67108864`, on the left channel after one tick. -/
theorem attack_step_witness :
    ((VUMeter.new (F32.ofRat (1 / 100)) true).display .left).lt
      (((VUMeter.new (F32.ofRat (1 / 100)) true).GetLevels (.fin 1, .fin 1)).2.output .left)
        = true ∧
    ((VUMeter.new (F32.ofRat (1 / 100)) true).GetLevels (.fin 1, .fin 1)).2.display .left
      = .fin (13421773 / 67108864) :=
  ⟨by decide!,
   ((attack_step (VUMeter.new (F32.ofRat (1 / 100)) true) (.fin 1, .fin 1) .left
      (by decide!)).2.1 (by decide!) (by decide!)).trans (by decide!)⟩

/-- Counterexample for C3: from the displayed level `0.08f` with the decay `0.01f` and the
output held at `0.0`, eight ticks leave the level at `2 ^ (-27)`, although eight times the
decay is the starting level, so that `max (d0 - 8 * decay) 0` is `0`. -/
theorem decay_rounding_drift :
    F32.ofRat (2 / 25) = .fin (5368709 / 67108864) ∧
    F32.ofRat (1 / 100) = .fin (5368709 / 536870912) ∧
    (0 : ℚ) < 5368709 / 536870912 ∧ (0 : ℚ) ≤ 5368709 / 67108864 ∧
    (8 : ℚ) * (5368709 / 536870912) ≥ 5368709 / 67108864 ∧
    max ((5368709 / 67108864 : ℚ) - 8 * (5368709 / 536870912)) 0 = 0 ∧
    ((VUMeter.mk (.fin 0, .fin 0) (F32.ofRat (2 / 25)) (.fin 0) (F32.ofRat (1 / 100)) true).ticks
      (List.replicate 8 silence)).display .left = .fin (1 / 134217728) ∧
    ((VUMeter.mk (.fin 0, .fin 0) (F32.ofRat (2 / 25)) (.fin 0) (F32.ofRat (1 / 100)) true).ticks
      (List.replicate 8 silence)).display .left ≠ .fin 0 := by
  decide!

/-- C3, amended. With a decay `c > 0` and a starting level `d0 ≥ 0` on a channel, holding the
output at `0.0`: in binary32 every tick of `GetLevels` takes the level `d` to
`max (fl (d - c)) 0`, where `fl` rounds to nearest, so after `k` ticks the level is the
`k`-fold iterate of that step from `d0`; it is never negative, once it is `0` it is `0`
after any further ticks, and for `d0 ≤ 1` and `c ≤ 1` it differs from `max (d0 - k * c) 0`
by at most `k * 2 ^ (-25)`.  In exact arithmetic (the meter `VUPlayer.VUMeter` over the
rationals) the level after `k` ticks is `max (d0 - k * c) 0`: it is `0` once `k * c ≥ d0`
and stays `0`. -/
theorem silent_decay (m : VUMeter) (k : ℕ) (ch : Channel) (c d0 : ℚ)
    (hdecay : m.m_Decay = .fin c) (hc : 0 < c) (hd : m.display ch = .fin d0) (h0 : 0 ≤ d0)
    (hmax : d0 ≤ F32.maxFinite) :
    (m.ticks (List.replicate k silence)).display ch
        = .fin ((fun d => max (F32.round (d - c)) 0)^[k] d0) ∧
    0 ≤ (fun d => max (F32.round (d - c)) 0)^[k] d0 ∧
    ((m.ticks (List.replicate k silence)).display ch = .fin 0 →
      ∀ j : ℕ, (m.ticks (List.replicate (k + j) silence)).display ch = .fin 0) ∧
    (d0 ≤ 1 → c ≤ 1 →
      |(fun d => max (F32.round (d - c)) 0)^[k] d0 - max (d0 - (k : ℚ) * c) 0|
        ≤ (k : ℚ) / 2 ^ 25) ∧
    (∀ (e : VUPlayer.VUMeter) (n : ℕ), 0 < e.m_Decay → 0 ≤ e.display ch →
      (e.ticks (List.replicate n (0, 0))).display ch
          = max (e.display ch - (n : ℚ) * e.m_Decay) 0 ∧
      (e.display ch ≤ (n : ℚ) * e.m_Decay →
        ∀ j : ℕ, (e.ticks (List.replicate (n + j) (0, 0))).display ch = 0)) := by
  have hrun := fun n => silent_run_f32 n m ch c d0 hdecay hc.le hd h0 hmax
  refine ⟨(hrun k).1, (hrun k).2, fun hz j => ?_,
    fun h1 hc1 => (silent_drift k c d0 hc.le hc1 h0 h1).1, fun e n he h0e => ?_⟩
  · have hk : (fun d => max (F32.round (d - c)) 0)^[k] d0 = 0 := by
      have := (hrun k).1.symm.trans hz
      exact F32.fin.inj this
    rw [(hrun (k + j)).1, add_comm, Function.iterate_add_apply, hk, zero_fixed c hc.le j]
  · exact ⟨(VUPlayer.VUMeter.ticks_silent e n ch he h0e).1,
      (VUPlayer.VUMeter.ticks_silent e n ch he h0e).2.2⟩

/-- Witness for C3, amended: from `0.08f` with decay `0.01f` the left level is `2 ^ (-27)`
after eight silent ticks and `0` after nine and after twelve. -/
theorem silent_decay_witness :
    ((VUMeter.mk (.fin 0, .fin 0) (.fin (5368709 / 67108864)) (.fin 0)
        (.fin (5368709 / 536870912)) true).ticks (List.replicate 8 silence)).display .left
      = .fin (1 / 134217728) ∧
    ((VUMeter.mk (.fin 0, .fin 0) (.fin (5368709 / 67108864)) (.fin 0)
        (.fin (5368709 / 536870912)) true).ticks (List.replicate (9 + 0) silence)).display .left
      = .fin 0 ∧
    ((VUMeter.mk (.fin 0, .fin 0) (.fin (5368709 / 67108864)) (.fin 0)
        (.fin (5368709 / 536870912)) true).ticks (List.replicate (9 + 3) silence)).display .left
      = .fin 0 := by
  have h8 := (silent_decay (VUMeter.mk (.fin 0, .fin 0) (.fin (5368709 / 67108864)) (.fin 0)
    (.fin (5368709 / 536870912)) true) 8 .left (5368709 / 536870912) (5368709 / 67108864)
    rfl (by norm_num) rfl (by norm_num) (by decide!)).1
  have h9 := (silent_decay (VUMeter.mk (.fin 0, .fin 0) (.fin (5368709 / 67108864)) (.fin 0)
    (.fin (5368709 / 536870912)) true) 9 .left (5368709 / 536870912) (5368709 / 67108864)
    rfl (by norm_num) rfl (by norm_num) (by decide!)).2.2.1 (by decide!)
  refine ⟨h8.trans (by decide!), h9 0, h9 3⟩

/-- Counterexample for C5: a NaN is neither below `0.0f` nor above `1.0f`, so `std::clamp`
returns it; a stereo meter handed `( NaN, 0 )` stores the NaN as its left output level,
which is not in `[0, 1]`. -/
theorem nan_output_stored :
    ((VUMeter.new (F32.ofRat (1 / 100)) true).GetLevels (.nan, .fin 0)).2.output .left = .nan ∧
    (((VUMeter.new (F32.ofRat (1 / 100)) true).GetLevels (.nan, .fin 0)).2.output .left).inUnit
      = false := by
  decide!

/-- C5, amended. After `GetLevels`, for every pair of raw values of which neither is a NaN,
both components of the stored output level lie in `[0, 1]`.  Writing `v` for the value the
component holds when it is clamped (the reported value in stereo mode, the larger of the
two in mono mode): the stored component is `0` when `v < 0`, `1` when `v > 1`, and `v`
itself otherwise. -/
theorem stored_output_range (m : VUMeter) (raw : F32 × F32) (ch : Channel)
    (hl : raw.1 ≠ .nan) (hr : raw.2 ≠ .nan) :
    ((m.GetLevels raw).2.output ch).inUnit = true ∧
    (m.GetLevels raw).2.output ch =
      (if (if m.m_IsStereo then component raw ch
            else if raw.2.lt raw.1 then raw.1 else raw.2).lt (.fin 0) then .fin 0
       else if (F32.fin 1).lt (if m.m_IsStereo then component raw ch
            else if raw.2.lt raw.1 then raw.1 else raw.2) then .fin 1
       else (if m.m_IsStereo then component raw ch
            else if raw.2.lt raw.1 then raw.1 else raw.2)) := by
  refine ⟨?_, ?_⟩
  · rw [stored_output]
    exact clamp_unit _ (preClamp_ne_nan _ _ _ hl hr)
  · rw [stored_output]
    rfl

/-- Witness for C5, amended: a stereo meter handed `( 2, -1 )` stores `( 1, 0 )`, and a mono
meter handed `( 1/4, +∞ )` stores `1` on the left. -/
theorem stored_output_range_witness :
    ((VUMeter.new (F32.ofRat (1 / 100)) true).GetLevels (.fin 2, .fin (-1))).2.output .left
      = .fin 1 ∧
    ((VUMeter.new (F32.ofRat (1 / 100)) true).GetLevels (.fin 2, .fin (-1))).2.output .right
      = .fin 0 ∧
    (((VUMeter.new (F32.ofRat (1 / 100)) false).GetLevels (.fin (1 / 4), .inf false)).2.output
      .left).inUnit = true :=
  ⟨((stored_output_range (VUMeter.new (F32.ofRat (1 / 100)) true) (.fin 2, .fin (-1)) .left
      (by decide) (by decide)).2).trans (by decide!),
   ((stored_output_range (VUMeter.new (F32.ofRat (1 / 100)) true) (.fin 2, .fin (-1)) .right
      (by decide) (by decide)).2).trans (by decide!),
   (stored_output_range (VUMeter.new (F32.ofRat (1 / 100)) false) (.fin (1 / 4), .inf false)
      .left (by decide) (by decide)).1⟩

theorem tick_unit (m : VUMeter) (raw : F32 × F32)
    (hraw : raw.1 ≠ .nan ∧ raw.2 ≠ .nan)
    (h : (∀ ch, (m.display ch).inUnit = true) ∧
      (m.m_Decay ≠ .nan ∧ m.m_Decay.lt (.fin 0) = false) ∧
      (m.m_IsStereo = false → m.m_LeftDisplayLevel = m.m_RightDisplayLevel)) :
    (∀ ch, ((m.tick raw).display ch).inUnit = true) ∧
      ((m.tick raw).m_Decay ≠ .nan ∧ (m.tick raw).m_Decay.lt (.fin 0) = false) ∧
      ((m.tick raw).m_IsStereo = false →
        (m.tick raw).m_LeftDisplayLevel = (m.tick raw).m_RightDisplayLevel) := by
  obtain ⟨hrange, ⟨hnan, hneg⟩, hmono⟩ := h
  refine ⟨fun ch => ?_, ?_, fun hs => ?_⟩
  · unfold tick
    rw [stored_display, stored_output]
    exact smooth_unit _ _ _ (hrange ch)
      (clamp_unit _ (preClamp_ne_nan _ _ _ hraw.1 hraw.2)) hnan hneg
  · unfold tick
    rw [stored_decay]
    exact ⟨hnan, hneg⟩
  · unfold tick at hs ⊢
    rw [stored_stereo] at hs
    have hl := stored_display m raw .left
    have hr := stored_display m raw .right
    rw [stored_output] at hl hr
    simp only [display] at hl hr
    rw [hl, hr, hmono hs, hs]
    rfl

theorem ticks_unit (raws : List (F32 × F32)) (m : VUMeter)
    (hraw : ∀ r ∈ raws, r.1 ≠ .nan ∧ r.2 ≠ .nan)
    (h : (∀ ch, (m.display ch).inUnit = true) ∧
      (m.m_Decay ≠ .nan ∧ m.m_Decay.lt (.fin 0) = false) ∧
      (m.m_IsStereo = false → m.m_LeftDisplayLevel = m.m_RightDisplayLevel)) :
    (∀ ch, ((m.ticks raws).display ch).inUnit = true) ∧
      ((m.ticks raws).m_Decay ≠ .nan ∧ (m.ticks raws).m_Decay.lt (.fin 0) = false) ∧
      ((m.ticks raws).m_IsStereo = false →
        (m.ticks raws).m_LeftDisplayLevel = (m.ticks raws).m_RightDisplayLevel) := by
  induction raws generalizing m with
  | nil => exact h
  | cons raw rest ih =>
    exact ih (m.tick raw) (fun r hr => hraw r (List.mem_cons_of_mem _ hr))
      (tick_unit m raw (hraw raw (List.mem_cons_self _ _)) h)

theorem ticks_keep_stereo (raws : List (F32 × F32)) (m : VUMeter) :
    (m.ticks raws).m_IsStereo = m.m_IsStereo := by
  induction raws generalizing m with
  | nil => rfl
  | cons raw rest ih => exact (ih (m.tick raw)).trans (stored_stereo m raw)

/-- Counterexample for C17: a freshly constructed stereo meter with the decay `0.01f` that is
handed a NaN pair stores the NaN (it passes `std::clamp`); no comparison with it holds, so
the decay branch runs unchecked and both displayed levels become `-0.01f`, and `-0.02f`
after a second such tick: outside `[0, 1]`. -/
theorem nan_breaks_display_range :
    (VUMeter.new (F32.ofRat (1 / 100)) true).m_LeftDisplayLevel = .fin 0 ∧
    (VUMeter.new (F32.ofRat (1 / 100)) true).m_RightDisplayLevel = .fin 0 ∧
    ((VUMeter.new (F32.ofRat (1 / 100)) true).ticks [(.nan, .nan)]).display .left
      = .fin (-(5368709 / 536870912)) ∧
    (((VUMeter.new (F32.ofRat (1 / 100)) true).ticks [(.nan, .nan)]).display .left).inUnit
      = false ∧
    ((VUMeter.new (F32.ofRat (1 / 100)) true).ticks [(.nan, .nan), (.nan, .nan)]).display .left
      = .fin (-(5368709 / 268435456)) := by
  decide!

/-- C17, amended. Starting from a meter whose displayed levels are both `0` (as after
construction or after `StopRenderThread`), with a decay `≥ 0` (a finite value or `+∞`; a
NaN is not `≥ 0`): after every sequence of `GetLevels` ticks whose raw output levels are
not NaN (any finite value and either infinity is allowed) both displayed levels are finite
and lie in `[0, 1]`, in binary32 arithmetic, and in mono mode the left and right displayed
levels are equal. -/
theorem display_levels_in_unit (m : VUMeter) (raws : List (F32 × F32))
    (hL : m.m_LeftDisplayLevel = .fin 0) (hR : m.m_RightDisplayLevel = .fin 0)
    (hdecay : m.m_Decay ≠ .nan) (hnonneg : m.m_Decay.lt (.fin 0) = false)
    (hraw : ∀ r ∈ raws, r.1 ≠ .nan ∧ r.2 ≠ .nan) :
    (∀ ch, ((m.ticks raws).display ch).inUnit = true) ∧
    (m.m_IsStereo = false →
      (m.ticks raws).m_LeftDisplayLevel = (m.ticks raws).m_RightDisplayLevel) := by
  have hinit : (∀ ch, (m.display ch).inUnit = true) ∧
      (m.m_Decay ≠ .nan ∧ m.m_Decay.lt (.fin 0) = false) ∧
      (m.m_IsStereo = false → m.m_LeftDisplayLevel = m.m_RightDisplayLevel) := by
    refine ⟨fun ch => ?_, ⟨hdecay, hnonneg⟩, fun _ => by rw [hL, hR]⟩
    cases ch
    · simp [display, hL, F32.inUnit]
    · simp [display, hR, F32.inUnit]
  have hstereo : (m.ticks raws).m_IsStereo = m.m_IsStereo := ticks_keep_stereo raws m
  have hall := ticks_unit raws m hraw hinit
  exact ⟨hall.1, fun hs => hall.2.2 (by rw [hstereo]; exact hs)⟩

/-- Witness for C17, amended: a fresh mono meter with decay `0.01f` fed `( 2, -1 )`, then
`( +∞, 0 )` and then silence keeps its left level in `[0, 1]` and its two levels equal. -/
theorem display_levels_in_unit_witness :
    (((VUMeter.new (.fin (5368709 / 536870912)) false).ticks
        [(.fin 2, .fin (-1)), (.inf false, .fin 0), silence]).display .left).inUnit = true ∧
    ((VUMeter.new (.fin (5368709 / 536870912)) false).ticks
        [(.fin 2, .fin (-1)), (.inf false, .fin 0), silence]).m_LeftDisplayLevel
      = ((VUMeter.new (.fin (5368709 / 536870912)) false).ticks
        [(.fin 2, .fin (-1)), (.inf false, .fin 0), silence]).m_RightDisplayLevel :=
  ⟨(display_levels_in_unit (VUMeter.new (.fin (5368709 / 536870912)) false)
      [(.fin 2, .fin (-1)), (.inf false, .fin 0), silence] rfl rfl (by decide) (by decide!)
      (by decide)).1 .left,
   (display_levels_in_unit (VUMeter.new (.fin (5368709 / 536870912)) false)
      [(.fin 2, .fin (-1)), (.inf false, .fin 0), silence] rfl rfl (by decide) (by decide!)
      (by decide)).2 rfl⟩

end VUMeter
end Binary32

namespace F32

theorem ofRat_of_bounded (x : ℚ) (B : ℚ) (hB : round B = B) (hBm : B ≤ maxFinite)
    (hx : |x| ≤ B) : ofRat x = fin (round x) ∧ |round x| ≤ B := by
  have hx' := abs_le.1 hx
  have h1 : round x ≤ B := round_le_of_le x B hB hx'.2
  have h2 : -B ≤ round x := le_round_of_le x (-B) (by rw [round_neg, hB]) hx'.1
  refine ⟨?_, abs_le.2 ⟨h2, h1⟩⟩
  unfold ofRat
  simp only
  rw [if_neg (by linarith), if_neg (by linarith)]

theorem round_rel_of_one_le (x : ℚ) (hx : 1 ≤ x) :
    x - x / 2 ^ 24 ≤ round x ∧ round x ≤ x + x / 2 ^ 24 := by
  have habs : |x| = x := abs_of_nonneg (by linarith)
  have h := abs_round_sub_le_rel x (by
    rw [habs]
    exact le_trans (by norm_num [zpow_neg]) hx)
  rw [habs] at h
  have h' := abs_le.1 h
  constructor <;> linarith [h'.1, h'.2]

end F32

namespace Binary32

/-- `AllowSkip` in binary32 agrees with the exact comparison outside a band of relative
width `2 ^ (-21)` around `0.1` s, for counter values that fit 64 bits. -/
theorem AllowSkip_band (perfFreq perfCount last : ℤ) (hf : 0 < perfFreq)
    (hf63 : perfFreq ≤ 2 ^ 63) (hd64 : |perfCount - last| ≤ 2 ^ 64) :
    (perfCount - last < 0 → AllowSkip perfFreq perfCount last = true) ∧
    (1 / 10 * (1 + 1 / 2 ^ 21) ≤ ((perfCount - last : ℤ) : ℚ) / (perfFreq : ℚ) →
      AllowSkip perfFreq perfCount last = true) ∧
    (0 ≤ ((perfCount - last : ℤ) : ℚ) / (perfFreq : ℚ) →
      ((perfCount - last : ℤ) : ℚ) / (perfFreq : ℚ) ≤ 1 / 10 * (1 - 1 / 2 ^ 21) →
      AllowSkip perfFreq perfCount last = false) := by
  have hfq : (0 : ℚ) < (perfFreq : ℚ) := by exact_mod_cast hf
  have hf1 : (1 : ℚ) ≤ (perfFreq : ℚ) := by exact_mod_cast hf
  have hf63q : (perfFreq : ℚ) ≤ 2 ^ 63 := by exact_mod_cast hf63
  have hd64q : |((perfCount - last : ℤ) : ℚ)| ≤ 2 ^ 64 := by
    have : ((|perfCount - last| : ℤ) : ℚ) ≤ ((2 ^ 64 : ℤ) : ℚ) := by exact_mod_cast hd64
    simpa using this
  have r63 : F32.round (2 ^ 63) = 2 ^ 63 := by decide!
  have r64 : F32.round (2 ^ 64) = 2 ^ 64 := by decide!
  have m64 : (2 : ℚ) ^ 64 ≤ F32.maxFinite := by decide!
  -- the two conversions
  set d : ℚ := ((perfCount - last : ℤ) : ℚ) with hd
  set f : ℚ := (perfFreq : ℚ) with hfdef
  obtain ⟨hA, hAb⟩ := F32.ofRat_of_bounded d (2 ^ 64) r64 m64 hd64q
  obtain ⟨hB, hBb⟩ := F32.ofRat_of_bounded f (2 ^ 64) r64 m64
    (by rw [abs_of_pos hfq]; linarith [show (2 : ℚ) ^ 63 ≤ 2 ^ 64 by norm_num])
  have hb1 : (1 : ℚ) ≤ F32.round f := F32.le_round_of_le f 1 F32.round_one hf1
  have hb63 : F32.round f ≤ 2 ^ 63 := F32.round_le_of_le f _ r63 hf63q
  have hbrel := F32.round_rel_of_one_le f hf1
  have hbpos : (0 : ℚ) < F32.round f := by linarith
  have hbne : F32.round f ≠ 0 := ne_of_gt hbpos
  have hdiv : (F32.ofInt (perfCount - last)).div (F32.ofInt perfFreq)
      = F32.ofRat (F32.round d / F32.round f) := by
    unfold F32.ofInt
    rw [hA, hB]
    simp only [F32.div, hbne, if_false]
  have hc : s_SkipLimitInterval = .fin (13421773 / 134217728) := by decide!
  have h0 : F32.ofInt 0 = .fin 0 := by decide!
  have hdef : AllowSkip perfFreq perfCount last
      = ((F32.fin (13421773 / 134217728)).lt (F32.ofRat (F32.round d / F32.round f))
          || (F32.ofRat (F32.round d / F32.round f)).lt (.fin 0)) := by
    unfold AllowSkip
    simp only [hdiv, hc, h0]
  -- the quotient does not overflow
  have hquot : |F32.round d / F32.round f| ≤ 2 ^ 64 := by
    rw [abs_div, abs_of_pos hbpos, div_le_iff₀ hbpos]
    calc |F32.round d| ≤ 2 ^ 64 := hAb
      _ ≤ 2 ^ 64 * F32.round f := by nlinarith
  obtain ⟨hQ, _⟩ := F32.ofRat_of_bounded _ (2 ^ 64) r64 m64 hquot
  rw [hQ] at hdef
  refine ⟨fun hneg => ?_, fun hhi => ?_, fun hnn hlo => ?_⟩
  · -- negative elapsed time
    have hd1 : d ≤ -1 := by
      have : perfCount - last ≤ -1 := by omega
      have : ((perfCount - last : ℤ) : ℚ) ≤ ((-1 : ℤ) : ℚ) := by exact_mod_cast this
      simpa [hd] using this
    have ha : F32.round d ≤ -1 :=
      F32.round_le_of_le d (-1) (by rw [F32.round_neg, F32.round_one]) hd1
    have hq : F32.round d / F32.round f ≤ -(1 / 2 ^ 63) := by
      rw [div_le_iff₀ hbpos]
      nlinarith
    have hr : F32.round (F32.round d / F32.round f) ≤ -(1 / 2 ^ 63) :=
      F32.round_le_of_le _ _ (by decide!) hq
    rw [hdef]
    have hlt : F32.round (F32.round d / F32.round f) < 0 := by
      have : (0 : ℚ) < 1 / 2 ^ 63 := by positivity
      linarith
    simp [F32.lt, hlt]
  · -- clearly above the limit
    have hdpos : 0 < d := by
      have : 0 < d / f := lt_of_lt_of_le (by norm_num) hhi
      exact (div_pos_iff_of_pos_right hfq).1 this
    have hd1 : 1 ≤ d := by
      have : (0 : ℤ) < perfCount - last := by
        have : ((0 : ℤ) : ℚ) < ((perfCount - last : ℤ) : ℚ) := by simpa [hd] using hdpos
        exact_mod_cast this
      have : (1 : ℤ) ≤ perfCount - last := by omega
      have : ((1 : ℤ) : ℚ) ≤ ((perfCount - last : ℤ) : ℚ) := by exact_mod_cast this
      simpa [hd] using this
    have harel := F32.round_rel_of_one_le d hd1
    have hdf : 1 / 10 * (1 + 1 / 2 ^ 21) * f ≤ d := by
      rwa [le_div_iff₀ hfq] at hhi
    have hq : (13421774 / 134217728 : ℚ) ≤ F32.round d / F32.round f := by
      rw [le_div_iff₀ hbpos]
      norm_num at harel hbrel hdf ⊢
      linarith [harel.1, hbrel.2]
    have hr : (13421774 / 134217728 : ℚ) ≤ F32.round (F32.round d / F32.round f) :=
      F32.le_round_of_le _ _ (by decide!) hq
    rw [hdef]
    have hlt : (13421773 / 134217728 : ℚ) < F32.round (F32.round d / F32.round f) := by
      have : (13421773 / 134217728 : ℚ) < 13421774 / 134217728 := by norm_num
      linarith
    simp [F32.lt, hlt]
  · -- clearly within the limit
    have hd0 : 0 ≤ d := by
      by_contra hcon
      have : d / f < 0 := div_neg_of_neg_of_pos (lt_of_not_le hcon) hfq
      linarith
    have hdf : d ≤ 1 / 10 * (1 - 1 / 2 ^ 21) * f := by
      rwa [div_le_iff₀ hfq] at hlo
    have ha0 : 0 ≤ F32.round d := F32.round_nonneg d hd0
    have haup : F32.round d ≤ d + d / 2 ^ 24 := by
      by_cases hz : d = 0
      · rw [hz, F32.round_zero]; norm_num
      · have hdpos : 0 < d := lt_of_le_of_ne hd0 (Ne.symm hz)
        have : (0 : ℤ) < perfCount - last := by
          have : ((0 : ℤ) : ℚ) < ((perfCount - last : ℤ) : ℚ) := by simpa [hd] using hdpos
          exact_mod_cast this
        have : (1 : ℤ) ≤ perfCount - last := by omega
        have : ((1 : ℤ) : ℚ) ≤ ((perfCount - last : ℤ) : ℚ) := by exact_mod_cast this
        exact (F32.round_rel_of_one_le d (by simpa [hd] using this)).2
    have hq : F32.round d / F32.round f ≤ 13421773 / 134217728 := by
      rw [div_le_iff₀ hbpos]
      norm_num at haup hbrel hdf ⊢
      linarith [hbrel.1]
    have hq0 : 0 ≤ F32.round d / F32.round f := div_nonneg ha0 hbpos.le
    have hr : F32.round (F32.round d / F32.round f) ≤ 13421773 / 134217728 :=
      F32.round_le_of_le _ _ (by decide!) hq
    have hr0 := F32.round_nonneg _ hq0
    rw [hdef]
    simp [F32.lt, not_lt.mpr hr, not_lt.mpr hr0]

end Binary32

namespace F32

/-- Absolute rounding error of a value of magnitude at most `2 ^ k`. -/
theorem abs_round_sub_le_pow (x : ℚ) (k : ℤ) (hk : -126 ≤ k) (hx : |x| ≤ (2 : ℚ) ^ k) :
    |round x - x| ≤ (2 : ℚ) ^ (k - 24) := by
  by_cases hx0 : x = 0
  · subst hx0
    rw [round_zero]
    simp
    positivity
  · have hexp : exponent x ≤ k := by
      by_cases he : exponent x = -126
      · omega
      · have hlo := zpow_exponent_le_of_ne x hx0 he
        exact (zpow_le_zpow_iff_right₀ (by norm_num : (1 : ℚ) < 2)).1 (le_trans hlo hx)
    have h := abs_round_sub_le x
    have hu : ulp x ≤ (2 : ℚ) ^ (k - 23) := by
      unfold ulp
      exact zpow_le_zpow_right₀ (by norm_num) (by omega)
    have h2 : (2 : ℚ) ^ (k - 23) / 2 = (2 : ℚ) ^ (k - 24) := by
      have : k - 23 = (k - 24) + 1 := by ring
      rw [this, zpow_add_one₀ (by norm_num : (2 : ℚ) ≠ 0)]
      ring
    calc |round x - x| ≤ ulp x / 2 := h
      _ ≤ (2 : ℚ) ^ (k - 23) / 2 := div_le_div_of_nonneg_right hu (by norm_num)
      _ = (2 : ℚ) ^ (k - 24) := h2

end F32

namespace Binary32

/-- The rescaled pitch in binary32 stays within `2 ^ (-19)` of the exact one, for a pitch
in `[0, 2]` and a range factor that grows at most fourfold. -/
theorem rescale_error (p a b : ℚ) (hp0 : 0 ≤ p) (hp2 : p ≤ 2) (ha : 0 < a) (hb : 0 < b)
    (hba : b ≤ 4 * a) :
    ∃ q, (F32.fin 1).add (((F32.fin p).sub (.fin 1)).mul ((F32.fin b).div (.fin a))) = .fin q ∧
      |q - (1 + (p - 1) * (b / a))| ≤ 1 / 2 ^ 19 := by
  have r1 : F32.round 1 = 1 := F32.round_one
  have r4 : F32.round 4 = 4 := by decide!
  have r8 : F32.round 8 = 8 := by decide!
  have m1 : (1 : ℚ) ≤ F32.maxFinite := F32.maxFinite_ge_one
  have m4 : (4 : ℚ) ≤ F32.maxFinite := by decide!
  have m8 : (8 : ℚ) ≤ F32.maxFinite := by decide!
  -- p - 1
  have hx1 : |p - 1| ≤ 1 := abs_le.2 ⟨by linarith, by linarith⟩
  obtain ⟨e1, b1⟩ := F32.ofRat_of_bounded (p - 1) 1 r1 m1 hx1
  have err1 := F32.abs_round_sub_le_unit (p - 1) hx1
  -- b / a
  have hr0 : 0 < b / a := div_pos hb ha
  have hr4 : b / a ≤ 4 := by rw [div_le_iff₀ ha]; exact hba
  have hx2 : |b / a| ≤ 4 := by rw [abs_of_pos hr0]; exact hr4
  obtain ⟨e2, b2⟩ := F32.ofRat_of_bounded (b / a) 4 r4 m4 hx2
  have err2 := F32.abs_round_sub_le_pow (b / a) 2 (by norm_num) (by norm_num; exact hx2)
  -- the product
  have hx3 : |F32.round (p - 1) * F32.round (b / a)| ≤ 4 := by
    rw [abs_mul]
    calc |F32.round (p - 1)| * |F32.round (b / a)| ≤ 1 * 4 :=
          mul_le_mul b1 b2 (abs_nonneg _) (by norm_num)
      _ = 4 := by norm_num
  obtain ⟨e3, b3⟩ := F32.ofRat_of_bounded _ 4 r4 m4 hx3
  have err3 := F32.abs_round_sub_le_pow _ 2 (by norm_num) (by norm_num; exact hx3)
  -- the sum
  have hx4 : |1 + F32.round (F32.round (p - 1) * F32.round (b / a))| ≤ 8 := by
    have := abs_le.1 b3
    exact abs_le.2 ⟨by linarith [this.1], by linarith [this.2]⟩
  obtain ⟨e4, _⟩ := F32.ofRat_of_bounded _ 8 r8 m8 hx4
  have err4 := F32.abs_round_sub_le_pow _ 3 (by norm_num) (by norm_num; exact hx4)
  refine ⟨F32.round (1 + F32.round (F32.round (p - 1) * F32.round (b / a))), ?_, ?_⟩
  · have hsub : (F32.fin p).sub (.fin 1) = .fin (F32.round (p - 1)) := by
      simp only [F32.sub, F32.neg, F32.add, ← sub_eq_add_neg]
      exact e1
    have hdiv : (F32.fin b).div (.fin a) = .fin (F32.round (b / a)) := by
      simp only [F32.div, ne_of_gt ha, if_false]
      exact e2
    rw [hsub, hdiv]
    simp only [F32.mul]
    rw [e3]
    simp only [F32.add]
    exact e4
  · -- collect the four rounding errors
    set t1 := F32.round (p - 1) with ht1
    set t2 := F32.round (b / a) with ht2
    set t3 := F32.round (t1 * t2) with ht3
    set q := F32.round (1 + t3) with hq
    have hprod : |t1 * t2 - (p - 1) * (b / a)| ≤ 1 / 2 ^ 22 + 4 * (1 / 2 ^ 25) := by
      have hsplit : t1 * t2 - (p - 1) * (b / a)
          = t1 * (t2 - b / a) + (b / a) * (t1 - (p - 1)) := by ring
      rw [hsplit]
      have hA : |t1 * (t2 - b / a)| ≤ 1 * (1 / 2 ^ 22) := by
        rw [abs_mul]
        exact mul_le_mul b1 (by norm_num [zpow_neg] at err2; linarith) (abs_nonneg _)
          (by norm_num)
      have hB : |(b / a) * (t1 - (p - 1))| ≤ 4 * (1 / 2 ^ 25) := by
        rw [abs_mul]
        exact mul_le_mul hx2 err1 (abs_nonneg _) (by norm_num)
      calc |t1 * (t2 - b / a) + (b / a) * (t1 - (p - 1))|
          ≤ |t1 * (t2 - b / a)| + |(b / a) * (t1 - (p - 1))| := abs_add _ _
        _ ≤ 1 / 2 ^ 22 + 4 * (1 / 2 ^ 25) := by linarith
    have h3 : |t3 - t1 * t2| ≤ 1 / 2 ^ 22 := by
      norm_num [zpow_neg] at err3
      linarith
    have h4 : |q - (1 + t3)| ≤ 1 / 2 ^ 21 := by
      norm_num [zpow_neg] at err4
      linarith
    have hsplit : q - (1 + (p - 1) * (b / a))
        = (q - (1 + t3)) + (t3 - t1 * t2) + (t1 * t2 - (p - 1) * (b / a)) := by ring
    rw [hsplit]
    calc |(q - (1 + t3)) + (t3 - t1 * t2) + (t1 * t2 - (p - 1) * (b / a))|
        ≤ |(q - (1 + t3)) + (t3 - t1 * t2)| + |t1 * t2 - (p - 1) * (b / a)| := abs_add _ _
      _ ≤ |q - (1 + t3)| + |t3 - t1 * t2| + |t1 * t2 - (p - 1) * (b / a)| := by
          linarith [abs_add (q - (1 + t3)) (t3 - t1 * t2)]
      _ ≤ 1 / 2 ^ 19 := by
          norm_num at hprod h3 h4 ⊢
          linarith

theorem OnSkipCommand_back (last : ℤ) (env : SkipEnv)
    (ha : AllowSkip env.perfFreq env.perfCount last = true) :
    OnSkipCommand .ID_CONTROL_SKIPBACKWARDS last env =
      ((if env.state = .Playing ∨ env.state = .Paused then
          if (env.item.Position.sub (F32.ofRat 5)).lt (.fin 0)
            then [SkipCall.Output_Previous true (.fin (-5))]
          else [SkipCall.Output_Play env.item.ID (env.item.Position.sub (F32.ofRat 5))]
        else []), env.resetCount) := by
  have h0 : F32.ofInt 0 = .fin 0 := by decide!
  have h5 : s_SkipDuration.neg = .fin (-5) := by decide!
  simp only [OnSkipCommand, ha, if_true, h0, h5]
  rfl

theorem OnSkipCommand_forth (last : ℤ) (env : SkipEnv)
    (ha : AllowSkip env.perfFreq env.perfCount last = true) :
    OnSkipCommand .ID_CONTROL_SKIPFORWARDS last env =
      ((if env.state = .Playing ∨ env.state = .Paused then
          if env.item.Duration.lt (env.item.Position.add (F32.ofRat 5)) then [SkipCall.Output_Next]
          else [SkipCall.Output_Play env.item.ID (env.item.Position.add (F32.ofRat 5))]
        else []), env.resetCount) := by
  simp only [OnSkipCommand, ha, if_true]
  rfl

theorem OnSkipCommand_held (commandID : SkipCommand) (last : ℤ) (env : SkipEnv)
    (ha : AllowSkip env.perfFreq env.perfCount last = false) :
    OnSkipCommand commandID last env = ([], last) := by
  cases commandID <;> simp [OnSkipCommand, ha]

theorem five_eq : F32.ofRat 5 = .fin 5 := by decide!

theorem add_five (p : ℚ) : (F32.fin p).add (F32.ofRat 5) = F32.ofRat (p + 5) := by
  rw [five_eq]
  rfl

theorem sub_five (p : ℚ) : (F32.fin p).sub (F32.ofRat 5) = F32.ofRat (p - 5) := by
  rw [five_eq]
  simp only [F32.sub, F32.neg, F32.add, sub_eq_add_neg]

/-- The forward position is either beyond the duration or a finite value in `[0, D]`. -/
theorem forward_position (p D : ℚ) (hp : 0 ≤ p) :
    (F32.fin D).lt (F32.ofRat (p + 5)) = true ∨
      ∃ q, F32.ofRat (p + 5) = .fin q ∧ 0 ≤ q ∧ q ≤ D := by
  have hr := F32.round_nonneg (p + 5) (by linarith)
  have hm := F32.maxFinite_ge_one
  unfold F32.ofRat
  simp only
  by_cases hover : F32.maxFinite < F32.round (p + 5)
  · left
    simp [hover, F32.lt]
  · rw [if_neg hover, if_neg (by linarith)]
    by_cases hlt : D < F32.round (p + 5)
    · left
      simp [F32.lt, hlt]
    · right
      exact ⟨_, rfl, hr, not_lt.mp hlt⟩

/-- The backward position is either below zero or a finite value in `[0, p]`. -/
theorem backward_position (p : ℚ) (hrep : F32.representable p = true) :
    (F32.ofRat (p - 5)).lt (.fin 0) = true ∨
      ∃ q, F32.ofRat (p - 5) = .fin q ∧ 0 ≤ q ∧ q ≤ p := by
  have hrep2 : F32.round p = p ∧ |p| ≤ F32.maxFinite := by
    simpa [F32.representable] using hrep
  have hr : F32.round (p - 5) ≤ p := F32.round_le_of_le _ _ hrep2.1 (by linarith)
  have hpm : p ≤ F32.maxFinite := le_trans (le_abs_self p) hrep2.2
  unfold F32.ofRat
  simp only
  rw [if_neg (by linarith)]
  by_cases hunder : F32.round (p - 5) < -F32.maxFinite
  · left
    simp [hunder, F32.lt]
  · rw [if_neg hunder]
    by_cases hlt : F32.round (p - 5) < 0
    · left
      simp [F32.lt, hlt]
    · right
      exact ⟨_, rfl, not_lt.mp hlt, hr⟩

/-- Counterexample for C11: playing item `3` of duration `32` at the position `27 + 2 ^ (-19)`,
a binary32 value within `[0, D]`, with the skip allowed.  The sum `p + 5` is
`32 + 2 ^ (-19)`, strictly above the duration, but in binary32 it rounds to `32`, which is
not above the duration: skip-forward calls `Play( 3, 32 )` and does not call `Next()`. -/
theorem skip_forward_rounds_into_item :
    F32.representable (14155777 / 524288) = true ∧
    (0 : ℚ) ≤ 14155777 / 524288 ∧ (14155777 / 524288 : ℚ) ≤ 32 ∧
    ¬ ((14155777 / 524288 : ℚ) + 5 ≤ 32) ∧
    AllowSkip 1000 500 0 = true ∧
    (OnSkipCommand .ID_CONTROL_SKIPFORWARDS 0
      { SkipEnv.sample with
        item := { ID := 3, Duration := .fin 32, Position := .fin (14155777 / 524288) } }).1
      = [.Output_Play 3 (.fin 32)] ∧
    SkipCall.Output_Next ∉ (OnSkipCommand .ID_CONTROL_SKIPFORWARDS 0
      { SkipEnv.sample with
        item := { ID := 3, Duration := .fin 32, Position := .fin (14155777 / 524288) } }).1 := by
  decide!

/-- C11, amended. For a current item with position `p` and duration `D`, `0 ≤ p ≤ D`, `p` a
finite binary32 value: every `Play( id, position )` call a skip command makes has the
current item's ID and a finite `position` with `0 ≤ position ≤ D`; no call is made on the
output unless the state is Playing or Paused; and when the command acts (the skip is
allowed and the state is Playing or Paused) skip-forward computes `position = fl (p + 5)`
in binary32 and calls `Next()` if `position > D` and `Play( id, position )` otherwise,
while skip-backward computes `position = fl (p - 5)` and calls `Previous( true, -5 )` if
`position < 0` and `Play( id, position )` otherwise. -/
theorem skip_stays_in_item (last : ℤ) (env : SkipEnv) (p D : ℚ)
    (hpos : env.item.Position = .fin p) (hdur : env.item.Duration = .fin D)
    (hp : 0 ≤ p) (hD : p ≤ D) (hrep : F32.representable p = true) :
    (∀ commandID itemID position,
      SkipCall.Output_Play itemID position ∈ (OnSkipCommand commandID last env).1 →
        itemID = env.item.ID ∧ ∃ q, position = .fin q ∧ 0 ≤ q ∧ q ≤ D) ∧
    (∀ commandID, env.state ≠ .Playing → env.state ≠ .Paused →
      (OnSkipCommand commandID last env).1 = []) ∧
    (AllowSkip env.perfFreq env.perfCount last = true →
      (env.state = .Playing ∨ env.state = .Paused) →
      (OnSkipCommand .ID_CONTROL_SKIPFORWARDS last env).1 =
          (if (F32.fin D).lt (F32.ofRat (p + 5)) then [.Output_Next]
            else [.Output_Play env.item.ID (F32.ofRat (p + 5))]) ∧
      (OnSkipCommand .ID_CONTROL_SKIPBACKWARDS last env).1 =
          (if (F32.ofRat (p - 5)).lt (.fin 0) then [.Output_Previous true (.fin (-5))]
            else [.Output_Play env.item.ID (F32.ofRat (p - 5))])) := by
  have hfor : ∀ ha : AllowSkip env.perfFreq env.perfCount last = true,
      (env.state = .Playing ∨ env.state = .Paused) →
      (OnSkipCommand .ID_CONTROL_SKIPFORWARDS last env).1 =
          (if (F32.fin D).lt (F32.ofRat (p + 5)) then [.Output_Next]
            else [.Output_Play env.item.ID (F32.ofRat (p + 5))]) := by
    intro ha hs
    rw [OnSkipCommand_forth last env ha, hpos, hdur, add_five]
    simp only [if_pos hs]
  have hback : ∀ ha : AllowSkip env.perfFreq env.perfCount last = true,
      (env.state = .Playing ∨ env.state = .Paused) →
      (OnSkipCommand .ID_CONTROL_SKIPBACKWARDS last env).1 =
          (if (F32.ofRat (p - 5)).lt (.fin 0) then [.Output_Previous true (.fin (-5))]
            else [.Output_Play env.item.ID (F32.ofRat (p - 5))]) := by
    intro ha hs
    rw [OnSkipCommand_back last env ha, hpos, sub_five]
    simp only [if_pos hs]
  have hidle : ∀ commandID, ¬ (env.state = .Playing ∨ env.state = .Paused) →
      (OnSkipCommand commandID last env).1 = [] := by
    intro commandID hs
    cases hallow : AllowSkip env.perfFreq env.perfCount last with
    | false => rw [OnSkipCommand_held commandID last env hallow]
    | true =>
      cases commandID with
      | ID_CONTROL_SKIPBACKWARDS =>
        rw [OnSkipCommand_back last env hallow]
        simp only [if_neg hs]
      | ID_CONTROL_SKIPFORWARDS =>
        rw [OnSkipCommand_forth last env hallow]
        simp only [if_neg hs]
  refine ⟨fun commandID itemID position hmem => ?_, fun commandID h1 h2 => ?_,
    fun ha hs => ⟨hfor ha hs, hback ha hs⟩⟩
  · cases hallow : AllowSkip env.perfFreq env.perfCount last with
    | false =>
      rw [OnSkipCommand_held commandID last env hallow] at hmem
      simp at hmem
    | true =>
      by_cases hs : env.state = .Playing ∨ env.state = .Paused
      · cases commandID with
        | ID_CONTROL_SKIPBACKWARDS =>
          rw [hback hallow hs] at hmem
          rcases backward_position p hrep with hneg | ⟨q, hq, hq0, hqp⟩
          · simp [hneg] at hmem
          · by_cases hlt : (F32.ofRat (p - 5)).lt (.fin 0) = true
            · simp [hlt] at hmem
            · simp only [hlt, if_false, List.mem_singleton, SkipCall.Output_Play.injEq,
                Bool.false_eq_true] at hmem
              obtain ⟨rfl, rfl⟩ := hmem
              exact ⟨rfl, q, hq, hq0, by linarith⟩
        | ID_CONTROL_SKIPFORWARDS =>
          rw [hfor hallow hs] at hmem
          rcases forward_position p D hp with hover | ⟨q, hq, hq0, hqD⟩
          · simp [hover] at hmem
          · by_cases hlt : (F32.fin D).lt (F32.ofRat (p + 5)) = true
            · simp [hlt] at hmem
            · simp only [hlt, if_false, List.mem_singleton, SkipCall.Output_Play.injEq,
                Bool.false_eq_true] at hmem
              obtain ⟨rfl, rfl⟩ := hmem
              exact ⟨rfl, q, hq, hq0, hqD⟩
      · rw [hidle commandID hs] at hmem
        simp at hmem
  · exact hidle commandID (by simp [h1, h2])

/-- Witness for C11, amended: playing item `3` of duration `60` at position `7`, skip-forward
calls `Play( 3, 12 )` and skip-backward calls `Play( 3, 2 )`. -/
theorem skip_stays_in_item_witness :
    (OnSkipCommand .ID_CONTROL_SKIPFORWARDS 0 SkipEnv.sample).1 = [.Output_Play 3 (.fin 12)] ∧
    (OnSkipCommand .ID_CONTROL_SKIPBACKWARDS 0 SkipEnv.sample).1 = [.Output_Play 3 (.fin 2)] := by
  have h := (skip_stays_in_item 0 SkipEnv.sample 7 60 rfl rfl (by norm_num) (by norm_num)
    (by decide!)).2.2 (by decide!) (Or.inl rfl)
  exact ⟨h.1.trans (by decide!), h.2.trans (by decide!)⟩

/-- Counterexample for C20: with a counter frequency of `10 ^ 9` ticks per second, `100000001`
ticks after the last recorded skip the elapsed time is `0.100000001` s, strictly greater
than `0.1` s, but `static_cast<float>` rounds the count to `10 ^ 8`, the quotient is
`0.1f`, which is not above `0.1f`: `AllowSkip` returns false and the skip command is
dropped. -/
theorem skip_refused_above_limit :
    ((100000001 - 0 : ℤ) : ℚ) / ((1000000000 : ℤ) : ℚ) > 1 / 10 ∧
    F32.ofInt (100000001 - 0) = .fin 100000000 ∧
    (F32.ofInt (100000001 - 0)).div (F32.ofInt 1000000000) = F32.ofRat (1 / 10) ∧
    AllowSkip 1000000000 100000001 0 = false ∧
    OnSkipCommand .ID_CONTROL_SKIPFORWARDS 0
      { SkipEnv.sample with perfFreq := 1000000000, perfCount := 100000001 } = ([], 0) := by
  decide!

/-- C20, amended. `AllowSkip` returns true exactly when the binary32 quotient of the count
elapsed since the last recorded skip, converted to `float`, by the counter frequency is
strictly greater than `0.1f` or negative; a skip command that `AllowSkip` refuses makes no
call on the output and leaves `m_LastSkipCount` as it was.  For a positive frequency and
counts that fit 64 bits, `AllowSkip` returns true whenever the elapsed time
`(perfCount - m_LastSkipCount) / perfFreq` is negative or at least `0.1 * (1 + 2 ^ (-21))`
s, and false whenever it lies between `0` and `0.1 * (1 - 2 ^ (-21))` s.  In exact
arithmetic (`VUPlayer.AllowSkip` over the rationals) with a positive frequency, `AllowSkip`
returns true exactly when the elapsed time is strictly greater than `0.1` s or negative,
and an elapsed time of exactly `0.1` s is refused. -/
theorem skip_limit (last : ℤ) (env : SkipEnv) :
    (AllowSkip env.perfFreq env.perfCount last = true ↔
      (F32.ofRat (1 / 10)).lt
          ((F32.ofInt (env.perfCount - last)).div (F32.ofInt env.perfFreq)) = true ∨
      ((F32.ofInt (env.perfCount - last)).div (F32.ofInt env.perfFreq)).lt (.fin 0) = true) ∧
    (AllowSkip env.perfFreq env.perfCount last = false →
      ∀ commandID, OnSkipCommand commandID last env = ([], last)) ∧
    (0 < env.perfFreq → env.perfFreq ≤ 2 ^ 63 → |env.perfCount - last| ≤ 2 ^ 64 →
      (env.perfCount - last < 0 → AllowSkip env.perfFreq env.perfCount last = true) ∧
      (1 / 10 * (1 + 1 / 2 ^ 21) ≤ ((env.perfCount - last : ℤ) : ℚ) / (env.perfFreq : ℚ) →
        AllowSkip env.perfFreq env.perfCount last = true) ∧
      (0 ≤ ((env.perfCount - last : ℤ) : ℚ) / (env.perfFreq : ℚ) →
        ((env.perfCount - last : ℤ) : ℚ) / (env.perfFreq : ℚ)
          ≤ 1 / 10 * (1 - 1 / 2 ^ 21) →
        AllowSkip env.perfFreq env.perfCount last = false)) ∧
    (0 < env.perfFreq →
      (VUPlayer.AllowSkip env.perfFreq env.perfCount last = true ↔
        ((env.perfCount - last : ℤ) : ℚ) / (env.perfFreq : ℚ) > 1 / 10 ∨
        ((env.perfCount - last : ℤ) : ℚ) / (env.perfFreq : ℚ) < 0) ∧
      (((env.perfCount - last : ℤ) : ℚ) / (env.perfFreq : ℚ) = 1 / 10 →
        VUPlayer.AllowSkip env.perfFreq env.perfCount last = false)) := by
  have h0 : F32.ofInt 0 = .fin 0 := by decide!
  refine ⟨?_, fun h commandID => OnSkipCommand_held commandID last env h,
    fun hfreq h63 h64 => AllowSkip_band env.perfFreq env.perfCount last hfreq h63 h64,
    fun hfreq => ?_⟩
  · simp only [AllowSkip, s_SkipLimitInterval, h0, Bool.or_eq_true]
  · have h := VUPlayer.AllowSkip_exact env.perfFreq env.perfCount last hfreq
    exact ⟨h.1, h.2.2⟩

/-- Witness for C20, amended: at `1000` ticks per second a skip `100` ticks after the last one
is refused and changes nothing, while one `101` ticks after it is allowed. -/
theorem skip_limit_witness :
    OnSkipCommand .ID_CONTROL_SKIPFORWARDS 0 { SkipEnv.sample with perfCount := 100 }
      = ([], 0) ∧
    AllowSkip 1000 101 0 = true :=
  ⟨(skip_limit 0 { SkipEnv.sample with perfCount := 100 }).2.1 (by decide!)
      .ID_CONTROL_SKIPFORWARDS,
   (skip_limit 0 { SkipEnv.sample with perfCount := 101 }).1.mpr (Or.inl (by decide!))⟩

/-- Counterexample for C9: with the range factors `30` (large, active) and `10` (small) and the
pitch `1.25`, selecting the small range passes `9087659 / 8388608` to `SetPitch`, for which
`(p' - 1) * 30` is not `(1.25 - 1) * 10`; and at the pitch `1 + 2 ^ (-23)`, which is not
`1.0`, it passes exactly `1.0`. -/
theorem pitch_rescale_rounds :
    OnCommand .ID_CONTROL_PITCHRANGE_SMALL Env.sample
      = [.Settings_SetPitchRange .Small, .Output_SetPitch (.fin (9087659 / 8388608))] ∧
    ((9087659 / 8388608 : ℚ) - 1) * 30 ≠ (5 / 4 - 1) * 10 ∧
    F32.representable (8388609 / 8388608) = true ∧
    OnCommand .ID_CONTROL_PITCHRANGE_SMALL
        { Env.sample with pitch := .fin (8388609 / 8388608) }
      = [.Settings_SetPitchRange .Small, .Output_SetPitch (.fin 1)] ∧
    ((1 : ℚ) - 1) * 30 ≠ (8388609 / 8388608 - 1) * 10 := by
  decide!

/-- C9, amended. Selecting the pitch range `r` through its command: when `r` is already the
active range no call is made; when `r` differs and the current pitch is exactly `1.0` only
the setting is stored and `SetPitch` is not called; when `r` differs, the pitch `p` is not
`1.0` and both range factors are positive, the setting is stored and `SetPitch` is called
with `1.0f + ( p - 1.0f ) * ( newRange / oldRange )` computed in binary32, each of the four
operations rounded to nearest; for a pitch in `[0, 2]` and `newRange ≤ 4 * oldRange` the
pitch `p'` passed is finite and `(p' - 1) * oldRange` differs from `(p - 1) * newRange` by
at most `oldRange * 2 ^ (-19)`.  In exact arithmetic (`VUPlayer.OnCommand` over the
rationals) the pitch `p'` passed satisfies `(p' - 1) * oldRange = (p - 1) * newRange`. -/
theorem pitch_range_rescale (env : Env) (r : Settings.PitchRange) :
    (r = env.pitchRange → OnCommand (pitchRangeCommand r) env = []) ∧
    (r ≠ env.pitchRange → env.pitch = .fin 1 →
      OnCommand (pitchRangeCommand r) env = [.Settings_SetPitchRange r]) ∧
    (r ≠ env.pitchRange → env.pitch.ne (.fin 1) = true →
      (F32.fin 0).lt (env.pitchRangeOptions env.pitchRange) = true →
      (F32.fin 0).lt (env.pitchRangeOptions r) = true →
      OnCommand (pitchRangeCommand r) env
        = [.Settings_SetPitchRange r,
            .Output_SetPitch ((F32.fin 1).add ((env.pitch.sub (.fin 1)).mul
              ((env.pitchRangeOptions r).div (env.pitchRangeOptions env.pitchRange))))]) ∧
    (r ≠ env.pitchRange → ∀ p a b : ℚ, env.pitch = .fin p → p ≠ 1 → 0 ≤ p → p ≤ 2 →
      env.pitchRangeOptions env.pitchRange = .fin a → env.pitchRangeOptions r = .fin b →
      0 < a → 0 < b → b ≤ 4 * a →
      ∃ p', OnCommand (pitchRangeCommand r) env
          = [.Settings_SetPitchRange r, .Output_SetPitch (.fin p')] ∧
        |(p' - 1) * a - (p - 1) * b| ≤ a / 2 ^ 19) ∧
    (∀ e : VUPlayer.Env, r ≠ e.pitchRange → e.pitch ≠ 1 →
      0 < e.pitchRangeOptions e.pitchRange → 0 < e.pitchRangeOptions r →
      ∃ p', VUPlayer.OnCommand (pitchRangeCommand r) e
          = [.Settings_SetPitchRange r, .Output_SetPitch p'] ∧
        (p' - 1) * e.pitchRangeOptions e.pitchRange = (e.pitch - 1) * e.pitchRangeOptions r) := by
  have h0 : F32.ofInt 0 = .fin 0 := by decide!
  have h1 : F32.ofRat 1 = .fin 1 := by decide!
  have hform : r ≠ env.pitchRange → env.pitch.ne (.fin 1) = true →
      (F32.fin 0).lt (env.pitchRangeOptions env.pitchRange) = true →
      (F32.fin 0).lt (env.pitchRangeOptions r) = true →
      OnCommand (pitchRangeCommand r) env
        = [.Settings_SetPitchRange r,
            .Output_SetPitch ((F32.fin 1).add ((env.pitch.sub (.fin 1)).mul
              ((env.pitchRangeOptions r).div (env.pitchRangeOptions env.pitchRange))))] := by
    intro h hp hold hnew
    cases r <;> simp [pitchRangeCommand, OnCommand, h, hp, hold, hnew, h0, h1]
  refine ⟨fun h => ?_, fun h hp => ?_, hform,
    fun h p a b hp hp1 hp0 hp2 hold hnew ha hb hba => ?_, fun e h hp hold hnew => ?_⟩
  · cases r <;> simp [pitchRangeCommand, OnCommand, ← h]
  · cases r <;> simp [pitchRangeCommand, OnCommand, h, hp, h1, F32.ne]
  · obtain ⟨q, hq, herr⟩ := rescale_error p a b hp0 hp2 ha hb hba
    refine ⟨q, ?_, ?_⟩
    · rw [hform h (by simp [hp, F32.ne, hp1]) (by simp [hold, F32.lt, ha])
        (by simp [hnew, F32.lt, hb]), hp, hold, hnew, hq]
    · have hrew : (q - 1) * a - (p - 1) * b = a * (q - (1 + (p - 1) * (b / a))) := by
        field_simp
        ring
      rw [hrew, abs_mul, abs_of_pos ha]
      calc a * |q - (1 + (p - 1) * (b / a))| ≤ a * (1 / 2 ^ 19) :=
            mul_le_mul_of_nonneg_left herr ha.le
        _ = a / 2 ^ 19 := by ring
  · exact (VUPlayer.pitch_range_change e r).2.2 h hp hold hnew

/-- Witness for C9, amended: with the factors `30` (large, active) and `20` (medium) and the
pitch `1.25`, selecting the medium range calls `SetPitch` with `1 + 0.25 * fl (20 / 30)`,
which is `9786709 / 8388608`; selecting the large range makes no call; at the pitch `1.0`
selecting the medium range only stores the setting. -/
theorem pitch_range_rescale_witness :
    OnCommand .ID_CONTROL_PITCHRANGE_MEDIUM Env.sample
      = [.Settings_SetPitchRange .Medium, .Output_SetPitch (.fin (9786709 / 8388608))] ∧
    OnCommand .ID_CONTROL_PITCHRANGE_LARGE Env.sample = [] ∧
    OnCommand .ID_CONTROL_PITCHRANGE_MEDIUM { Env.sample with pitch := .fin 1 }
      = [.Settings_SetPitchRange .Medium] :=
  ⟨((pitch_range_rescale Env.sample .Medium).2.2.1 (by decide) (by decide!) (by decide!)
      (by decide!)).trans (by decide!),
   (pitch_range_rescale Env.sample .Large).1 rfl,
   (pitch_range_rescale { Env.sample with pitch := .fin 1 } .Medium).2.1 (by decide) rfl⟩

/-- The two readings of `GetPinPosition` with `VU_PINCOUNT = 100`: they agree on the level
`0.2` / `0.2f` (pin 20) and on the levels `0` and `1`; at the level `0.015f` the binary32
product rounds up to `1.5`, giving pin 2, where the unrounded sum gives pin 1. -/
theorem GetPinPosition_readings :
    GetPinPosition 100 (F32.ofRat (1 / 5)) = some 20 ∧
    VUPlayer.VUMeter.Full.GetPinPosition 100 (1 / 5) = 20 ∧
    GetPinPosition 100 (.fin 0) = some 0 ∧
    VUPlayer.VUMeter.Full.GetPinPosition 100 0 = 0 ∧
    GetPinPosition 100 (.fin 1) = some 100 ∧
    VUPlayer.VUMeter.Full.GetPinPosition 100 1 = 100 ∧
    F32.ofRat (3 / 200) = .fin (16106127 / 1073741824) ∧
    GetPinPosition 100 (F32.ofRat (3 / 200)) = some 2 ∧
    VUPlayer.VUMeter.Full.GetPinPosition 100 (16106127 / 1073741824) = 1 := by
  decide!

end Binary32

end VUPlayer
